import Mathlib

/-!
# QoS-NS3: differentiated-service packet scheduling

A shallow embedding of the classification and scheduling core of the
repository (traffic-class.cc, filter.cc, the filter elements, diff-serve.cc,
spq.cc and drr.cc) together with theorems about it.

Conventions of the embedding.

* A `Ptr<Packet>` is a record `Packet` that carries the address of the object
  it points to (`ptr`) next to the object's observable content (`size`,
  `headers`).  An address determines its object, so comparing two records
  compares the two pointers; `nullptr` is `none`.
* A `std::vector` or `std::queue` is a `List`; the vector of `TrafficClass*`
  owned by the dispatcher is the list of the class objects themselves.
* `uint32_t` values are natural numbers; where the source can wrap around the
  operation is reduced modulo `2 ^ 32`.
* `TrafficClass::m_weight` is a `double` that the configuration fills with an
  unsigned integer; it is a natural number here, and the conversion of
  `weight + credit` back to `uint32_t` is reduction modulo `2 ^ 32`.
* The unbounded `while (true)` loop of `DRR::Schedule` takes a fuel argument
  and reports `Fault.outOfFuel` when it has not returned within that many
  iterations.
-/

namespace QoS

/-- The value of `std::numeric_limits<uint32_t>::max ()`. -/
def UINT32_MAX : Nat := 4294967295

/-! ## Packets and headers -/

/-- The fields of an IPv4 header that the filter elements read. -/
structure Ipv4Header where
  source : Nat
  destination : Nat
  protocol : Nat
deriving DecidableEq, Repr

/-- The fields of a TCP header that the filter elements read. -/
structure TcpHeader where
  sourcePort : Nat
  destinationPort : Nat
deriving DecidableEq, Repr

/-- The fields of a UDP header that the filter elements read. -/
structure UdpHeader where
  sourcePort : Nat
  destinationPort : Nat
deriving DecidableEq, Repr

/-- One protocol header of a packet. -/
inductive Header where
  | ppp
  | ipv4 (h : Ipv4Header)
  | tcp (h : TcpHeader)
  | udp (h : UdpHeader)
deriving DecidableEq, Repr

/-- A packet handle: the address of the packet object, its byte length
(`GetSize ()`) and its headers, outermost first. -/
structure Packet where
  ptr : Nat
  size : Nat
  headers : List Header
deriving DecidableEq, Repr

/-- The call `Packet::Copy ()`: a new object, at the address the allocator
hands out, with the same content. -/
def Packet.Copy (p : Packet) (addr : Nat) : Packet :=
  { p with ptr := addr }

/-- Modelled from the spec: `Packet::RemoveHeader (PppHeader&)` of the ns-3
library, which is not part of the sources; it succeeds exactly when the
outermost header is the link-layer header and then strips it. -/
def removePppHeader : List Header → Option (List Header)
  | Header.ppp :: rest => some rest
  | _ => none

/-- Modelled from the spec: `Packet::PeekHeader (PppHeader&)` of the ns-3
library; it succeeds exactly when the outermost header is the link-layer
header and strips nothing. -/
def peekPppHeader : List Header → Bool
  | Header.ppp :: _ => true
  | _ => false

/-- Modelled from the spec: `Packet::RemoveHeader (Ipv4Header&)` of the ns-3
library; it succeeds exactly when the outermost header is an IPv4 header. -/
def removeIpv4Header : List Header → Option (Ipv4Header × List Header)
  | Header.ipv4 h :: rest => some (h, rest)
  | _ => none

/-- Modelled from the spec: `Packet::PeekHeader (Ipv4Header&)` of the ns-3
library. -/
def peekIpv4Header : List Header → Option Ipv4Header
  | Header.ipv4 h :: _ => some h
  | _ => none

/-- Modelled from the spec: `Packet::PeekHeader (TcpHeader&)` and
`Packet::RemoveHeader (TcpHeader&)` of the ns-3 library, as far as the header
read is concerned. -/
def peekTcpHeader : List Header → Option TcpHeader
  | Header.tcp h :: _ => some h
  | _ => none

/-- Modelled from the spec: `Packet::PeekHeader (UdpHeader&)` and
`Packet::RemoveHeader (UdpHeader&)` of the ns-3 library, as far as the header
read is concerned. -/
def peekUdpHeader : List Header → Option UdpHeader
  | Header.udp h :: _ => some h
  | _ => none

/-- The call `Ipv4Address::CombineMask`: bitwise and of address and mask. -/
def CombineMask (addr mask : Nat) : Nat := addr &&& mask

/-! ## Filter elements and filters -/

/-- The seven `FilterElement` subclasses with their member variables. -/
inductive FilterElement where
  | SrcIp (m_src : Nat)
  | DstIp (m_dst : Nat)
  | SrcMask (m_network_ip m_mask : Nat)
  | DstMask (m_network_ip m_mask : Nat)
  | SrcPort (m_port : Nat)
  | DstPort (m_port : Nat)
  | Protocol (m_protocol : Nat)
deriving DecidableEq, Repr

/-- The method `FilterElementSrcIp::match`. -/
def FilterElementSrcIp.Match (m_src : Nat) (p : Packet) : Bool :=
  match removePppHeader p.headers with
  | none => false
  | some copy =>
    match peekIpv4Header copy with
    | none => false
    | some ipHeader => ipHeader.source == m_src

/-- The method `FilterElementDstIp::match`; both headers are peeked on the
same, unstripped copy. -/
def FilterElementDstIp.Match (m_dst : Nat) (p : Packet) : Bool :=
  if !peekPppHeader p.headers then false
  else
    match peekIpv4Header p.headers with
    | none => false
    | some ipHeader => ipHeader.destination == m_dst

/-- The method `FilterElementSrcMask::match`. -/
def FilterElementSrcMask.Match (m_network_ip m_mask : Nat) (p : Packet) : Bool :=
  match removePppHeader p.headers with
  | none => false
  | some copy =>
    match removeIpv4Header copy with
    | none => false
    | some (ipv4Header, _) =>
      CombineMask ipv4Header.source m_mask == CombineMask m_network_ip m_mask

/-- The method `FilterElementDstMask::match`. -/
def FilterElementDstMask.Match (m_network_ip m_mask : Nat) (p : Packet) : Bool :=
  match removePppHeader p.headers with
  | none => false
  | some copy =>
    match removeIpv4Header copy with
    | none => false
    | some (ipv4Header, _) =>
      CombineMask ipv4Header.destination m_mask == CombineMask m_network_ip m_mask

/-- The method `FilterElementProtocol::match`. -/
def FilterElementProtocol.Match (m_protocol : Nat) (p : Packet) : Bool :=
  match removePppHeader p.headers with
  | none => false
  | some copy =>
    match removeIpv4Header copy with
    | none => false
    | some (ipv4Header, _) => ipv4Header.protocol == m_protocol

/-- The method `FilterElementSrcPort::match`; the source reads
`GetDestinationPort ()` in both branches. -/
def FilterElementSrcPort.Match (m_port : Nat) (p : Packet) : Bool :=
  match removePppHeader p.headers with
  | none => false
  | some copy =>
    match removeIpv4Header copy with
    | none => false
    | some (ipHeader, copy2) =>
      if ipHeader.protocol = 17 then
        match peekUdpHeader copy2 with
        | none => false
        | some udpheader => udpheader.destinationPort == m_port
      else if ipHeader.protocol = 6 then
        match peekTcpHeader copy2 with
        | none => false
        | some tcpHeader => tcpHeader.destinationPort == m_port
      else false

/-- The method `FilterElementDstPort::match`. -/
def FilterElementDstPort.Match (m_port : Nat) (p : Packet) : Bool :=
  match removePppHeader p.headers with
  | none => false
  | some packetCopy =>
    match removeIpv4Header packetCopy with
    | none => false
    | some (ipv4Header, packetCopy2) =>
      if ipv4Header.protocol = 6 then
        match peekTcpHeader packetCopy2 with
        | none => false
        | some tcpHeader => tcpHeader.destinationPort == m_port
      else if ipv4Header.protocol = 17 then
        match peekUdpHeader packetCopy2 with
        | none => false
        | some udpHeader => udpHeader.destinationPort == m_port
      else false

/-- The virtual call `FilterElement::match`, dispatched on the subclass. -/
def FilterElement.Match : FilterElement → Packet → Bool
  | FilterElement.SrcIp a, p => FilterElementSrcIp.Match a p
  | FilterElement.DstIp a, p => FilterElementDstIp.Match a p
  | FilterElement.SrcMask n m, p => FilterElementSrcMask.Match n m p
  | FilterElement.DstMask n m, p => FilterElementDstMask.Match n m p
  | FilterElement.SrcPort q, p => FilterElementSrcPort.Match q p
  | FilterElement.DstPort q, p => FilterElementDstPort.Match q p
  | FilterElement.Protocol q, p => FilterElementProtocol.Match q p

/-- A `Filter`: its vector `m_elements`. -/
structure Filter where
  m_elements : List FilterElement
deriving DecidableEq, Repr

/-- The loop of `Filter::Match`: false at the first element that does not
match. -/
def Filter.matchLoop (packet : Packet) : List FilterElement → Bool
  | [] => true
  | e :: rest => if !e.Match packet then false else Filter.matchLoop packet rest

/-- The method `Filter::Match`. -/
def Filter.Match (self : Filter) (packet : Packet) : Bool :=
  if self.m_elements.isEmpty then true
  else Filter.matchLoop packet self.m_elements

/-! ## Traffic classes -/

/-- The members of `TrafficClass`. -/
structure TrafficClass where
  m_queue : List Packet
  m_filters : List Filter
  m_packets : Nat
  m_maxPackets : Nat
  m_weight : Nat
  m_priority : Nat
  m_isDefault : Bool
deriving DecidableEq, Repr

namespace TrafficClass

/-- The constructor `TrafficClass::TrafficClass`. -/
def construct : TrafficClass :=
  { m_queue := [], m_filters := [], m_packets := 0, m_maxPackets := 100,
    m_weight := 0, m_priority := 0, m_isDefault := false }

def SetIsDefault (self : TrafficClass) (isDefault : Bool) : TrafficClass :=
  { self with m_isDefault := isDefault }

def IsDefault (self : TrafficClass) : Bool := self.m_isDefault

def SetMaxPackets (self : TrafficClass) (maxPackets : Nat) : TrafficClass :=
  { self with m_maxPackets := maxPackets }

def GetMaxPackets (self : TrafficClass) : Nat := self.m_maxPackets

def SetWeight (self : TrafficClass) (weight : Nat) : TrafficClass :=
  { self with m_weight := weight }

def GetWeight (self : TrafficClass) : Nat := self.m_weight

def SetPriority (self : TrafficClass) (priority : Nat) : TrafficClass :=
  { self with m_priority := priority }

def GetPriority (self : TrafficClass) : Nat := self.m_priority

def AddFilter (self : TrafficClass) (filter : Filter) : TrafficClass :=
  { self with m_filters := self.m_filters ++ [filter] }

def GetPackets (self : TrafficClass) : Nat := self.m_packets

/-- The method `TrafficClass::IsEmpty`: it tests the counter. -/
def IsEmpty (self : TrafficClass) : Bool := self.m_packets == 0

/-- The method `TrafficClass::Enqueue`: the result and the class afterwards. -/
def Enqueue (self : TrafficClass) (pkt : Packet) : Bool × TrafficClass :=
  if self.m_packets < self.m_maxPackets then
    (true, { self with m_queue := self.m_queue ++ [pkt],
                       m_packets := (self.m_packets + 1) % 2 ^ 32 })
  else (false, self)

/-- The method `TrafficClass::Dequeue`: it tests the queue itself, and the
counter decrement is a `uint32_t` decrement. -/
def Dequeue (self : TrafficClass) : Option Packet × TrafficClass :=
  match self.m_queue with
  | [] => (none, self)
  | pkt :: rest =>
    (some pkt, { self with m_queue := rest,
                           m_packets := (self.m_packets + (2 ^ 32 - 1)) % 2 ^ 32 })

/-- The method `TrafficClass::Peek`.  When the counter is non-zero although
the queue is empty the source calls `front ()` on an empty queue, which has
no defined result; the embedding yields `nullptr` there. -/
def Peek (self : TrafficClass) : Option Packet :=
  if self.IsEmpty then none else self.m_queue.head?

/-- The loop of `TrafficClass::Match`: true at the first filter that
matches. -/
def matchLoop (pkt : Packet) : List Filter → Bool
  | [] => false
  | filter :: rest => if filter.Match pkt then true else matchLoop pkt rest

/-- The method `TrafficClass::Match`. -/
def Match (self : TrafficClass) (pkt : Packet) : Bool :=
  if self.m_filters.isEmpty then true
  else matchLoop pkt self.m_filters

/-- The counter agrees with the queue and fits a `uint32_t`: the
representation invariant every class built through the public methods
has. -/
def Consistent (self : TrafficClass) : Prop :=
  self.m_packets = self.m_queue.length ∧ self.m_queue.length < 2 ^ 32

instance (tc : TrafficClass) : Decidable tc.Consistent := by
  unfold Consistent; infer_instance

end TrafficClass

/-! ## The dispatcher base class -/

/-- The members of `DiffServ`: the vector `m_queueClasses`. -/
structure DiffServ where
  m_queueClasses : List TrafficClass
deriving DecidableEq, Repr

namespace DiffServ

def AddClass (self : DiffServ) (trafficClass : TrafficClass) : DiffServ :=
  { self with m_queueClasses := self.m_queueClasses ++ [trafficClass] }

def GetClasses (self : DiffServ) : List TrafficClass := self.m_queueClasses

/-- The loop of `DiffServ::Classify` from index `i` on, over the classes not
yet visited, with the current value of `defaultIndex`. -/
def classifyLoop (packet : Packet) : List TrafficClass → Nat → Int → Int
  | [], _, defaultIndex => defaultIndex
  | tc :: rest, i, defaultIndex =>
    if tc.Match packet then (i : Int)
    else classifyLoop packet rest (i + 1) (if tc.IsDefault then (i : Int) else defaultIndex)

/-- The method `DiffServ::Classify`.  The loop counter is a `uint32_t` that
the `return` converts to `int`; the two agree below `2 ^ 31` classes. -/
def Classify (self : DiffServ) (packet : Packet) : Int :=
  classifyLoop packet self.m_queueClasses 0 (-1)

/-- The method `DiffServ::DoEnqueue`. -/
def DoEnqueue (self : DiffServ) (packet : Packet) : Bool × DiffServ :=
  let classIndex := self.Classify packet
  if classIndex > -1 ∧ classIndex < (self.m_queueClasses.length : Int) then
    match self.m_queueClasses[classIndex.toNat]? with
    | some tc =>
      let result := tc.Enqueue packet
      (result.1, { self with m_queueClasses := self.m_queueClasses.set classIndex.toNat result.2 })
    | none => (false, self)
  else (false, self)

/-- The search loop shared by `DiffServ::DoDequeue` and `DiffServ::DoRemove`:
the first class that is not empty and whose head is the scheduled packet is
dequeued. -/
def dequeueLoop (packet : Packet) : List TrafficClass → Option Packet × List TrafficClass
  | [] => (none, [])
  | tc :: rest =>
    if !tc.IsEmpty && tc.Peek == some packet then
      ((tc.Dequeue).1, (tc.Dequeue).2 :: rest)
    else
      ((dequeueLoop packet rest).1, tc :: (dequeueLoop packet rest).2)

/-- The method `DiffServ::DoDequeue`; `scheduled` is what the virtual call
`Schedule ()` of the subclass returned. -/
def DoDequeue (self : DiffServ) (scheduled : Option Packet) : Option Packet × DiffServ :=
  match scheduled with
  | none => (none, self)
  | some packet =>
    ((dequeueLoop packet self.m_queueClasses).1,
      { self with m_queueClasses := (dequeueLoop packet self.m_queueClasses).2 })

/-- The method `DiffServ::DoRemove`; `scheduled` is what the virtual call
`Schedule ()` of the subclass returned. -/
def DoRemove (self : DiffServ) (scheduled : Option Packet) : Option Packet × DiffServ :=
  match scheduled with
  | none => (none, self)
  | some packet =>
    ((dequeueLoop packet self.m_queueClasses).1,
      { self with m_queueClasses := (dequeueLoop packet self.m_queueClasses).2 })

/-- The method `DiffServ::DoPeek`; `scheduled` is what `Schedule ()` returned
and `addr` the address of the copy it allocates. -/
def DoPeek (scheduled : Option Packet) (addr : Nat) : Option Packet :=
  match scheduled with
  | some pkt => some (pkt.Copy addr)
  | none => none

end DiffServ

/-! ## Strict priority queuing -/

namespace SPQ

/-- The selection loop of `SPQ::Schedule` over the classes not yet visited,
with the current `highestPriorityClass` and `highestPriority`. -/
def scheduleLoop : List TrafficClass → Option TrafficClass → Nat → Option TrafficClass
  | [], highestPriorityClass, _ => highestPriorityClass
  | tc :: rest, highestPriorityClass, highestPriority =>
    if !tc.IsEmpty && decide (tc.GetPriority < highestPriority) then
      scheduleLoop rest (some tc) tc.GetPriority
    else scheduleLoop rest highestPriorityClass highestPriority

/-- The method `SPQ::Schedule`; `SPQ` adds no member to `DiffServ`. -/
def Schedule (self : DiffServ) : Option Packet :=
  if self.GetClasses.isEmpty then none
  else
    match scheduleLoop self.GetClasses none UINT32_MAX with
    | some highestPriorityClass => highestPriorityClass.Peek
    | none => none

/-- The method `DiffServ::Dequeue` on an `SPQ` object. -/
def Dequeue (self : DiffServ) : Option Packet × DiffServ :=
  self.DoDequeue (Schedule self)

/-- The method `DiffServ::Remove` on an `SPQ` object. -/
def Remove (self : DiffServ) : Option Packet × DiffServ :=
  self.DoRemove (Schedule self)

/-- The method `DiffServ::Peek` on an `SPQ` object; `addr` is the address of
the copy. -/
def Peek (self : DiffServ) (addr : Nat) : Option Packet :=
  DiffServ.DoPeek (Schedule self) addr

end SPQ

/-! ## Deficit round robin -/

/-- Why a call has no result: the scheduling loop was still running when the
fuel ran out, a vector was indexed outside its bounds, or a null pointer was
dereferenced. -/
inductive Fault where
  | outOfFuel
  | outOfBounds
  | nullDeref
deriving DecidableEq, Repr

/-- The members of `DRR` on top of those of `DiffServ`.  The constructor
initialises `m_currentQueueIndex` only. -/
structure DRR extends DiffServ where
  m_currentQueueIndex : Nat
  m_scheduledQueueIndex : Nat
  m_creditBalance : List Nat
  m_tempCreditBalance : List Nat
deriving DecidableEq, Repr

namespace DRR

/-- The method `DRR::AddClass`. -/
def AddClass (self : DRR) (trafficClass : TrafficClass) : DRR :=
  { self with
    m_queueClasses := self.m_queueClasses ++ [trafficClass]
    m_creditBalance := self.m_creditBalance ++ [0] }

/-- The `while (true)` loop of `DRR::Schedule`, run for at most `fuel`
iterations from `m_scheduledQueueIndex = idx` and `m_tempCreditBalance =
temp`.  It returns the selected packet with the final index and balances. -/
def scheduleLoop (queueList : List TrafficClass) :
    Nat → Nat → List Nat → Except Fault (Packet × Nat × List Nat)
  | 0, _, _ => Except.error Fault.outOfFuel
  | fuel + 1, idx, temp =>
    match queueList[idx]? with
    | none => Except.error Fault.outOfBounds
    | some tc =>
      if !tc.IsEmpty then
        match temp[idx]? with
        | none => Except.error Fault.outOfBounds
        | some credit =>
          match tc.Peek with
          | none => Except.error Fault.nullDeref
          | some head =>
            if head.size ≤ (tc.GetWeight + credit) % 2 ^ 32 then
              Except.ok (head, idx,
                temp.set idx ((tc.GetWeight + credit) % 2 ^ 32 - head.size))
            else
              scheduleLoop queueList fuel ((idx + 1) % queueList.length)
                (temp.set idx ((tc.GetWeight + credit) % 2 ^ 32))
      else
        scheduleLoop queueList fuel ((idx + 1) % queueList.length) temp

/-- The count of empty queues that `DRR::Schedule` takes before its loop. -/
def emptyQueueCount (queueList : List TrafficClass) : Nat :=
  (queueList.filter (fun tc => tc.IsEmpty)).length

/-- The method `DRR::Schedule`: the packet it returns and the object with the
`mutable` members it has written. -/
def Schedule (fuel : Nat) (self : DRR) : Except Fault (Option Packet × DRR) :=
  if self.m_queueClasses.isEmpty then Except.ok (none, self)
  else
    let reset : DRR :=
      { self with
        m_scheduledQueueIndex := self.m_currentQueueIndex
        m_tempCreditBalance := self.m_creditBalance }
    if emptyQueueCount self.m_queueClasses = self.m_queueClasses.length then
      Except.ok (none, reset)
    else
      match scheduleLoop self.m_queueClasses fuel self.m_currentQueueIndex
          self.m_creditBalance with
      | Except.error e => Except.error e
      | Except.ok (packet, idx, temp) =>
        Except.ok (some packet,
          { self with m_scheduledQueueIndex := idx, m_tempCreditBalance := temp })

/-- The method `DRR::Dequeue`: `DiffServ::Dequeue` runs `Schedule ()` and the
search loop, and a dequeued packet commits the tentative state. -/
def Dequeue (fuel : Nat) (self : DRR) : Except Fault (Option Packet × DRR) :=
  match Schedule fuel self with
  | Except.error e => Except.error e
  | Except.ok (scheduled, s1) =>
    match (s1.toDiffServ.DoDequeue scheduled).1 with
    | some dequeuedPacket =>
      Except.ok (some dequeuedPacket,
        { s1 with
          m_queueClasses := (s1.toDiffServ.DoDequeue scheduled).2.m_queueClasses
          m_currentQueueIndex := s1.m_scheduledQueueIndex
          m_creditBalance := s1.m_tempCreditBalance })
    | none =>
      Except.ok (none,
        { s1 with
          m_queueClasses := (s1.toDiffServ.DoDequeue scheduled).2.m_queueClasses })

/-- The method `DRR::Remove`: it reads `m_scheduledQueueIndex` and
`m_tempCreditBalance` as the last `Schedule ()` left them and does not call
`Schedule ()` itself. -/
def Remove (self : DRR) : Option Packet × DRR :=
  match self.m_queueClasses[self.m_scheduledQueueIndex]? with
  | none => (none, self)
  | some tc =>
    if tc.IsEmpty then (none, self)
    else
      match (tc.Dequeue).1 with
      | some packetToRemove =>
        (some packetToRemove,
          { self with
            m_queueClasses :=
              self.m_queueClasses.set self.m_scheduledQueueIndex (tc.Dequeue).2
            m_currentQueueIndex := self.m_scheduledQueueIndex
            m_creditBalance := self.m_tempCreditBalance })
      | none =>
        (none,
          { self with
            m_queueClasses :=
              self.m_queueClasses.set self.m_scheduledQueueIndex (tc.Dequeue).2 })

/-- The method `DiffServ::Peek` on a `DRR` object: `Schedule ()` followed by
a copy at address `addr`. -/
def Peek (fuel : Nat) (self : DRR) (addr : Nat) : Except Fault (Option Packet × DRR) :=
  match Schedule fuel self with
  | Except.error e => Except.error e
  | Except.ok (scheduled, s1) => Except.ok (DiffServ.DoPeek scheduled addr, s1)

end DRR

/-! ## Well-formed states and runs of calls -/

/-- Every class of the list satisfies the representation invariant. -/
def AllConsistent (classes : List TrafficClass) : Prop :=
  ∀ c ∈ classes, c.Consistent

instance (classes : List TrafficClass) : Decidable (AllConsistent classes) := by
  unfold AllConsistent; infer_instance

/-- The heads of the classes that are not empty, in class order. -/
def heads (classes : List TrafficClass) : List (Option Packet) :=
  (classes.filter (fun tc => !tc.IsEmpty)).map TrafficClass.Peek

/-- No packet object is at the head of two classes at once: a packet handed
to the dispatcher is owned by the one class that queued it. -/
def DistinctHeads (classes : List TrafficClass) : Prop :=
  (heads classes).Nodup

instance (classes : List TrafficClass) : Decidable (DistinctHeads classes) := by
  unfold DistinctHeads; infer_instance

/-- The class `self` holding exactly the packets `q`. -/
def TrafficClass.withQueue (self : TrafficClass) (q : List Packet) : TrafficClass :=
  { self with m_queue := q, m_packets := q.length }

/-- The results of `n` successive `Dequeue ()` calls on an `SPQ` object and
the object afterwards. -/
def SPQ.dequeueTimes : Nat → DiffServ → List (Option Packet) × DiffServ
  | 0, self => ([], self)
  | n + 1, self =>
    ((SPQ.Dequeue self).1 :: (SPQ.dequeueTimes n (SPQ.Dequeue self).2).1,
      (SPQ.dequeueTimes n (SPQ.Dequeue self).2).2)

/-- The results of successive `Peek ()` calls on a `DRR` object, one per
address in `addrs` (the address at which that call allocates its copy), and
the object afterwards. -/
def DRR.peekTimes (fuel : Nat) : List Nat → DRR → Except Fault (List (Option Packet) × DRR)
  | [], self => Except.ok ([], self)
  | addr :: addrs, self =>
    match DRR.Peek fuel self addr with
    | Except.error e => Except.error e
    | Except.ok (r, s1) =>
      match DRR.peekTimes fuel addrs s1 with
      | Except.error e => Except.error e
      | Except.ok (rs, s2) => Except.ok (r :: rs, s2)

/-! ## Concrete packets and classes for the worked instances -/

/-- A packet without headers at address `addr` with `size` bytes. -/
def plainPacket (addr size : Nat) : Packet :=
  { ptr := addr, size := size, headers := [] }

/-- A class without filters that holds the packets `q`, with the given weight
and priority and the default capacity. -/
def plainClass (q : List Packet) (weight priority : Nat) : TrafficClass :=
  { m_queue := q, m_filters := [], m_packets := q.length, m_maxPackets := 100,
    m_weight := weight, m_priority := priority, m_isDefault := false }

/-- A `DRR` object with one class of weight 0, the weight the constructor of
`TrafficClass` sets, that holds one packet of 100 bytes: what `AddClass` and
one `Enqueue` leave of a fresh object. -/
def zeroWeightDRR : DRR :=
  { m_queueClasses := [plainClass [plainPacket 1 100] 0 0]
    m_currentQueueIndex := 0
    m_scheduledQueueIndex := 0
    m_creditBalance := [0]
    m_tempCreditBalance := [0] }

/-- A `DRR` object with two classes of weight 1000 after a `Schedule ()` that
found both empty and an `Enqueue` into class 1: the cursor and the scheduled
index are 0 and class 0 is empty. -/
def staleScheduleDRR : DRR :=
  { m_queueClasses := [plainClass [] 1000 0, plainClass [plainPacket 1 100] 1000 0]
    m_currentQueueIndex := 0
    m_scheduledQueueIndex := 0
    m_creditBalance := [0, 0]
    m_tempCreditBalance := [0, 0] }

/-- A `DRR` object with weights 300 and 200 whose classes hold packets of
1000 and 500 bytes. -/
def twoClassDRR : DRR :=
  { m_queueClasses :=
      [plainClass [plainPacket 1 1000, plainPacket 2 1000] 300 0,
        plainClass [plainPacket 3 500] 200 0]
    m_currentQueueIndex := 0
    m_scheduledQueueIndex := 0
    m_creditBalance := [0, 0]
    m_tempCreditBalance := [0, 0] }

/-- The object `twoClassDRR` after its first `Dequeue ()`: class 1 was
popped, the cursor is 1 and the balances are 900 and 100. -/
def twoClassDRRAfterDequeue : DRR :=
  { m_queueClasses :=
      [plainClass [plainPacket 1 1000, plainPacket 2 1000] 300 0, plainClass [] 200 0]
    m_currentQueueIndex := 1
    m_scheduledQueueIndex := 1
    m_creditBalance := [900, 100]
    m_tempCreditBalance := [900, 100] }

/-- The object `twoClassDRR` after a `Peek ()`: only the tentative members
differ. -/
def twoClassDRRAfterPeek : DRR :=
  { twoClassDRR with m_scheduledQueueIndex := 1, m_tempCreditBalance := [900, 100] }

/-! ## A termination measure for the loop of `DRR::Schedule` -/

/-- The number of steps the round-robin index `idx` needs to reach class `k`
among `n` classes. -/
def DRR.distance (n idx k : Nat) : Nat :=
  if idx ≤ k then k - idx else k + n - idx

/-- A bound on the further visits a class with balance `c` needs before a
head packet of `len` bytes is affordable, for a weight of at least 1. -/
def DRR.visitsLeft (len c : Nat) : Nat :=
  if c < len then len - c else len + 1

/-- The measure that every iteration of the loop without a selection lowers:
the visits class `k` still needs, weighted by the number of classes, plus the
distance from the index to `k`. -/
def DRR.potential (n k len idx : Nat) (temp : List Nat) : Nat :=
  DRR.visitsLeft len ((temp[k]?).getD 0) * n + DRR.distance n idx k

/-! ## Enqueue entry points, call sequences and reachable states -/

/-- The method `DiffServ::Enqueue`, which `SPQ` and `DRR` inherit. -/
def DiffServ.Enqueue (self : DiffServ) (p : Packet) : Bool × DiffServ :=
  self.DoEnqueue p

/-- The method `DiffServ::Enqueue` on a `DRR` object: it touches the members
of the base class only. -/
def DRR.Enqueue (self : DRR) (p : Packet) : Bool × DRR :=
  ((self.toDiffServ.Enqueue p).1, { self with toDiffServ := (self.toDiffServ.Enqueue p).2 })

/-- A call on a single traffic class. -/
inductive TrafficClass.Call where
  | Enqueue (pkt : Packet)
  | Dequeue
  | Peek
deriving DecidableEq, Repr

/-- The calls `calls` made in order on the class `tc`: the packets that
`Enqueue` accepted, the packets that `Dequeue` returned, both in call order,
and the class afterwards. -/
def TrafficClass.run : List TrafficClass.Call → TrafficClass →
    List Packet × List Packet × TrafficClass
  | [], tc => ([], [], tc)
  | TrafficClass.Call.Enqueue pkt :: rest, tc =>
    (if (tc.Enqueue pkt).1 then pkt :: (TrafficClass.run rest (tc.Enqueue pkt).2).1
      else (TrafficClass.run rest (tc.Enqueue pkt).2).1,
      (TrafficClass.run rest (tc.Enqueue pkt).2).2.1,
      (TrafficClass.run rest (tc.Enqueue pkt).2).2.2)
  | TrafficClass.Call.Dequeue :: rest, tc =>
    ((TrafficClass.run rest tc.Dequeue.2).1,
      (match tc.Dequeue.1 with
        | some pkt => pkt :: (TrafficClass.run rest tc.Dequeue.2).2.1
        | none => (TrafficClass.run rest tc.Dequeue.2).2.1),
      (TrafficClass.run rest tc.Dequeue.2).2.2)
  | TrafficClass.Call.Peek :: rest, tc => TrafficClass.run rest tc

/-- The counter agrees with the queue, the queue is no longer than the
capacity, and the capacity is a `uint32_t`. -/
def TrafficClass.Bounded (self : TrafficClass) : Prop :=
  self.m_packets = self.m_queue.length ∧ self.m_queue.length ≤ self.m_maxPackets ∧
    self.m_maxPackets < 2 ^ 32

instance (tc : TrafficClass) : Decidable tc.Bounded := by
  unfold TrafficClass.Bounded; infer_instance

/-- A class as it is before any packet was enqueued: empty queue, counter 0,
whatever filters, capacity, weight, priority and default flag were set. -/
def TrafficClass.Fresh (self : TrafficClass) : Prop :=
  self.m_queue = [] ∧ self.m_packets = 0 ∧ self.m_maxPackets < 2 ^ 32

instance (tc : TrafficClass) : Decidable tc.Fresh := by
  unfold TrafficClass.Fresh; infer_instance

/-- A dispatcher that holds no packet yet: every class is fresh. -/
def EmptyDispatcher (self : DiffServ) : Prop :=
  ∀ tc ∈ self.m_queueClasses, tc.Fresh

instance (self : DiffServ) : Decidable (EmptyDispatcher self) := by
  unfold EmptyDispatcher; infer_instance

/-- The configured part of a class: everything but the queue and its
counter. -/
def TrafficClass.settings (self : TrafficClass) : List Filter × Nat × Nat × Nat × Bool :=
  (self.m_filters, self.m_maxPackets, self.m_weight, self.m_priority, self.m_isDefault)

/-- The configuration of a dispatcher: the settings of its classes in class
order. -/
def DiffServ.config (classes : List TrafficClass) :
    List (List Filter × Nat × Nat × Nat × Bool) :=
  classes.map TrafficClass.settings

/-- Every queued packet sits in the class that `Classify` assigns to it. -/
def Routed (self : DiffServ) : Prop :=
  ∀ (i : Nat) (tc : TrafficClass), self.m_queueClasses[i]? = some tc →
    ∀ p ∈ tc.m_queue, self.Classify p = (i : Int)

/-- The states of an `SPQ` object that `Enqueue` and `Dequeue` calls lead to
from `start`; a `Peek` leaves the object as it is and adds no state. -/
inductive SPQ.Reachable (start : DiffServ) : DiffServ → Prop where
  | refl : SPQ.Reachable start start
  | enqueue (s : DiffServ) (p : Packet) :
      SPQ.Reachable start s → SPQ.Reachable start (s.Enqueue p).2
  | dequeue (s : DiffServ) :
      SPQ.Reachable start s → SPQ.Reachable start (SPQ.Dequeue s).2

/-- The states of a `DRR` object that `Enqueue`, `Dequeue` and `Peek` calls
lead to from `start`, each `Dequeue` and `Peek` being one that returns. -/
inductive DRR.Reachable (start : DRR) : DRR → Prop where
  | refl : DRR.Reachable start start
  | enqueue (s : DRR) (p : Packet) :
      DRR.Reachable start s → DRR.Reachable start (s.Enqueue p).2
  | dequeue (s s' : DRR) (fuel : Nat) (r : Option Packet) :
      DRR.Reachable start s → DRR.Dequeue fuel s = Except.ok (r, s') →
      DRR.Reachable start s'
  | peek (s s' : DRR) (fuel addr : Nat) (r : Option Packet) :
      DRR.Reachable start s → DRR.Peek fuel s addr = Except.ok (r, s') →
      DRR.Reachable start s'

/-- A class of capacity 2 that holds the packets `q`. -/
def smallClass (q : List Packet) : TrafficClass :=
  { m_queue := q, m_filters := [], m_packets := q.length, m_maxPackets := 2,
    m_weight := 0, m_priority := 0, m_isDefault := false }

/-- A class of capacity 1 whose single filter asks for the IPv4 protocol
number `proto`, holding the packets `q`. -/
def protocolClass (proto : Nat) (isDefault : Bool) (q : List Packet) : TrafficClass :=
  { m_queue := q, m_filters := [{ m_elements := [FilterElement.Protocol proto] }],
    m_packets := q.length, m_maxPackets := 1, m_weight := 0, m_priority := 0,
    m_isDefault := isDefault }

/-- Three classes filtered on protocols 17, 6 and 1, the last one flagged
default and holding `q`. -/
def threeClassDispatcher (q : List Packet) : DiffServ :=
  { m_queueClasses :=
      [protocolClass 17 false [], protocolClass 6 false [], protocolClass 1 true q] }

/-- The same three classes without a default class. -/
def noDefaultDispatcher : DiffServ :=
  { m_queueClasses :=
      [protocolClass 17 false [], protocolClass 6 false [], protocolClass 1 false []] }

/-- What the states reachable from `start` keep: the configuration of
`start`, bounded classes, and every queued packet in the class that
`Classify` assigns to it. -/
def DiffServ.Inv (start self : DiffServ) : Prop :=
  DiffServ.config self.m_queueClasses = DiffServ.config start.m_queueClasses ∧
    (∀ tc ∈ self.m_queueClasses, tc.Bounded) ∧ Routed self

/-- A packet with link-layer, IPv4 and UDP headers (protocol 17). -/
def udpPacket (addr size : Nat) : Packet :=
  { ptr := addr, size := size,
    headers :=
      [Header.ppp, Header.ipv4 { source := 1, destination := 2, protocol := 17 },
        Header.udp { sourcePort := 1000, destinationPort := 2000 }] }

/-- A packet with link-layer, IPv4 and TCP headers (protocol 6). -/
def tcpPacket (addr size : Nat) : Packet :=
  { ptr := addr, size := size,
    headers :=
      [Header.ppp, Header.ipv4 { source := 1, destination := 2, protocol := 6 },
        Header.tcp { sourcePort := 1000, destinationPort := 2000 }] }

/-- An empty class of capacity 10 for the packets with IPv4 protocol number
`proto`, with the given weight and priority. -/
def protocolQueue (proto weight priority : Nat) : TrafficClass :=
  { m_queue := [], m_filters := [{ m_elements := [FilterElement.Protocol proto] }],
    m_packets := 0, m_maxPackets := 10, m_weight := weight, m_priority := priority,
    m_isDefault := false }

/-- An empty dispatcher with a class for UDP of priority 1 and weight 500 and
a class for TCP of priority 0 and weight 500. -/
def udpTcpDispatcher : DiffServ :=
  { m_queueClasses := [protocolQueue 17 500 1, protocolQueue 6 500 0] }

/-- The fresh `DRR` object over `udpTcpDispatcher`. -/
def udpTcpDRR : DRR :=
  { toDiffServ := udpTcpDispatcher
    m_currentQueueIndex := 0
    m_scheduledQueueIndex := 0
    m_creditBalance := [0, 0]
    m_tempCreditBalance := [] }

/-- The dispatcher `udpTcpDispatcher` after the `Enqueue` of a UDP packet of
400 bytes and of a TCP packet of 300 bytes. -/
def udpTcpLoaded : DiffServ :=
  ((udpTcpDispatcher.Enqueue (udpPacket 1 400)).2.Enqueue (tcpPacket 2 300)).2

/-- The object `udpTcpDRR` after the same two `Enqueue` calls. -/
def udpTcpLoadedDRR : DRR :=
  ((udpTcpDRR.Enqueue (udpPacket 1 400)).2.Enqueue (tcpPacket 2 300)).2

/-- The object `udpTcpLoadedDRR` after a `Schedule ()`: class 0 is scheduled
with a tentative balance of 100. -/
def udpTcpScheduledDRR : DRR :=
  { udpTcpLoadedDRR with m_scheduledQueueIndex := 0, m_tempCreditBalance := [100, 0] }

/-- Six calls on one class: three `Enqueue`, a `Dequeue`, an `Enqueue` and a
`Dequeue`. -/
def sampleCalls : List TrafficClass.Call :=
  [TrafficClass.Call.Enqueue (plainPacket 1 10), TrafficClass.Call.Enqueue (plainPacket 2 20),
    TrafficClass.Call.Enqueue (plainPacket 3 30), TrafficClass.Call.Dequeue,
    TrafficClass.Call.Enqueue (plainPacket 4 40), TrafficClass.Call.Dequeue]

/-! ## Fresh `DRR` objects and runs of `Dequeue` calls -/

/-- The constructor `DRR::DRR`: it initialises `m_currentQueueIndex` to 0 and
leaves `m_scheduledQueueIndex` with whatever value `scheduled` the memory
holds; the vectors start empty. -/
def DRR.construct (scheduled : Nat) : DRR :=
  { m_queueClasses := []
    m_currentQueueIndex := 0
    m_scheduledQueueIndex := scheduled
    m_creditBalance := []
    m_tempCreditBalance := [] }

/-- The states of a `DRR` object that `AddClass`, `Enqueue`, `Peek` and
`Dequeue` calls lead to from a freshly constructed object, each `Peek` and
`Dequeue` being one that returns. -/
inductive DRR.FromFresh : DRR → Prop where
  | fresh (scheduled : Nat) : DRR.FromFresh (DRR.construct scheduled)
  | addClass (s : DRR) (tc : TrafficClass) :
      DRR.FromFresh s → DRR.FromFresh (s.AddClass tc)
  | enqueue (s : DRR) (p : Packet) :
      DRR.FromFresh s → DRR.FromFresh (s.Enqueue p).2
  | dequeue (s s' : DRR) (fuel : Nat) (r : Option Packet) :
      DRR.FromFresh s → DRR.Dequeue fuel s = Except.ok (r, s') → DRR.FromFresh s'
  | peek (s s' : DRR) (fuel addr : Nat) (r : Option Packet) :
      DRR.FromFresh s → DRR.Peek fuel s addr = Except.ok (r, s') → DRR.FromFresh s'

/-- The results of `n` successive `Dequeue ()` calls on a `DRR` object, each
with `fuel` iterations at its disposal, and the object afterwards. -/
def DRR.dequeueTimes (fuel : Nat) : Nat → DRR → Except Fault (List (Option Packet) × DRR)
  | 0, self => Except.ok ([], self)
  | n + 1, self =>
    match DRR.Dequeue fuel self with
    | Except.error e => Except.error e
    | Except.ok (r, s1) =>
      match DRR.dequeueTimes fuel n s1 with
      | Except.error e => Except.error e
      | Except.ok (rs, s2) => Except.ok (r :: rs, s2)

/-- The packets of two queues taken in turn, first of the first queue, first
of the second, and so on, for as long as both queues have one. -/
def alternating : List Packet → List Packet → List (Option Packet)
  | a :: qa, b :: qb => some a :: some b :: alternating qa qb
  | _, _ => []

/-- A `DRR` object over the two classes `A` and `B` with the cursor at `cur`
and the balances `credit`; the tentative members hold what the last
`Schedule ()` left. -/
def DRR.ofTwo (A B : TrafficClass) (cur : Nat) (credit : List Nat) (sched : Nat)
    (temp : List Nat) : DRR :=
  { m_queueClasses := [A, B]
    m_currentQueueIndex := cur
    m_scheduledQueueIndex := sched
    m_creditBalance := credit
    m_tempCreditBalance := temp }

/-- The states of a two-class object from which the next `Dequeue ()` serves
class 0 when both classes have weight `w` and packets of `len` bytes: the
cursor at class 0 with equal balances, or at class 1 with class 0 one weight
ahead. -/
def DRR.ReadyFirst (w len cur : Nat) (credit : List Nat) : Prop :=
  (cur = 0 ∧ ∃ c, credit = [c, c] ∧ c < len) ∨
  (cur = 1 ∧ ∃ r, credit = [w + r, r] ∧ w + r < len)

/-- The bytes of the packets that a run of `Dequeue ()` calls returned. -/
def returnedBytes (rs : List (Option Packet)) : Nat :=
  ((rs.filterMap id).map Packet.size).sum

/-- The bytes of the returned packets that were queued in the class holding
`q`. -/
def returnedBytesOf (q : List Packet) (rs : List (Option Packet)) : Nat :=
  (((rs.filterMap id).filter (fun p => decide (p ∈ q))).map Packet.size).sum

/-- Calls of `Dequeue ()` on a `DRR` object, each followed by an
`Enqueue (p)`, `n` times over: the packets returned and the object
afterwards. -/
def DRR.serveAndRefill (fuel : Nat) (p : Packet) :
    Nat → DRR → Except Fault (List (Option Packet) × DRR)
  | 0, self => Except.ok ([], self)
  | n + 1, self =>
    match DRR.Dequeue fuel self with
    | Except.error e => Except.error e
    | Except.ok (r, s1) =>
      match DRR.serveAndRefill fuel p n (s1.Enqueue p).2 with
      | Except.error e => Except.error e
      | Except.ok (rs, s2) => Except.ok (r :: rs, s2)

/-- Two classes of weight 1 with three packets of 1000 bytes each, zero
balances and the cursor at class 0. -/
def unitWeightDRR (sched : Nat) (temp : List Nat) : DRR :=
  DRR.ofTwo (plainClass [plainPacket 1 1000, plainPacket 2 1000, plainPacket 3 1000] 1 0)
    (plainClass [plainPacket 4 1000, plainPacket 5 1000, plainPacket 6 1000] 1 0)
    0 [0, 0] sched temp

/-- Two classes of weight 2000 with three packets of 1000 bytes each, zero
balances and the cursor at class 0. -/
def heavyWeightDRR : DRR :=
  DRR.ofTwo (plainClass [plainPacket 1 1000, plainPacket 2 1000, plainPacket 3 1000] 2000 0)
    (plainClass [plainPacket 4 1000, plainPacket 5 1000, plainPacket 6 1000] 2000 0)
    0 [0, 0] 0 []

/-- Two classes of weight 3 with two packets of 7 bytes each, zero balances
and the cursor at class 0. -/
def smallWeightDRR : DRR :=
  DRR.ofTwo ((plainClass [] 3 0).withQueue [plainPacket 1 7, plainPacket 2 7])
    ((plainClass [] 3 0).withQueue [plainPacket 4 7, plainPacket 5 7]) 0 [0, 0] 0 []

/-- Three classes of weights 10, 20 and 30 with four packets of 10 bytes
each, zero balances and the cursor at class 0. -/
def weightedDRR : DRR :=
  { m_queueClasses :=
      [plainClass [plainPacket 1 10, plainPacket 2 10, plainPacket 3 10, plainPacket 4 10] 10 0,
        plainClass [plainPacket 5 10, plainPacket 6 10, plainPacket 7 10, plainPacket 8 10] 20 0,
        plainClass [plainPacket 9 10, plainPacket 10 10, plainPacket 11 10, plainPacket 12 10]
          30 0]
    m_currentQueueIndex := 0
    m_scheduledQueueIndex := 0
    m_creditBalance := [0, 0, 0]
    m_tempCreditBalance := [] }

/-- A class of weight 1000 for UDP holding one UDP packet of 1000 bytes and a
class of weight 1000 for TCP holding one TCP packet of 1000 bytes, with zero
balances and the cursor at class 0. -/
def refilledDRR : DRR :=
  { m_queueClasses :=
      [(protocolQueue 17 1000 0).withQueue [udpPacket 1 1000],
        (protocolQueue 6 1000 0).withQueue [tcpPacket 2 1000]]
    m_currentQueueIndex := 0
    m_scheduledQueueIndex := 0
    m_creditBalance := [0, 0]
    m_tempCreditBalance := [0, 0] }

/-! ## Runs of `Enqueue` calls, queued packets and the round-robin walk -/

/-- The results of `Enqueue` calls on one class, one per packet of `pkts` in
order, and the class afterwards. -/
def TrafficClass.enqueueAll : List Packet → TrafficClass → List Bool × TrafficClass
  | [], tc => ([], tc)
  | pkt :: rest, tc =>
    ((tc.Enqueue pkt).1 :: (TrafficClass.enqueueAll rest (tc.Enqueue pkt).2).1,
      (TrafficClass.enqueueAll rest (tc.Enqueue pkt).2).2)

/-- The packets queued in the classes of a dispatcher, class by class. -/
def queuedPackets (classes : List TrafficClass) : List Packet :=
  (classes.map TrafficClass.m_queue).flatten

/-- The indices that the loop of `DRR::Schedule` visits in its first `t`
iterations when it starts at `idx` among `n` classes: every iteration that
does not return moves on to `(idx + 1) % n`. -/
def DRR.walk (n : Nat) : Nat → Nat → List Nat
  | _, 0 => []
  | idx, t + 1 => idx :: DRR.walk n ((idx + 1) % n) t

/-- No addition of a weight to a balance that the loop of `DRR::Schedule` can
make from the balances `temp` leaves the range of `uint32_t`: every class
with a head packet has `balance + weight < 2 ^ 32` and
`size of head + weight ≤ 2 ^ 32`. -/
def DRR.NoWrap (queueList : List TrafficClass) (temp : List Nat) : Prop :=
  ∀ (i : Nat) (tc : TrafficClass) (head : Packet) (c : Nat),
    queueList[i]? = some tc → tc.Peek = some head → temp[i]? = some c →
    c + tc.GetWeight < 2 ^ 32 ∧ head.size + tc.GetWeight ≤ 2 ^ 32

/-- A default class for protocol 1 placed before a class for protocol 17. -/
def defaultFirstDispatcher : DiffServ :=
  { m_queueClasses := [protocolClass 1 true [], protocolClass 17 false []] }

/-- Two default classes, for protocols 1 and 6, before a class for protocol
17 that is not flagged default. -/
def twoDefaultsDispatcher : DiffServ :=
  { m_queueClasses :=
      [protocolClass 1 true [], protocolClass 6 true [], protocolClass 17 false []] }

/-! ## Initialisation from the parsed configuration -/

/-- The constructor `DiffServ::DiffServ`, which `SPQ::SPQ` calls: no
classes. -/
def DiffServ.construct : DiffServ := { m_queueClasses := [] }

/-- The defaulted constructor `Filter::Filter`. -/
def Filter.construct : Filter := { m_elements := [] }

/-- The method `Filter::AddFilterElement`. -/
def Filter.AddFilterElement (self : Filter) (element : FilterElement) : Filter :=
  { self with m_elements := self.m_elements ++ [element] }

/-- The members of `QueueConfig`, one parsed queue of the configuration
file. -/
structure QueueConfig where
  no : Int
  isDefault : Bool
  maxPackets : Nat
  destPort : Nat
  srcPort : Nat
  protocol : String
  mask : String
  destIp : String
  sourceIp : String
  priority : Nat
  weight : Nat
deriving DecidableEq, Repr

/-- The loop of `Validation::InitializeSPQ` over the queues not yet visited,
on the object `spq`. -/
def Validation.initializeSPQLoop : List QueueConfig → DiffServ → DiffServ
  | [], spq => spq
  | queueConfig :: rest, spq =>
    let tc := ((TrafficClass.construct.SetMaxPackets queueConfig.maxPackets).SetPriority
      queueConfig.priority).SetIsDefault queueConfig.isDefault
    let filter := Filter.construct.AddFilterElement (FilterElement.DstPort queueConfig.destPort)
    Validation.initializeSPQLoop rest (spq.AddClass (tc.AddFilter filter))

/-- The method `Validation::InitializeSPQ`; `spq` is the member of that name,
`none` for a null pointer, and `queues` is `m_configData.queues`. -/
def Validation.InitializeSPQ (spq : Option DiffServ) (queues : List QueueConfig) : DiffServ :=
  Validation.initializeSPQLoop queues
    (match spq with
      | some object => object
      | none => DiffServ.construct)

/-- The loop of `Validation::InitializeDRR` over the queues not yet visited,
on the object `drr`. -/
def Validation.initializeDRRLoop : List QueueConfig → DRR → DRR
  | [], drr => drr
  | queueConfig :: rest, drr =>
    let tc := (TrafficClass.construct.SetMaxPackets queueConfig.maxPackets).SetWeight
      queueConfig.weight
    let filter := Filter.construct.AddFilterElement (FilterElement.DstPort queueConfig.destPort)
    Validation.initializeDRRLoop rest (drr.AddClass (tc.AddFilter filter))

/-- The method `Validation::InitializeDRR`; `drr` is the member of that name,
`none` for a null pointer, `scheduled` is what the memory of a new object
holds for `m_scheduledQueueIndex`, and `queues` is `m_configData.queues`. -/
def Validation.InitializeDRR (drr : Option DRR) (scheduled : Nat)
    (queues : List QueueConfig) : DRR :=
  Validation.initializeDRRLoop queues
    (match drr with
      | some object => object
      | none => DRR.construct scheduled)

/-- The class that the configuration describes for an `SPQ` queue: empty,
with the configured capacity, priority and default flag and one filter with
one destination-port element. -/
def QueueConfig.spqClass (q : QueueConfig) : TrafficClass :=
  { m_queue := [], m_filters := [{ m_elements := [FilterElement.DstPort q.destPort] }],
    m_packets := 0, m_maxPackets := q.maxPackets, m_weight := 0, m_priority := q.priority,
    m_isDefault := q.isDefault }

/-- The class that `Validation::InitializeDRR` builds for a queue: empty,
with the configured capacity and weight and one filter with one
destination-port element; the default flag is the constructor's `false`. -/
def QueueConfig.drrClass (q : QueueConfig) : TrafficClass :=
  { m_queue := [], m_filters := [{ m_elements := [FilterElement.DstPort q.destPort] }],
    m_packets := 0, m_maxPackets := q.maxPackets, m_weight := q.weight, m_priority := 0,
    m_isDefault := false }

/-- A parsed queue with the given default flag, capacity, destination port,
priority and weight. -/
def sampleQueue (isDefault : Bool) (maxPackets destPort priority weight : Nat) :
    QueueConfig :=
  { no := 0, isDefault := isDefault, maxPackets := maxPackets, destPort := destPort,
    srcPort := 0, protocol := "", mask := "", destIp := "", sourceIp := "",
    priority := priority, weight := weight }

/-! ## States in which a balance leaves the range of `uint32_t` -/

/-- The calls `Enqueue (p)` for the packets `pkts` in order on a `DRR`
object, and the object afterwards. -/
def DRR.enqueueEach (self : DRR) (pkts : List Packet) : DRR :=
  pkts.foldl (fun s p => (s.Enqueue p).2) self

/-- A new `DRR` object with one class for UDP of weight 3000000000, after
the `Enqueue` of two UDP packets of 1000 bytes. -/
def heavyLoadedDRR : DRR :=
  ((DRR.construct 0).AddClass (protocolQueue 17 3000000000 0)).enqueueEach
    [udpPacket 1 1000, udpPacket 2 1000]

/-- The object `heavyLoadedDRR` after its first `Dequeue ()`: the second
packet is queued and the balance of the class is 2999999000. -/
def heavyCreditDRR : DRR :=
  { m_queueClasses := [(protocolQueue 17 3000000000 0).withQueue [udpPacket 2 1000]]
    m_currentQueueIndex := 0
    m_scheduledQueueIndex := 0
    m_creditBalance := [2999999000]
    m_tempCreditBalance := [2999999000] }

/-- A new `DRR` object with a class for UDP of weight 2147484248 and a class
for TCP of weight 1000, after the `Enqueue` of three UDP and three TCP
packets of 1000 bytes. -/
def wrappingDRR : DRR :=
  (((DRR.construct 0).AddClass (protocolQueue 17 2147484248 0)).AddClass
    (protocolQueue 6 1000 0)).enqueueEach
    [udpPacket 1 1000, udpPacket 2 1000, udpPacket 3 1000,
      tcpPacket 4 1000, tcpPacket 5 1000, tcpPacket 6 1000]

/-- The object `wrappingDRR` after its first `Dequeue ()`: the cursor is at
class 0, which holds two packets and the balance 2147483248. -/
def wrappingDRRAfterDequeue : DRR :=
  { m_queueClasses :=
      [(protocolQueue 17 2147484248 0).withQueue [udpPacket 2 1000, udpPacket 3 1000],
        (protocolQueue 6 1000 0).withQueue
          [tcpPacket 4 1000, tcpPacket 5 1000, tcpPacket 6 1000]]
    m_currentQueueIndex := 0
    m_scheduledQueueIndex := 0
    m_creditBalance := [2147483248, 0]
    m_tempCreditBalance := [2147483248, 0] }

/-! ## Classification -/

theorem classifyLoop_first_match (packet : Packet) :
    ∀ (l : List TrafficClass) (k : Nat) (d : Int) (i : Nat) (c : TrafficClass),
      l[i]? = some c → c.Match packet = true →
      (∀ j c', j < i → l[j]? = some c' → c'.Match packet = false) →
      DiffServ.classifyLoop packet l k d = ((k + i : Nat) : Int) := by
  intro l
  induction l with
  | nil => intro k d i c h; simp at h
  | cons tc rest ih =>
    intro k d i c h hm hfirst
    cases i with
    | zero =>
      simp at h
      subst h
      simp [DiffServ.classifyLoop, hm]
    | succ n =>
      have h0 : tc.Match packet = false := hfirst 0 tc (Nat.succ_pos n) (by simp)
      simp only [List.getElem?_cons_succ] at h
      have := ih (k + 1) (if tc.IsDefault then (k : Int) else d) n c h hm
        (fun j c' hj hc => hfirst (j + 1) c' (by omega) (by simpa using hc))
      simp only [DiffServ.classifyLoop, h0, Bool.false_eq_true, if_false]
      rw [this]
      congr 1
      omega

theorem classifyLoop_no_match_no_default (packet : Packet) :
    ∀ (l : List TrafficClass) (k : Nat) (d : Int),
      (∀ c ∈ l, c.Match packet = false) → (∀ c ∈ l, c.IsDefault = false) →
      DiffServ.classifyLoop packet l k d = d := by
  intro l
  induction l with
  | nil => intro k d _ _; rfl
  | cons tc rest ih =>
    intro k d hm hd
    have h0 : tc.Match packet = false := hm tc (List.mem_cons_self _ _)
    have h1 : tc.IsDefault = false := hd tc (List.mem_cons_self _ _)
    simp only [DiffServ.classifyLoop, h0, h1, Bool.false_eq_true, if_false]
    exact ih (k + 1) d (fun c hc => hm c (List.mem_cons_of_mem _ hc))
      (fun c hc => hd c (List.mem_cons_of_mem _ hc))

theorem classifyLoop_no_match_default (packet : Packet) :
    ∀ (l : List TrafficClass) (k : Nat) (d : Int) (i : Nat) (c : TrafficClass),
      (∀ c ∈ l, c.Match packet = false) →
      l[i]? = some c → c.IsDefault = true →
      (∀ j c', i < j → l[j]? = some c' → c'.IsDefault = false) →
      DiffServ.classifyLoop packet l k d = ((k + i : Nat) : Int) := by
  intro l
  induction l with
  | nil => intro k d i c _ h; simp at h
  | cons tc rest ih =>
    intro k d i c hm h hdef hlast
    have h0 : tc.Match packet = false := hm tc (List.mem_cons_self _ _)
    have hm' : ∀ c ∈ rest, c.Match packet = false :=
      fun c hc => hm c (List.mem_cons_of_mem _ hc)
    cases i with
    | zero =>
      simp at h
      subst h
      simp only [DiffServ.classifyLoop, h0, hdef, Bool.false_eq_true, if_false, if_true]
      have hrest : ∀ c ∈ rest, c.IsDefault = false := by
        intro c hc
        obtain ⟨n, hn⟩ := List.getElem?_of_mem hc
        exact hlast (n + 1) c (Nat.succ_pos n) (by simpa using hn)
      rw [classifyLoop_no_match_no_default packet rest (k + 1) _ hm' hrest]
      simp
    | succ n =>
      simp only [List.getElem?_cons_succ] at h
      have := ih (k + 1) (if tc.IsDefault then (k : Int) else d) n c hm' h hdef
        (fun j c' hj hc => hlast (j + 1) c' (by omega) (by simpa using hc))
      simp only [DiffServ.classifyLoop, h0, Bool.false_eq_true, if_false]
      rw [this]
      congr 1
      omega

/-- C1: whenever at least one class matches the item, `Classify` returns the
index of the first class, in list order, whose `Match` is true; in particular
a first class that matches every item gets every item, whatever the classes
after it are. -/
theorem classify_returns_first_match (self : DiffServ) (packet : Packet) :
    ((∃ c ∈ self.m_queueClasses, c.Match packet = true) →
      ∃ (i : Nat) (c : TrafficClass),
        self.m_queueClasses[i]? = some c ∧ c.Match packet = true ∧
        (∀ j c', j < i → self.m_queueClasses[j]? = some c' → c'.Match packet = false) ∧
        self.Classify packet = (i : Int)) ∧
    (∀ (tc : TrafficClass) (rest : List TrafficClass),
      (∀ p, tc.Match p = true) →
      DiffServ.Classify { m_queueClasses := tc :: rest } packet = 0) := by
  constructor
  · intro hex
    have hfind : ∃ i, i < self.m_queueClasses.length ∧
        ∃ c, self.m_queueClasses[i]? = some c ∧ c.Match packet = true := by
      obtain ⟨c, hc, hm⟩ := hex
      obtain ⟨n, hn⟩ := List.getElem?_of_mem hc
      have hlt : n < self.m_queueClasses.length := by
        by_contra hge
        rw [List.getElem?_eq_none (by omega)] at hn
        cases hn
      exact ⟨n, hlt, c, hn, hm⟩
    classical
    let P : Nat → Prop := fun i =>
      ∃ c, self.m_queueClasses[i]? = some c ∧ c.Match packet = true
    have hP : ∃ i, P i := by
      obtain ⟨i, _, h⟩ := hfind
      exact ⟨i, h⟩
    obtain ⟨c, hc, hm⟩ := Nat.find_spec hP
    refine ⟨Nat.find hP, c, hc, hm, ?_, ?_⟩
    · intro j c' hj hc'
      by_contra hne
      have : c'.Match packet = true := by simpa using hne
      exact Nat.find_min hP hj ⟨c', hc', this⟩
    · have := classifyLoop_first_match packet self.m_queueClasses 0 (-1) (Nat.find hP) c hc hm
        (by
          intro j c' hj hc'
          by_contra hne
          have : c'.Match packet = true := by simpa using hne
          exact Nat.find_min hP hj ⟨c', hc', this⟩)
      simpa [DiffServ.Classify] using this
  · intro tc rest hall
    simp [DiffServ.Classify, DiffServ.classifyLoop, hall packet]

/-- Witness for C1: with a first class filtered on protocol 17 and a second
class without filters, an item without headers goes to class 1; with the
catch-all class first it goes to class 0. -/
theorem classify_returns_first_match_witness :
    (∃ (i : Nat) (c : TrafficClass),
      [TrafficClass.construct.AddFilter { m_elements := [FilterElement.Protocol 17] },
        TrafficClass.construct][i]? = some c ∧
      c.Match { ptr := 1, size := 64, headers := [] } = true ∧
      (∀ j c', j < i →
        [TrafficClass.construct.AddFilter { m_elements := [FilterElement.Protocol 17] },
          TrafficClass.construct][j]? = some c' →
        c'.Match { ptr := 1, size := 64, headers := [] } = false) ∧
      DiffServ.Classify
        { m_queueClasses :=
            [TrafficClass.construct.AddFilter { m_elements := [FilterElement.Protocol 17] },
              TrafficClass.construct] }
        { ptr := 1, size := 64, headers := [] } = (i : Int)) ∧
    DiffServ.Classify
      { m_queueClasses :=
          [TrafficClass.construct,
            TrafficClass.construct.AddFilter { m_elements := [FilterElement.Protocol 17] }] }
      { ptr := 1, size := 64, headers := [] } = 0 :=
  ⟨(classify_returns_first_match
      { m_queueClasses :=
          [TrafficClass.construct.AddFilter { m_elements := [FilterElement.Protocol 17] },
            TrafficClass.construct] }
      { ptr := 1, size := 64, headers := [] }).1
      ⟨TrafficClass.construct, by simp, by decide⟩,
    (classify_returns_first_match
      { m_queueClasses := [] }
      { ptr := 1, size := 64, headers := [] }).2
      TrafficClass.construct
      [TrafficClass.construct.AddFilter { m_elements := [FilterElement.Protocol 17] }]
      (fun _ => rfl)⟩

/-- C2: when no class matches the item, `Classify` returns the index of the
class flagged default (the last such class in list order, hence the only one
when at most one class is flagged), and `-1` when no class is flagged
default. -/
theorem classify_falls_back_to_default (self : DiffServ) (packet : Packet)
    (hno : ∀ c ∈ self.m_queueClasses, c.Match packet = false) :
    (∀ (i : Nat) (c : TrafficClass),
      self.m_queueClasses[i]? = some c → c.IsDefault = true →
      (∀ j c', i < j → self.m_queueClasses[j]? = some c' → c'.IsDefault = false) →
      self.Classify packet = (i : Int)) ∧
    ((∀ c ∈ self.m_queueClasses, c.IsDefault = false) → self.Classify packet = -1) := by
  constructor
  · intro i c hc hdef hlast
    have := classifyLoop_no_match_default packet self.m_queueClasses 0 (-1) i c hno hc hdef hlast
    simpa [DiffServ.Classify] using this
  · intro hnd
    exact classifyLoop_no_match_no_default packet self.m_queueClasses 0 (-1) hno hnd

/-- Witness for C2: two filtered classes, the second flagged default, and an
item without headers that neither filter matches. -/
theorem classify_falls_back_to_default_witness :
    DiffServ.Classify
      { m_queueClasses :=
          [TrafficClass.construct.AddFilter { m_elements := [FilterElement.Protocol 17] },
            (TrafficClass.construct.AddFilter
              { m_elements := [FilterElement.Protocol 6] }).SetIsDefault true] }
      { ptr := 1, size := 64, headers := [] } = ((1 : Nat) : Int) :=
  (classify_falls_back_to_default
    { m_queueClasses :=
        [TrafficClass.construct.AddFilter { m_elements := [FilterElement.Protocol 17] },
          (TrafficClass.construct.AddFilter
            { m_elements := [FilterElement.Protocol 6] }).SetIsDefault true] }
    { ptr := 1, size := 64, headers := [] } (by decide)).1 1
    ((TrafficClass.construct.AddFilter
      { m_elements := [FilterElement.Protocol 6] }).SetIsDefault true)
    rfl rfl
    (by
      intro j c' hj hc'
      rw [List.getElem?_eq_none (by simp; omega)] at hc'
      cases hc')

/-! ## Traffic classes -/

theorem TrafficClass.consistent_nonempty (tc : TrafficClass) (hc : tc.Consistent)
    (hne : tc.IsEmpty = false) :
    ∃ p rest, tc.m_queue = p :: rest ∧ tc.Peek = some p ∧
      tc.Dequeue = (some p, tc.withQueue rest) := by
  obtain ⟨h1, h2⟩ := hc
  have hpos : tc.m_packets ≠ 0 := by simpa [TrafficClass.IsEmpty] using hne
  cases hq : tc.m_queue with
  | nil => rw [hq] at h1; simp at h1; exact absurd h1 hpos
  | cons p rest =>
    refine ⟨p, rest, rfl, ?_, ?_⟩
    · simp [TrafficClass.Peek, hne, hq]
    · rw [hq] at h1 h2
      simp only [List.length_cons] at h1 h2
      have : (tc.m_packets + (2 ^ 32 - 1)) % 2 ^ 32 = rest.length := by
        rw [h1]; omega
      simp only [TrafficClass.Dequeue, hq, TrafficClass.withQueue, this]

theorem TrafficClass.withQueue_consistent (tc : TrafficClass) (q : List Packet)
    (h : q.length < 2 ^ 32) : (tc.withQueue q).Consistent := by
  exact ⟨rfl, h⟩

theorem TrafficClass.consistent_eq_withQueue (tc : TrafficClass) (hc : tc.Consistent) :
    tc = tc.withQueue tc.m_queue := by
  cases tc
  simp only [TrafficClass.Consistent] at hc
  simp [TrafficClass.withQueue, hc.1]

/-! ## Strict priority queuing -/

theorem SPQ.scheduleLoop_spec :
    ∀ (l : List TrafficClass) (b : Option TrafficClass) (hp : Nat),
      (SPQ.scheduleLoop l b hp = b ∧
        ∀ c ∈ l, c.IsEmpty = false → hp ≤ c.GetPriority) ∨
      (∃ (i : Nat) (tc : TrafficClass), l[i]? = some tc ∧
        SPQ.scheduleLoop l b hp = some tc ∧
        tc.IsEmpty = false ∧ tc.GetPriority < hp ∧
        ∀ (j : Nat) (c : TrafficClass), l[j]? = some c → c.IsEmpty = false →
          tc.GetPriority ≤ c.GetPriority ∧ (j < i → tc.GetPriority < c.GetPriority)) := by
  intro l
  induction l with
  | nil => intro b hp; left; simp [SPQ.scheduleLoop]
  | cons c rest ih =>
    intro b hp
    by_cases hsel : c.IsEmpty = false ∧ c.GetPriority < hp
    · have hstep : SPQ.scheduleLoop (c :: rest) b hp
          = SPQ.scheduleLoop rest (some c) c.GetPriority := by
        simp [SPQ.scheduleLoop, hsel.1, hsel.2]
      right
      rcases ih (some c) c.GetPriority with ⟨hres, hall⟩ | ⟨i, tc, hi, hres, hne, hlt, hmin⟩
      · refine ⟨0, c, by simp, by rw [hstep, hres], hsel.1, hsel.2, ?_⟩
        intro j c' hj hne'
        cases j with
        | zero =>
          simp at hj; subst hj
          exact ⟨le_refl _, fun h => absurd h (Nat.lt_irrefl 0)⟩
        | succ n =>
          simp only [List.getElem?_cons_succ] at hj
          exact ⟨hall c' (List.getElem?_mem hj) hne', fun h => absurd h (Nat.not_lt_zero _)⟩
      · refine ⟨i + 1, tc, by simpa using hi, by rw [hstep, hres], hne, by omega, ?_⟩
        intro j c' hj hne'
        cases j with
        | zero =>
          simp at hj; subst hj
          exact ⟨by omega, fun _ => hlt⟩
        | succ n =>
          simp only [List.getElem?_cons_succ] at hj
          obtain ⟨h1, h2⟩ := hmin n c' hj hne'
          exact ⟨h1, fun h => h2 (by omega)⟩
    · have hstep : SPQ.scheduleLoop (c :: rest) b hp = SPQ.scheduleLoop rest b hp := by
        by_cases h1 : c.IsEmpty = false
        · have h2 : ¬ c.GetPriority < hp := fun h => hsel ⟨h1, h⟩
          simp [SPQ.scheduleLoop, h1, h2]
        · simp at h1
          simp [SPQ.scheduleLoop, h1]
      have hc : c.IsEmpty = false → hp ≤ c.GetPriority := by
        intro h1
        by_contra h2
        exact hsel ⟨h1, by omega⟩
      rcases ih b hp with ⟨hres, hall⟩ | ⟨i, tc, hi, hres, hne, hlt, hmin⟩
      · left
        refine ⟨by rw [hstep, hres], ?_⟩
        intro c' hc' hne'
        rcases List.mem_cons.1 hc' with h | h
        · subst h; exact hc hne'
        · exact hall c' h hne'
      · right
        refine ⟨i + 1, tc, by simpa using hi, by rw [hstep, hres], hne, hlt, ?_⟩
        intro j c' hj hne'
        cases j with
        | zero =>
          simp at hj; subst hj
          have := hc hne'
          exact ⟨by omega, fun _ => by omega⟩
        | succ n =>
          simp only [List.getElem?_cons_succ] at hj
          obtain ⟨h1, h2⟩ := hmin n c' hj hne'
          exact ⟨h1, fun h => h2 (by omega)⟩

theorem SPQ.schedule_cases (self : DiffServ) (hc : AllConsistent self.m_queueClasses) :
    (SPQ.Schedule self = none ∧
      ∀ c ∈ self.m_queueClasses, c.IsEmpty = false → UINT32_MAX ≤ c.GetPriority) ∨
    (∃ (i : Nat) (tc : TrafficClass) (p : Packet) (rest : List Packet),
      self.m_queueClasses[i]? = some tc ∧ tc.IsEmpty = false ∧ tc.m_queue = p :: rest ∧
      SPQ.Schedule self = some p ∧ tc.GetPriority < UINT32_MAX ∧
      ∀ (j : Nat) (c : TrafficClass), self.m_queueClasses[j]? = some c → c.IsEmpty = false →
        tc.GetPriority ≤ c.GetPriority ∧ (j < i → tc.GetPriority < c.GetPriority)) := by
  rcases SPQ.scheduleLoop_spec self.m_queueClasses none UINT32_MAX with
    ⟨hres, hall⟩ | ⟨i, tc, hi, hres, hne, hlt, hmin⟩
  · left
    refine ⟨?_, hall⟩
    unfold SPQ.Schedule
    simp only [DiffServ.GetClasses, hres]
    split <;> rfl
  · right
    obtain ⟨p, rest, hq, hpeek, _⟩ :=
      TrafficClass.consistent_nonempty tc (hc tc (List.getElem?_mem hi)) hne
    refine ⟨i, tc, p, rest, hi, hne, hq, ?_, hlt, hmin⟩
    have hnotnil : self.m_queueClasses.isEmpty = false := by
      cases hl : self.m_queueClasses with
      | nil => rw [hl] at hi; simp at hi
      | cons _ _ => rfl
    unfold SPQ.Schedule
    simp only [DiffServ.GetClasses, hres, hnotnil, Bool.false_eq_true, if_false, hpeek]

/-! ## The search loop of the dispatcher -/

theorem DiffServ.dequeueLoop_at (packet : Packet) :
    ∀ (l : List TrafficClass) (i : Nat) (tc : TrafficClass),
      l[i]? = some tc → tc.IsEmpty = false → tc.Peek = some packet →
      (∀ (j : Nat) (c : TrafficClass), j < i → l[j]? = some c → c.IsEmpty = false →
        c.Peek ≠ some packet) →
      DiffServ.dequeueLoop packet l = ((tc.Dequeue).1, l.set i (tc.Dequeue).2) := by
  intro l
  induction l with
  | nil => intro i tc h; simp at h
  | cons c rest ih =>
    intro i tc h hne hpeek hbefore
    cases i with
    | zero =>
      simp at h; subst h
      simp [DiffServ.dequeueLoop, hne, hpeek]
    | succ n =>
      simp only [List.getElem?_cons_succ] at h
      have hskip : (!c.IsEmpty && c.Peek == some packet) = false := by
        by_cases h1 : c.IsEmpty = false
        · have := hbefore 0 c (Nat.succ_pos n) (by simp) h1
          simp [h1, this]
        · simp at h1; simp [h1]
      have := ih n tc h hne hpeek
        (fun j c' hj hc' => hbefore (j + 1) c' (by omega) (by simpa using hc'))
      simp [DiffServ.dequeueLoop, hskip, this]

theorem DiffServ.dequeueLoop_result (packet : Packet) :
    ∀ (l : List TrafficClass), AllConsistent l →
      ∀ p, (DiffServ.dequeueLoop packet l).1 = some p → p = packet := by
  intro l
  induction l with
  | nil => intro _ p h; simp [DiffServ.dequeueLoop] at h
  | cons c rest ih =>
    intro hc p h
    by_cases hsel : (!c.IsEmpty && c.Peek == some packet) = true
    · simp only [DiffServ.dequeueLoop, hsel, if_true] at h
      simp only [Bool.and_eq_true, Bool.not_eq_true', beq_iff_eq] at hsel
      obtain ⟨q, rest', _, hpeek, hdeq⟩ :=
        TrafficClass.consistent_nonempty c (hc c (List.mem_cons_self _ _)) hsel.1
      rw [hdeq] at h
      rw [hsel.2] at hpeek
      simp at h hpeek
      rw [← h, hpeek]
    · simp only [DiffServ.dequeueLoop, hsel, Bool.false_eq_true, if_false] at h
      exact ih (fun c' hc' => hc c' (List.mem_cons_of_mem _ hc')) p h

theorem DiffServ.dequeueLoop_found (packet : Packet) :
    ∀ (l : List TrafficClass), AllConsistent l →
      ∀ (i : Nat) (tc : TrafficClass), l[i]? = some tc → tc.IsEmpty = false →
        tc.Peek = some packet → (DiffServ.dequeueLoop packet l).1 = some packet := by
  intro l
  induction l with
  | nil => intro _ i tc h; simp at h
  | cons c rest ih =>
    intro hc i tc h hne hpeek
    by_cases hsel : (!c.IsEmpty && c.Peek == some packet) = true
    · simp only [DiffServ.dequeueLoop, hsel, if_true]
      simp only [Bool.and_eq_true, Bool.not_eq_true', beq_iff_eq] at hsel
      obtain ⟨q, rest', _, hpeek', hdeq⟩ :=
        TrafficClass.consistent_nonempty c (hc c (List.mem_cons_self _ _)) hsel.1
      rw [hdeq]
      rw [hsel.2] at hpeek'
      simp at hpeek'
      simp [hpeek']
    · simp only [DiffServ.dequeueLoop, hsel, Bool.false_eq_true, if_false]
      cases i with
      | zero =>
        simp at h; subst h
        simp [hne, hpeek] at hsel
      | succ n =>
        simp only [List.getElem?_cons_succ] at h
        exact ih (fun c' hc' => hc c' (List.mem_cons_of_mem _ hc')) n tc h hne hpeek

theorem heads_mem (l : List TrafficClass) (i : Nat) (tc : TrafficClass)
    (h : l[i]? = some tc) (hne : tc.IsEmpty = false) : tc.Peek ∈ heads l := by
  unfold heads
  refine List.mem_map.2 ⟨tc, ?_, rfl⟩
  exact List.mem_filter.2 ⟨List.getElem?_mem h, by simp [hne]⟩

theorem DistinctHeads.before :
    ∀ (l : List TrafficClass), DistinctHeads l →
      ∀ (i : Nat) (tc : TrafficClass), l[i]? = some tc → tc.IsEmpty = false →
      ∀ (j : Nat) (c : TrafficClass), j < i → l[j]? = some c → c.IsEmpty = false →
        c.Peek ≠ tc.Peek := by
  intro l
  induction l with
  | nil => intro _ i tc h; simp at h
  | cons c0 rest ih =>
    intro hd i tc h hne j c hj hc hcne
    cases i with
    | zero => omega
    | succ n =>
      simp only [List.getElem?_cons_succ] at h
      have hrest : DistinctHeads rest := by
        unfold DistinctHeads heads at hd ⊢
        by_cases h0 : c0.IsEmpty = false
        · simp only [List.filter_cons, h0, Bool.not_false, if_true, List.map_cons] at hd
          exact (List.nodup_cons.1 hd).2
        · simp at h0
          simpa only [List.filter_cons, h0, Bool.not_true, Bool.false_eq_true, if_false]
            using hd
      cases j with
      | zero =>
        simp at hc; subst hc
        unfold DistinctHeads heads at hd
        simp only [List.filter_cons, hcne, Bool.not_false, if_true, List.map_cons] at hd
        intro heq
        apply (List.nodup_cons.1 hd).1
        rw [heq]
        exact heads_mem rest n tc h hne
      | succ m =>
        simp only [List.getElem?_cons_succ] at hc
        exact ih hrest n tc h hne m c (by omega) hc hcne

/-- With every priority below the initial value of `highestPriority`, an
`SPQ` object that has a class with packets schedules the head of the class
with the least priority value, the first such class in class order. -/
theorem SPQ.schedule_selects_min (self : DiffServ)
    (hc : AllConsistent self.m_queueClasses)
    (hprio : ∀ c ∈ self.m_queueClasses, c.GetPriority < UINT32_MAX)
    (hne : ∃ c ∈ self.m_queueClasses, c.IsEmpty = false) :
    ∃ (i : Nat) (tc : TrafficClass) (p : Packet) (rest : List Packet),
      self.m_queueClasses[i]? = some tc ∧ tc.IsEmpty = false ∧ tc.m_queue = p :: rest ∧
      SPQ.Schedule self = some p ∧
      ∀ (j : Nat) (c : TrafficClass), self.m_queueClasses[j]? = some c → c.IsEmpty = false →
        tc.GetPriority ≤ c.GetPriority ∧ (j < i → tc.GetPriority < c.GetPriority) := by
  rcases SPQ.schedule_cases self hc with ⟨_, hall⟩ | ⟨i, tc, p, rest, h1, h2, h3, h4, _, h6⟩
  · obtain ⟨c, hmem, hcne⟩ := hne
    have := hall c hmem hcne
    have := hprio c hmem
    omega
  · exact ⟨i, tc, p, rest, h1, h2, h3, h4, h6⟩

/-- C3: the class with packets whose priority value is `2 ^ 32 - 1` is never
selected: `SPQ::Schedule` returns `nullptr` although the class is not empty,
consistent and the only class there is. -/
theorem spq_schedule_misses_max_priority_class :
    TrafficClass.IsEmpty
      { m_queue := [{ ptr := 1, size := 100, headers := [] }], m_filters := [],
        m_packets := 1, m_maxPackets := 100, m_weight := 0, m_priority := 4294967295,
        m_isDefault := false } = false ∧
    SPQ.Schedule
      { m_queueClasses :=
          [{ m_queue := [{ ptr := 1, size := 100, headers := [] }], m_filters := [],
             m_packets := 1, m_maxPackets := 100, m_weight := 0, m_priority := 4294967295,
             m_isDefault := false }] } = none := by
  constructor <;> rfl

/-- C4: an `SPQ` object whose only class with packets has priority value
`2 ^ 32 - 1` answers `nullptr` to `Schedule`, `Dequeue`, `Remove` and `Peek`
and keeps the packet queued. -/
theorem spq_null_with_packets_queued :
    AllConsistent
      [TrafficClass.construct,
        { m_queue := [{ ptr := 7, size := 64, headers := [] }], m_filters := [],
          m_packets := 1, m_maxPackets := 100, m_weight := 0, m_priority := 4294967295,
          m_isDefault := false }] ∧
    SPQ.Schedule
      { m_queueClasses :=
          [TrafficClass.construct,
            { m_queue := [{ ptr := 7, size := 64, headers := [] }], m_filters := [],
              m_packets := 1, m_maxPackets := 100, m_weight := 0, m_priority := 4294967295,
              m_isDefault := false }] } = none ∧
    SPQ.Dequeue
      { m_queueClasses :=
          [TrafficClass.construct,
            { m_queue := [{ ptr := 7, size := 64, headers := [] }], m_filters := [],
              m_packets := 1, m_maxPackets := 100, m_weight := 0, m_priority := 4294967295,
              m_isDefault := false }] } =
      (none,
        { m_queueClasses :=
            [TrafficClass.construct,
              { m_queue := [{ ptr := 7, size := 64, headers := [] }], m_filters := [],
                m_packets := 1, m_maxPackets := 100, m_weight := 0,
                m_priority := 4294967295, m_isDefault := false }] }) ∧
    (SPQ.Remove
      { m_queueClasses :=
          [TrafficClass.construct,
            { m_queue := [{ ptr := 7, size := 64, headers := [] }], m_filters := [],
              m_packets := 1, m_maxPackets := 100, m_weight := 0, m_priority := 4294967295,
              m_isDefault := false }] }).1 = none ∧
    SPQ.Peek
      { m_queueClasses :=
          [TrafficClass.construct,
            { m_queue := [{ ptr := 7, size := 64, headers := [] }], m_filters := [],
              m_packets := 1, m_maxPackets := 100, m_weight := 0, m_priority := 4294967295,
              m_isDefault := false }] } 99 = none := by
  refine ⟨by decide, rfl, rfl, rfl, rfl⟩

theorem SPQ.dequeue_first_of_two (A B : TrafficClass) (a : Packet) (as : List Packet)
    (hA : A.m_priority = 0) (hlen : (a :: as).length < 2 ^ 32) :
    SPQ.Dequeue { m_queueClasses := [A.withQueue (a :: as), B] } =
      (some a, { m_queueClasses := [A.withQueue as, B] }) := by
  simp only [List.length_cons] at hlen
  have hmod : (as.length + 1 + 4294967295) % 4294967296 = as.length := by omega
  have hsched : SPQ.Schedule { m_queueClasses := [A.withQueue (a :: as), B] } = some a := by
    simp [SPQ.Schedule, DiffServ.GetClasses, SPQ.scheduleLoop, TrafficClass.withQueue,
      TrafficClass.IsEmpty, TrafficClass.GetPriority, TrafficClass.Peek, hA, UINT32_MAX]
  simp only [SPQ.Dequeue, hsched, DiffServ.DoDequeue, DiffServ.dequeueLoop]
  simp [TrafficClass.withQueue, TrafficClass.IsEmpty, TrafficClass.Peek,
    TrafficClass.Dequeue, hmod]

theorem SPQ.dequeue_second_of_two (A B : TrafficClass) (b : Packet) (bs : List Packet)
    (hB : B.m_priority < UINT32_MAX) (hlen : (b :: bs).length < 2 ^ 32) :
    SPQ.Dequeue { m_queueClasses := [A.withQueue [], B.withQueue (b :: bs)] } =
      (some b, { m_queueClasses := [A.withQueue [], B.withQueue bs] }) := by
  simp only [List.length_cons] at hlen
  have hmod : (bs.length + 1 + 4294967295) % 4294967296 = bs.length := by omega
  have hsched :
      SPQ.Schedule { m_queueClasses := [A.withQueue [], B.withQueue (b :: bs)] } = some b := by
    simp [SPQ.Schedule, DiffServ.GetClasses, SPQ.scheduleLoop, TrafficClass.withQueue,
      TrafficClass.IsEmpty, TrafficClass.GetPriority, TrafficClass.Peek, hB]
  simp only [SPQ.Dequeue, hsched, DiffServ.DoDequeue, DiffServ.dequeueLoop]
  simp [TrafficClass.withQueue, TrafficClass.IsEmpty, TrafficClass.Peek,
    TrafficClass.Dequeue, hmod]

theorem SPQ.dequeue_later_of_two (A B : TrafficClass) (a : Packet) (as bs : List Packet)
    (hA : A.m_priority = 0) (hB : B.m_priority = 1) (hlen : (a :: as).length < 2 ^ 32)
    (hdiff : bs.head? ≠ some a) :
    SPQ.Dequeue { m_queueClasses := [B.withQueue bs, A.withQueue (a :: as)] } =
      (some a, { m_queueClasses := [B.withQueue bs, A.withQueue as] }) := by
  simp only [List.length_cons] at hlen
  have hmod : (as.length + 1 + 4294967295) % 4294967296 = as.length := by omega
  have hsched :
      SPQ.Schedule { m_queueClasses := [B.withQueue bs, A.withQueue (a :: as)] } = some a := by
    cases bs <;>
    simp [SPQ.Schedule, DiffServ.GetClasses, SPQ.scheduleLoop, TrafficClass.withQueue,
      TrafficClass.IsEmpty, TrafficClass.GetPriority, TrafficClass.Peek, hA, hB, UINT32_MAX]
  simp only [SPQ.Dequeue, hsched, DiffServ.DoDequeue, DiffServ.dequeueLoop]
  cases bs with
  | nil =>
    simp [TrafficClass.withQueue, TrafficClass.IsEmpty, TrafficClass.Peek,
      TrafficClass.Dequeue, hmod]
  | cons b bs' =>
    have hba : b ≠ a := by simpa using hdiff
    simp [TrafficClass.withQueue, TrafficClass.IsEmpty, TrafficClass.Peek,
      TrafficClass.Dequeue, hmod, hba]

theorem SPQ.dequeue_earlier_of_two (A B : TrafficClass) (b : Packet) (bs : List Packet)
    (hB : B.m_priority < UINT32_MAX) (hlen : (b :: bs).length < 2 ^ 32) :
    SPQ.Dequeue { m_queueClasses := [B.withQueue (b :: bs), A.withQueue []] } =
      (some b, { m_queueClasses := [B.withQueue bs, A.withQueue []] }) := by
  simp only [List.length_cons] at hlen
  have hmod : (bs.length + 1 + 4294967295) % 4294967296 = bs.length := by omega
  have hsched :
      SPQ.Schedule { m_queueClasses := [B.withQueue (b :: bs), A.withQueue []] } = some b := by
    simp [SPQ.Schedule, DiffServ.GetClasses, SPQ.scheduleLoop, TrafficClass.withQueue,
      TrafficClass.IsEmpty, TrafficClass.GetPriority, TrafficClass.Peek, hB]
  simp only [SPQ.Dequeue, hsched, DiffServ.DoDequeue, DiffServ.dequeueLoop]
  simp [TrafficClass.withQueue, TrafficClass.IsEmpty, TrafficClass.Peek,
    TrafficClass.Dequeue, hmod]

theorem SPQ.dequeueTimes_second (A B : TrafficClass) (hB : B.m_priority < UINT32_MAX) :
    ∀ (bs : List Packet), bs.length < 2 ^ 32 →
      SPQ.dequeueTimes bs.length { m_queueClasses := [A.withQueue [], B.withQueue bs] } =
        (bs.map some, { m_queueClasses := [A.withQueue [], B.withQueue []] }) := by
  intro bs
  induction bs with
  | nil => intro _; rfl
  | cons b bs ih =>
    intro hlen
    have hlen' : bs.length < 2 ^ 32 := by simp only [List.length_cons] at hlen; omega
    simp only [List.length_cons, SPQ.dequeueTimes,
      SPQ.dequeue_second_of_two A B b bs hB hlen, ih hlen', List.map_cons]

theorem SPQ.dequeueTimes_first (A B : TrafficClass) (hA : A.m_priority = 0)
    (hB : B.m_priority < UINT32_MAX) (bs : List Packet) (hbs : bs.length < 2 ^ 32) :
    ∀ (as : List Packet), as.length < 2 ^ 32 →
      SPQ.dequeueTimes (as.length + bs.length)
          { m_queueClasses := [A.withQueue as, B.withQueue bs] } =
        ((as ++ bs).map some, { m_queueClasses := [A.withQueue [], B.withQueue []] }) := by
  intro as
  induction as with
  | nil =>
    intro _
    simpa using SPQ.dequeueTimes_second A B hB bs hbs
  | cons a as ih =>
    intro hlen
    have hlen' : as.length < 2 ^ 32 := by simp only [List.length_cons] at hlen; omega
    have hn : (a :: as).length + bs.length = (as.length + bs.length) + 1 := by
      simp only [List.length_cons]; omega
    rw [hn]
    simp only [SPQ.dequeueTimes, SPQ.dequeue_first_of_two A (B.withQueue bs) a as hA hlen,
      ih hlen', List.cons_append, List.map_cons]

theorem SPQ.dequeueTimes_earlier (A B : TrafficClass) (hB : B.m_priority < UINT32_MAX) :
    ∀ (bs : List Packet), bs.length < 2 ^ 32 →
      SPQ.dequeueTimes bs.length { m_queueClasses := [B.withQueue bs, A.withQueue []] } =
        (bs.map some, { m_queueClasses := [B.withQueue [], A.withQueue []] }) := by
  intro bs
  induction bs with
  | nil => intro _; rfl
  | cons b bs ih =>
    intro hlen
    have hlen' : bs.length < 2 ^ 32 := by simp only [List.length_cons] at hlen; omega
    simp only [List.length_cons, SPQ.dequeueTimes,
      SPQ.dequeue_earlier_of_two A B b bs hB hlen, ih hlen', List.map_cons]

theorem SPQ.dequeueTimes_later (A B : TrafficClass) (hA : A.m_priority = 0)
    (hB : B.m_priority = 1) (bs : List Packet) (hbs : bs.length < 2 ^ 32) :
    ∀ (as : List Packet), as.length < 2 ^ 32 → (∀ x ∈ as, bs.head? ≠ some x) →
      SPQ.dequeueTimes (as.length + bs.length)
          { m_queueClasses := [B.withQueue bs, A.withQueue as] } =
        ((as ++ bs).map some, { m_queueClasses := [B.withQueue [], A.withQueue []] }) := by
  have hB' : B.m_priority < UINT32_MAX := by rw [hB]; decide
  intro as
  induction as with
  | nil =>
    intro _ _
    simpa using SPQ.dequeueTimes_earlier A B hB' bs hbs
  | cons a as ih =>
    intro hlen hdiff
    have hlen' : as.length < 2 ^ 32 := by simp only [List.length_cons] at hlen; omega
    have hn : (a :: as).length + bs.length = (as.length + bs.length) + 1 := by
      simp only [List.length_cons]; omega
    rw [hn]
    simp only [SPQ.dequeueTimes,
      SPQ.dequeue_later_of_two A B a as bs hA hB hlen (hdiff a (List.mem_cons_self _ _)),
      ih hlen' (fun x hx => hdiff x (List.mem_cons_of_mem _ hx)),
      List.cons_append, List.map_cons]

/-- C5: on an `SPQ` object whose classes are consistent, a packet returned by
`Dequeue` is the head of a class with packets whose priority value no other
class with packets undercuts, and, no packet being at the head of two classes,
that class is the one popped; with class A of priority 0 and class B of
priority 1, as many `Dequeue` calls as there are packets return the packets of
A in queue order and then those of B, whichever of the two comes first in
class order (B's head not being one of A's packets when B comes first). -/
theorem spq_priority_dominance :
    (∀ (self self' : DiffServ) (p : Packet),
      AllConsistent self.m_queueClasses →
      SPQ.Dequeue self = (some p, self') →
      ∃ (k : Nat) (tc : TrafficClass) (rest : List Packet),
        self.m_queueClasses[k]? = some tc ∧ tc.IsEmpty = false ∧ tc.m_queue = p :: rest ∧
        (∀ (j : Nat) (c : TrafficClass), self.m_queueClasses[j]? = some c →
          c.IsEmpty = false → tc.GetPriority ≤ c.GetPriority) ∧
        (DistinctHeads self.m_queueClasses →
          self'.m_queueClasses = self.m_queueClasses.set k (tc.withQueue rest))) ∧
    (∀ (A B : TrafficClass), A.Consistent → B.Consistent →
      A.m_priority = 0 → B.m_priority = 1 →
      (SPQ.dequeueTimes (A.m_queue.length + B.m_queue.length)
          { m_queueClasses := [A, B] }).1 = (A.m_queue ++ B.m_queue).map some ∧
      ((∀ x ∈ A.m_queue, B.m_queue.head? ≠ some x) →
        (SPQ.dequeueTimes (A.m_queue.length + B.m_queue.length)
          { m_queueClasses := [B, A] }).1 = (A.m_queue ++ B.m_queue).map some)) := by
  constructor
  · intro self self' p hc hdeq
    rcases SPQ.schedule_cases self hc with ⟨hnone, _⟩ | ⟨i, tc, q, rest, h1, h2, h3, h4, _, h6⟩
    · simp [SPQ.Dequeue, hnone, DiffServ.DoDequeue] at hdeq
    · obtain ⟨q', rest', hq', hpeek, hdq⟩ :=
        TrafficClass.consistent_nonempty tc (hc tc (List.getElem?_mem h1)) h2
      rw [h3] at hq'
      obtain ⟨hqq, hrr⟩ := List.cons.inj hq'
      subst hqq; subst hrr
      simp only [SPQ.Dequeue, h4, DiffServ.DoDequeue, Prod.mk.injEq] at hdeq
      obtain ⟨hres, hstate⟩ := hdeq
      have hpq : p = q := DiffServ.dequeueLoop_result q self.m_queueClasses hc p hres
      subst hpq
      refine ⟨i, tc, rest, h1, h2, h3, fun j c hj hne => (h6 j c hj hne).1, ?_⟩
      intro hdist
      have hbefore : ∀ (j : Nat) (c : TrafficClass), j < i → self.m_queueClasses[j]? = some c →
          c.IsEmpty = false → c.Peek ≠ some p := by
        intro j c hj hcj hne
        rw [← hpeek]
        exact DistinctHeads.before self.m_queueClasses hdist i tc h1 h2 j c hj hcj hne
      have := DiffServ.dequeueLoop_at p self.m_queueClasses i tc h1 h2 hpeek hbefore
      rw [← hstate, this, hdq]
  · intro A B hcA hcB hA hB
    have hB' : B.m_priority < UINT32_MAX := by rw [hB]; decide
    have eA := TrafficClass.consistent_eq_withQueue A hcA
    have eB := TrafficClass.consistent_eq_withQueue B hcB
    constructor
    · have := SPQ.dequeueTimes_first A B hA hB' B.m_queue hcB.2 A.m_queue hcA.2
      rw [← eA, ← eB] at this
      rw [this]
    · intro hdiff
      have := SPQ.dequeueTimes_later A B hA hB B.m_queue hcB.2 A.m_queue hcA.2 hdiff
      rw [← eA, ← eB] at this
      rw [this]

/-- Witness for C5: class A (priority 0) holds two packets and class B
(priority 1) one; three `Dequeue` calls return A's two packets and then B's,
in either class order, and the first `Dequeue` pops class A. -/
theorem spq_priority_dominance_witness :
    (SPQ.dequeueTimes 3
      { m_queueClasses :=
          [plainClass [plainPacket 1 100, plainPacket 2 200] 0 0,
            plainClass [plainPacket 3 50] 0 1] }).1 =
      [some (plainPacket 1 100), some (plainPacket 2 200), some (plainPacket 3 50)] ∧
    (SPQ.dequeueTimes 3
      { m_queueClasses :=
          [plainClass [plainPacket 3 50] 0 1,
            plainClass [plainPacket 1 100, plainPacket 2 200] 0 0] }).1 =
      [some (plainPacket 1 100), some (plainPacket 2 200), some (plainPacket 3 50)] ∧
    (∃ (k : Nat) (tc : TrafficClass) (rest : List Packet),
      [plainClass [plainPacket 3 50] 0 1,
        plainClass [plainPacket 1 100, plainPacket 2 200] 0 0][k]? = some tc ∧
      tc.IsEmpty = false ∧ tc.m_queue = plainPacket 1 100 :: rest ∧
      (∀ (j : Nat) (c : TrafficClass),
        [plainClass [plainPacket 3 50] 0 1,
          plainClass [plainPacket 1 100, plainPacket 2 200] 0 0][j]? = some c →
        c.IsEmpty = false → tc.GetPriority ≤ c.GetPriority) ∧
      (DistinctHeads
          [plainClass [plainPacket 3 50] 0 1,
            plainClass [plainPacket 1 100, plainPacket 2 200] 0 0] →
        [plainClass [plainPacket 3 50] 0 1, plainClass [plainPacket 2 200] 0 0] =
          [plainClass [plainPacket 3 50] 0 1,
            plainClass [plainPacket 1 100, plainPacket 2 200] 0 0].set k
            (tc.withQueue rest))) :=
  ⟨(spq_priority_dominance.2
      (plainClass [plainPacket 1 100, plainPacket 2 200] 0 0)
      (plainClass [plainPacket 3 50] 0 1) (by decide) (by decide) rfl rfl).1,
    (spq_priority_dominance.2
      (plainClass [plainPacket 1 100, plainPacket 2 200] 0 0)
      (plainClass [plainPacket 3 50] 0 1) (by decide) (by decide) rfl rfl).2 (by decide),
    spq_priority_dominance.1
      { m_queueClasses :=
          [plainClass [plainPacket 3 50] 0 1,
            plainClass [plainPacket 1 100, plainPacket 2 200] 0 0] }
      { m_queueClasses :=
          [plainClass [plainPacket 3 50] 0 1, plainClass [plainPacket 2 200] 0 0] }
      (plainPacket 1 100) (by decide) rfl⟩

/-! ## Deficit round robin -/

theorem DRR.scheduleLoop_ok_head (queueList : List TrafficClass) :
    ∀ (fuel idx : Nat) (temp : List Nat) (pkt : Packet) (idx' : Nat) (temp' : List Nat),
      DRR.scheduleLoop queueList fuel idx temp = Except.ok (pkt, idx', temp') →
      ∃ tc, queueList[idx']? = some tc ∧ tc.IsEmpty = false ∧ tc.Peek = some pkt := by
  intro fuel
  induction fuel with
  | zero => intro idx temp pkt idx' temp' h; simp [DRR.scheduleLoop] at h
  | succ n ih =>
    intro idx temp pkt idx' temp' h
    unfold DRR.scheduleLoop at h
    cases hq : queueList[idx]? with
    | none => rw [hq] at h; simp at h
    | some tc =>
      rw [hq] at h
      simp only at h
      by_cases hne : tc.IsEmpty = false
      · simp only [hne, Bool.not_false, if_true] at h
        cases ht : temp[idx]? with
        | none => rw [ht] at h; simp at h
        | some credit =>
          rw [ht] at h
          simp only at h
          cases hp : tc.Peek with
          | none => rw [hp] at h; simp at h
          | some head =>
            rw [hp] at h
            simp only at h
            by_cases hle : head.size ≤ (tc.GetWeight + credit) % 2 ^ 32
            · rw [if_pos hle] at h
              simp only [Except.ok.injEq, Prod.mk.injEq] at h
              obtain ⟨h1, h2, _⟩ := h
              subst h1; subst h2
              exact ⟨tc, hq, hne, hp⟩
            · rw [if_neg hle] at h
              exact ih _ _ pkt idx' temp' h
      · simp only [Bool.not_eq_false] at hne
        simp only [hne, Bool.not_true, Bool.false_eq_true, if_false] at h
        exact ih _ _ pkt idx' temp' h

theorem DRR.schedule_frame (fuel : Nat) (self s1 : DRR) (scheduled : Option Packet)
    (h : DRR.Schedule fuel self = Except.ok (scheduled, s1)) :
    s1.m_queueClasses = self.m_queueClasses ∧
    s1.m_currentQueueIndex = self.m_currentQueueIndex ∧
    s1.m_creditBalance = self.m_creditBalance := by
  unfold DRR.Schedule at h
  split at h
  · simp only [Except.ok.injEq, Prod.mk.injEq] at h
    obtain ⟨_, h2⟩ := h
    subst h2
    exact ⟨rfl, rfl, rfl⟩
  · simp only at h
    split at h
    · simp only [Except.ok.injEq, Prod.mk.injEq] at h
      obtain ⟨_, h2⟩ := h
      subst h2
      exact ⟨rfl, rfl, rfl⟩
    · split at h
      · simp at h
      · simp only [Except.ok.injEq, Prod.mk.injEq] at h
        obtain ⟨_, h2⟩ := h
        subst h2
        exact ⟨rfl, rfl, rfl⟩

theorem DRR.schedule_some_head (fuel : Nat) (self s1 : DRR) (pkt : Packet)
    (h : DRR.Schedule fuel self = Except.ok (some pkt, s1)) :
    ∃ tc, self.m_queueClasses[s1.m_scheduledQueueIndex]? = some tc ∧
      tc.IsEmpty = false ∧ tc.Peek = some pkt := by
  unfold DRR.Schedule at h
  split at h
  · simp at h
  · simp only at h
    split at h
    · simp at h
    · split at h
      · simp at h
      · rename_i packet idx temp hloop
        simp only [Except.ok.injEq, Prod.mk.injEq, Option.some.injEq] at h
        obtain ⟨h1, h2⟩ := h
        subst h1; subst h2
        exact DRR.scheduleLoop_ok_head _ _ _ _ _ _ _ hloop

theorem DRR.schedule_idem (fuel : Nat) (self s1 : DRR) (scheduled : Option Packet)
    (h : DRR.Schedule fuel self = Except.ok (scheduled, s1)) :
    DRR.Schedule fuel s1 = Except.ok (scheduled, s1) := by
  unfold DRR.Schedule at h
  split at h
  · rename_i hemp
    simp only [Except.ok.injEq, Prod.mk.injEq] at h
    obtain ⟨h1, h2⟩ := h
    subst h1; subst h2
    unfold DRR.Schedule
    rw [if_pos hemp]
  · rename_i hemp
    simp only at h
    split at h
    · rename_i hall
      simp only [Except.ok.injEq, Prod.mk.injEq] at h
      obtain ⟨h1, h2⟩ := h
      subst h1; subst h2
      unfold DRR.Schedule
      simp only [hemp, hall, if_true, Bool.false_eq_true, if_false]
    · rename_i hall
      split at h
      · simp at h
      · rename_i packet idx temp hloop
        simp only [Except.ok.injEq, Prod.mk.injEq] at h
        obtain ⟨h1, h2⟩ := h
        subst h1; subst h2
        unfold DRR.Schedule
        simp only [hemp, hall, if_false, Bool.false_eq_true, hloop]

theorem DRR.scheduleLoop_zero_weight :
    ∀ (fuel : Nat),
      DRR.scheduleLoop [plainClass [plainPacket 1 100] 0 0] fuel 0 [0] =
        Except.error Fault.outOfFuel := by
  intro fuel
  induction fuel with
  | zero => rfl
  | succ n ih =>
    unfold DRR.scheduleLoop
    simpa [plainClass, plainPacket, TrafficClass.IsEmpty, TrafficClass.Peek,
      TrafficClass.GetWeight] using ih

/-- C6: with one class of weight 0 that holds a packet of 100 bytes, the loop
of `DRR::Schedule` never returns: whatever the number of iterations granted,
it is still running when they are used up, although the class is not
empty. -/
theorem drr_schedule_diverges_on_zero_weight :
    (∃ c ∈ zeroWeightDRR.m_queueClasses, c.IsEmpty = false) ∧
    AllConsistent zeroWeightDRR.m_queueClasses ∧
    ∀ (fuel : Nat), DRR.Schedule fuel zeroWeightDRR = Except.error Fault.outOfFuel := by
  refine ⟨⟨plainClass [plainPacket 1 100] 0 0, by simp [zeroWeightDRR], rfl⟩, by decide, ?_⟩
  intro fuel
  have h := DRR.scheduleLoop_zero_weight fuel
  unfold DRR.Schedule
  simp only [zeroWeightDRR] at h ⊢
  rw [h]
  rfl

/-- C7: after a `DRR::Dequeue` that returns a packet, `m_currentQueueIndex`
is the scheduled index and `m_creditBalance` the tentative balances that this
call's `Schedule` computed from the committed state, and, no packet being at
the head of two classes, the class at that index is the one that was popped;
after a `DRR::Dequeue` that returns `nullptr` both are unchanged. -/
theorem drr_dequeue_commits (fuel : Nat) (self s' : DRR) (r : Option Packet)
    (h : DRR.Dequeue fuel self = Except.ok (r, s')) :
    ∃ (scheduled : Option Packet) (s1 : DRR),
      DRR.Schedule fuel self = Except.ok (scheduled, s1) ∧
      (r = none →
        s'.m_currentQueueIndex = self.m_currentQueueIndex ∧
        s'.m_creditBalance = self.m_creditBalance) ∧
      (∀ p, r = some p →
        s'.m_currentQueueIndex = s1.m_scheduledQueueIndex ∧
        s'.m_creditBalance = s1.m_tempCreditBalance ∧
        (DistinctHeads self.m_queueClasses →
          ∃ tc, self.m_queueClasses[s'.m_currentQueueIndex]? = some tc ∧
            tc.Dequeue.1 = some p ∧
            s'.m_queueClasses =
              self.m_queueClasses.set s'.m_currentQueueIndex tc.Dequeue.2)) := by
  unfold DRR.Dequeue at h
  cases hs : DRR.Schedule fuel self with
  | error e => rw [hs] at h; simp at h
  | ok res =>
    obtain ⟨scheduled, s1⟩ := res
    rw [hs] at h
    simp only at h
    obtain ⟨hcl, hcur, hcred⟩ := DRR.schedule_frame fuel self s1 scheduled hs
    refine ⟨scheduled, s1, rfl, ?_, ?_⟩
    · intro hr
      subst hr
      split at h
      · simp at h
      · simp only [Except.ok.injEq, Prod.mk.injEq, true_and] at h
        subst h
        exact ⟨hcur, hcred⟩
    · intro p hr
      subst hr
      split at h
      · rename_i dq hdq
        simp only [Except.ok.injEq, Prod.mk.injEq, Option.some.injEq] at h
        obtain ⟨h1, h2⟩ := h
        subst h1; subst h2
        refine ⟨rfl, rfl, ?_⟩
        intro hdist
        cases scheduled with
        | none => simp [DiffServ.DoDequeue] at hdq
        | some pkt =>
          obtain ⟨tc, htc, hne, hpeek⟩ := DRR.schedule_some_head fuel self s1 pkt hs
          have hbefore : ∀ (j : Nat) (c : TrafficClass), j < s1.m_scheduledQueueIndex →
              self.m_queueClasses[j]? = some c → c.IsEmpty = false → c.Peek ≠ some pkt := by
            intro j c hj hcj hcne
            rw [← hpeek]
            exact DistinctHeads.before self.m_queueClasses hdist _ tc htc hne j c hj hcj hcne
          have hloop := DiffServ.dequeueLoop_at pkt self.m_queueClasses _ tc htc hne hpeek hbefore
          simp only [DiffServ.DoDequeue, hcl, hloop] at hdq ⊢
          exact ⟨tc, htc, hdq, rfl⟩
      · simp at h

/-- Witness for C7: the first `Dequeue` on `twoClassDRR` returns the packet
of class 1 after three rounds of credit. -/
theorem drr_dequeue_commits_witness :
    ∃ (scheduled : Option Packet) (s1 : DRR),
      DRR.Schedule 10 twoClassDRR = Except.ok (scheduled, s1) ∧
      (some (plainPacket 3 500) = none →
        twoClassDRRAfterDequeue.m_currentQueueIndex = twoClassDRR.m_currentQueueIndex ∧
        twoClassDRRAfterDequeue.m_creditBalance = twoClassDRR.m_creditBalance) ∧
      (∀ p, some (plainPacket 3 500) = some p →
        twoClassDRRAfterDequeue.m_currentQueueIndex = s1.m_scheduledQueueIndex ∧
        twoClassDRRAfterDequeue.m_creditBalance = s1.m_tempCreditBalance ∧
        (DistinctHeads twoClassDRR.m_queueClasses →
          ∃ tc, twoClassDRR.m_queueClasses[twoClassDRRAfterDequeue.m_currentQueueIndex]?
              = some tc ∧
            tc.Dequeue.1 = some p ∧
            twoClassDRRAfterDequeue.m_queueClasses =
              twoClassDRR.m_queueClasses.set twoClassDRRAfterDequeue.m_currentQueueIndex
                tc.Dequeue.2)) :=
  drr_dequeue_commits 10 twoClassDRR twoClassDRRAfterDequeue (some (plainPacket 3 500)) rfl

theorem DRR.nextIndex_eq (n idx : Nat) (h : idx < n) :
    (idx + 1) % n = if idx + 1 < n then idx + 1 else 0 := by
  by_cases h1 : idx + 1 < n
  · rw [if_pos h1, Nat.mod_eq_of_lt h1]
  · have : idx + 1 = n := by omega
    rw [if_neg h1, this, Nat.mod_self]

theorem DRR.distance_next (n idx k : Nat) (hi : idx < n) (hk : k < n) (hne : idx ≠ k) :
    DRR.distance n ((idx + 1) % n) k + 1 = DRR.distance n idx k := by
  rw [DRR.nextIndex_eq n idx hi]
  unfold DRR.distance
  split <;> split <;> split <;> omega

theorem DRR.distance_lt (n idx k : Nat) (hi : idx < n) (hk : k < n) :
    DRR.distance n idx k < n := by
  unfold DRR.distance
  split <;> omega

theorem DRR.potential_step_other (n k len idx : Nat) (temp : List Nat) (v : Nat)
    (hi : idx < n) (hk : k < n) (hne : idx ≠ k) :
    DRR.potential n k len ((idx + 1) % n) (temp.set idx v) + 1 =
      DRR.potential n k len idx temp := by
  unfold DRR.potential
  rw [List.getElem?_set_ne hne]
  have := DRR.distance_next n idx k hi hk hne
  omega

theorem DRR.potential_step_skip (n k len idx : Nat) (temp : List Nat)
    (hi : idx < n) (hk : k < n) (hne : idx ≠ k) :
    DRR.potential n k len ((idx + 1) % n) temp + 1 = DRR.potential n k len idx temp := by
  unfold DRR.potential
  have := DRR.distance_next n idx k hi hk hne
  omega

theorem DRR.potential_step_self (n k len w c : Nat) (temp : List Nat)
    (hk : k < n) (hlen : temp.length = n) (hc : temp[k]? = some c) (hw : 0 < w)
    (hovf : len + w ≤ 2 ^ 32) (hnot : ¬ len ≤ (w + c) % 2 ^ 32) :
    DRR.potential n k len ((k + 1) % n) (temp.set k ((w + c) % 2 ^ 32)) <
      DRR.potential n k len k temp := by
  unfold DRR.potential
  have hkl : k < temp.length := by omega
  rw [List.getElem?_set_self hkl, hc]
  simp only [Option.getD_some]
  have hd := DRR.distance_lt n ((k + 1) % n) k (Nat.mod_lt _ (by omega)) hk
  have h0 : DRR.distance n k k = 0 := by simp [DRR.distance]
  rw [h0]
  have hvis : DRR.visitsLeft len ((w + c) % 2 ^ 32) + 1 ≤ DRR.visitsLeft len c := by
    unfold DRR.visitsLeft
    by_cases hcl : c < len
    · have hno : (w + c) % 2 ^ 32 = w + c := Nat.mod_eq_of_lt (by omega)
      rw [hno] at hnot ⊢
      rw [if_pos (by omega), if_pos hcl]
      omega
    · rw [if_pos (by omega), if_neg hcl]
      omega
  have hmul : (DRR.visitsLeft len ((w + c) % 2 ^ 32) + 1) * n ≤ DRR.visitsLeft len c * n :=
    Nat.mul_le_mul_right n hvis
  rw [Nat.add_mul, Nat.one_mul] at hmul
  omega

/-- The loop of `DRR::Schedule` returns within finitely many iterations when
the classes are consistent, the index and the balances are in range, and some
class with packets has a positive weight that, added to the size of its head
packet, does not exceed `2 ^ 32`. -/
theorem DRR.scheduleLoop_terminates (queueList : List TrafficClass) (k : Nat)
    (tck : TrafficClass) (head : Packet)
    (hc : AllConsistent queueList) (hk : queueList[k]? = some tck)
    (hne : tck.IsEmpty = false) (hpeek : tck.Peek = some head)
    (hw : 0 < tck.GetWeight) (hovf : head.size + tck.GetWeight ≤ 2 ^ 32) :
    ∀ (μ idx : Nat) (temp : List Nat),
      idx < queueList.length → temp.length = queueList.length →
      DRR.potential queueList.length k head.size idx temp = μ →
      ∃ fuel res, DRR.scheduleLoop queueList fuel idx temp = Except.ok res := by
  have hkn : k < queueList.length := by
    by_contra hge
    rw [List.getElem?_eq_none (by omega)] at hk
    cases hk
  intro μ
  induction μ using Nat.strong_induction_on with
  | _ μ ih =>
    intro idx temp hi hlen hμ
    obtain ⟨tc, htc⟩ : ∃ tc, queueList[idx]? = some tc :=
      ⟨queueList[idx], List.getElem?_eq_getElem hi⟩
    obtain ⟨credit, hcredit⟩ : ∃ credit, temp[idx]? = some credit :=
      ⟨temp[idx], List.getElem?_eq_getElem (by omega)⟩
    have hnext : (idx + 1) % queueList.length < queueList.length :=
      Nat.mod_lt _ (by omega)
    by_cases hemp : tc.IsEmpty = false
    · obtain ⟨p, rest, _, hp, _⟩ :=
        TrafficClass.consistent_nonempty tc (hc tc (List.getElem?_mem htc)) hemp
      by_cases hle : p.size ≤ (tc.GetWeight + credit) % 2 ^ 32
      · refine ⟨1, (p, idx, temp.set idx ((tc.GetWeight + credit) % 2 ^ 32 - p.size)), ?_⟩
        unfold DRR.scheduleLoop
        simp only [htc, hemp, Bool.not_false, if_true, hcredit, hp, if_pos hle]
      · have hlt : DRR.potential queueList.length k head.size ((idx + 1) % queueList.length)
            (temp.set idx ((tc.GetWeight + credit) % 2 ^ 32)) < μ := by
          by_cases hik : idx = k
          · subst hik
            rw [hk] at htc
            cases htc
            rw [hpeek] at hp
            cases hp
            rw [← hμ]
            exact DRR.potential_step_self _ _ _ _ _ temp hkn hlen hcredit hw hovf hle
          · have := DRR.potential_step_other queueList.length k head.size idx temp
              ((tc.GetWeight + credit) % 2 ^ 32) hi hkn hik
            omega
        obtain ⟨fuel, res, hres⟩ := ih _ hlt _ _ hnext (by simpa using hlen) rfl
        refine ⟨fuel + 1, res, ?_⟩
        unfold DRR.scheduleLoop
        simp only [htc, hemp, Bool.not_false, if_true, hcredit, hp, if_neg hle]
        exact hres
    · have hemp' : tc.IsEmpty = true := by simpa using hemp
      have hik : idx ≠ k := by
        intro hik
        subst hik
        rw [hk] at htc
        cases htc
        rw [hne] at hemp'
        cases hemp'
      have hlt : DRR.potential queueList.length k head.size ((idx + 1) % queueList.length)
          temp < μ := by
        have := DRR.potential_step_skip queueList.length k head.size idx temp hi hkn hik
        omega
      obtain ⟨fuel, res, hres⟩ := ih _ hlt _ _ hnext hlen rfl
      refine ⟨fuel + 1, res, ?_⟩
      unfold DRR.scheduleLoop
      simp only [htc, hemp', Bool.not_true, Bool.false_eq_true, if_false]
      exact hres

/-- On a `DRR` object whose classes are consistent, whose cursor and balances
are in range, and one of whose classes has packets and a positive weight that
added to its head packet's size stays within `2 ^ 32`, `Schedule` returns a
packet when given enough iterations. -/
theorem DRR.schedule_terminates (self : DRR) (k : Nat) (tck : TrafficClass) (head : Packet)
    (hc : AllConsistent self.m_queueClasses)
    (hcur : self.m_currentQueueIndex < self.m_queueClasses.length)
    (hlen : self.m_creditBalance.length = self.m_queueClasses.length)
    (hk : self.m_queueClasses[k]? = some tck)
    (hne : tck.IsEmpty = false) (hpeek : tck.Peek = some head)
    (hw : 0 < tck.GetWeight) (hovf : head.size + tck.GetWeight ≤ 2 ^ 32) :
    ∃ fuel pkt s1, DRR.Schedule fuel self = Except.ok (some pkt, s1) := by
  obtain ⟨fuel, res, hres⟩ :=
    DRR.scheduleLoop_terminates self.m_queueClasses k tck head hc hk hne hpeek hw hovf _
      self.m_currentQueueIndex self.m_creditBalance hcur hlen rfl
  obtain ⟨pkt, idx, temp⟩ := res
  have hnotnil : self.m_queueClasses.isEmpty = false := by
    cases hl : self.m_queueClasses with
    | nil => rw [hl] at hk; simp at hk
    | cons _ _ => rfl
  have hcount : ¬ DRR.emptyQueueCount self.m_queueClasses = self.m_queueClasses.length := by
    intro hall
    unfold DRR.emptyQueueCount at hall
    have := (List.filter_length_eq_length.1 hall) tck (List.getElem?_mem hk)
    rw [hne] at this
    cases this
  refine ⟨fuel, pkt,
    { self with m_scheduledQueueIndex := idx, m_tempCreditBalance := temp }, ?_⟩
  unfold DRR.Schedule
  simp only [hnotnil, Bool.false_eq_true, if_false, hcount, hres]

theorem DRR.peekTimes_of_schedule (fuel : Nat) (s1 : DRR) (scheduled : Option Packet)
    (h : DRR.Schedule fuel s1 = Except.ok (scheduled, s1)) :
    ∀ (addrs : List Nat),
      DRR.peekTimes fuel addrs s1 =
        Except.ok (addrs.map (fun a => DiffServ.DoPeek scheduled a), s1) := by
  intro addrs
  induction addrs with
  | nil => rfl
  | cons a as ih =>
    simp only [DRR.peekTimes, DRR.Peek, h, ih, List.map_cons]

/-- C8: on an `SPQ` object every `Peek` returns a copy of the packet that
`Schedule` selects from the unchanged object, so any two calls return packets
of equal content; on a `DRR` object, when one `Peek` returns, any number of
further `Peek` calls in a row return copies of the same packet (or `nullptr`
again), and the class queues, `m_currentQueueIndex` and `m_creditBalance` are
afterwards what they were before the first call; and a `Peek` does return a
packet when the classes are consistent, the cursor and balances are in range
and some class with packets has a positive weight that stays within `2 ^ 32`
when added to the size of its head packet. -/
theorem peek_is_repeatable :
    (∀ (self : DiffServ) (a b : Nat),
      SPQ.Peek self a = (SPQ.Schedule self).map (fun p => p.Copy a) ∧
      (SPQ.Peek self a).map (fun p => p.Copy b) = SPQ.Peek self b) ∧
    (∀ (fuel : Nat) (self s1 : DRR) (addr : Nat) (r : Option Packet),
      DRR.Peek fuel self addr = Except.ok (r, s1) →
      ∀ (addrs : List Nat),
        ∃ s2, DRR.peekTimes fuel (addr :: addrs) self =
            Except.ok (r :: addrs.map (fun a => r.map (fun p => p.Copy a)), s2) ∧
          s2.m_queueClasses = self.m_queueClasses ∧
          s2.m_currentQueueIndex = self.m_currentQueueIndex ∧
          s2.m_creditBalance = self.m_creditBalance) ∧
    (∀ (self : DRR) (k : Nat) (tck : TrafficClass) (head : Packet) (addr : Nat),
      AllConsistent self.m_queueClasses →
      self.m_currentQueueIndex < self.m_queueClasses.length →
      self.m_creditBalance.length = self.m_queueClasses.length →
      self.m_queueClasses[k]? = some tck → tck.IsEmpty = false → tck.Peek = some head →
      0 < tck.GetWeight → head.size + tck.GetWeight ≤ 2 ^ 32 →
      ∃ fuel p s1, DRR.Peek fuel self addr = Except.ok (some p, s1)) := by
  refine ⟨?_, ?cond, ?term⟩
  · intro self a b
    constructor
    · unfold SPQ.Peek DiffServ.DoPeek
      cases SPQ.Schedule self <;> rfl
    · unfold SPQ.Peek DiffServ.DoPeek
      cases SPQ.Schedule self <;> rfl
  case term =>
    intro self k tck head addr hc hcur hlen hk hne hpeek hw hovf
    obtain ⟨fuel, pkt, s1, hs⟩ :=
      DRR.schedule_terminates self k tck head hc hcur hlen hk hne hpeek hw hovf
    exact ⟨fuel, pkt.Copy addr, s1, by simp only [DRR.Peek, hs, DiffServ.DoPeek]⟩
  case cond =>
    intro fuel self s1 addr r h addrs
    unfold DRR.Peek at h
    cases hs : DRR.Schedule fuel self with
    | error e => rw [hs] at h; simp at h
    | ok res =>
      obtain ⟨scheduled, s1'⟩ := res
      rw [hs] at h
      simp only [Except.ok.injEq, Prod.mk.injEq] at h
      obtain ⟨hr, hs1⟩ := h
      subst hs1
      obtain ⟨hcl, hcur, hcred⟩ := DRR.schedule_frame fuel self s1' scheduled hs
      have hidem := DRR.schedule_idem fuel self s1' scheduled hs
      refine ⟨s1', ?_, hcl, hcur, hcred⟩
      have hrest := DRR.peekTimes_of_schedule fuel s1' scheduled hidem addrs
      have hmap : addrs.map (fun a => DiffServ.DoPeek scheduled a) =
          addrs.map (fun a => r.map (fun p => p.Copy a)) := by
        apply List.map_congr_left
        intro a _
        subst hr
        cases scheduled <;> rfl
      simp only [DRR.peekTimes, DRR.Peek, hs, hrest, hr, hmap]

/-- Witness for C8: four `Peek` calls in a row on `twoClassDRR` return four
copies of the packet of class 1 and commit nothing, and `twoClassDRR` meets
the conditions under which a `Peek` returns. -/
theorem peek_is_repeatable_witness :
    (∃ s2, DRR.peekTimes 10 [50, 51, 52, 53] twoClassDRR =
        Except.ok
          (some ((plainPacket 3 500).Copy 50) ::
            [51, 52, 53].map
              (fun a => (some ((plainPacket 3 500).Copy 50)).map (fun p => p.Copy a)), s2) ∧
      s2.m_queueClasses = twoClassDRR.m_queueClasses ∧
      s2.m_currentQueueIndex = twoClassDRR.m_currentQueueIndex ∧
      s2.m_creditBalance = twoClassDRR.m_creditBalance) ∧
    (∃ fuel p s1, DRR.Peek fuel twoClassDRR 50 = Except.ok (some p, s1)) :=
  ⟨peek_is_repeatable.2.1 10 twoClassDRR twoClassDRRAfterPeek 50
      (some ((plainPacket 3 500).Copy 50)) rfl [51, 52, 53],
    peek_is_repeatable.2.2 twoClassDRR 1 (plainClass [plainPacket 3 500] 200 0)
      (plainPacket 3 500) 50 (by decide) (by decide) rfl rfl rfl rfl (by decide)
      (by decide)⟩

/-- Right after a `Schedule ()` that selected a packet, and with no packet at
the head of two classes, `DRR::Remove` does what `DRR::Dequeue` does from the
state before that `Schedule ()`. -/
theorem DRR.remove_after_schedule (fuel : Nat) (self s1 : DRR) (pkt : Packet)
    (hs : DRR.Schedule fuel self = Except.ok (some pkt, s1))
    (hdist : DistinctHeads self.m_queueClasses) :
    DRR.Dequeue fuel self = Except.ok (DRR.Remove s1) := by
  obtain ⟨hcl, _, _⟩ := DRR.schedule_frame fuel self s1 (some pkt) hs
  obtain ⟨tc, htc, hne, hpeek⟩ := DRR.schedule_some_head fuel self s1 pkt hs
  have hbefore : ∀ (j : Nat) (c : TrafficClass), j < s1.m_scheduledQueueIndex →
      self.m_queueClasses[j]? = some c → c.IsEmpty = false → c.Peek ≠ some pkt := by
    intro j c hj hcj hcne
    rw [← hpeek]
    exact DistinctHeads.before self.m_queueClasses hdist _ tc htc hne j c hj hcj hcne
  have hloop := DiffServ.dequeueLoop_at pkt self.m_queueClasses _ tc htc hne hpeek hbefore
  rw [← hcl] at htc hloop
  unfold DRR.Dequeue DRR.Remove
  simp only [hs, DiffServ.DoDequeue, hloop, htc, hne, Bool.false_eq_true, if_false]
  cases tc.Dequeue.1 <;> rfl

/-- C9: on `staleScheduleDRR`, where the scheduled index still names the
empty class 0, `DRR::Dequeue` returns the packet of class 1 and commits,
whereas `DRR::Remove` returns `nullptr` and leaves every queue as it is. -/
theorem drr_remove_differs_from_dequeue :
    DRR.Dequeue 10 staleScheduleDRR =
      Except.ok (some (plainPacket 1 100),
        { m_queueClasses := [plainClass [] 1000 0, plainClass [] 1000 0]
          m_currentQueueIndex := 1
          m_scheduledQueueIndex := 1
          m_creditBalance := [0, 900]
          m_tempCreditBalance := [0, 900] }) ∧
    DRR.Remove staleScheduleDRR = (none, staleScheduleDRR) ∧
    AllConsistent staleScheduleDRR.m_queueClasses := by
  refine ⟨rfl, rfl, by decide⟩

/-- C10: on the base dispatcher `DoRemove` and `DoDequeue` are the same
operation, whatever packet `Schedule` selected, and so `Remove` and `Dequeue`
on an `SPQ` object return the same packet and leave the same class queues. -/
theorem diffserv_remove_is_dequeue (self : DiffServ) :
    (∀ (scheduled : Option Packet), self.DoRemove scheduled = self.DoDequeue scheduled) ∧
    (SPQ.Remove self).1 = (SPQ.Dequeue self).1 ∧
    (SPQ.Remove self).2.m_queueClasses = (SPQ.Dequeue self).2.m_queueClasses := by
  refine ⟨fun _ => rfl, rfl, rfl⟩

/-! ## Filters and class matching -/

theorem Filter.matchLoop_all (p : Packet) :
    ∀ (l : List FilterElement),
      Filter.matchLoop p l = true ↔ ∀ e ∈ l, e.Match p = true := by
  intro l
  induction l with
  | nil => simp [Filter.matchLoop]
  | cons e rest ih =>
    by_cases he : e.Match p = true
    · simp [Filter.matchLoop, he, ih]
    · simp only [Bool.not_eq_true] at he
      simp [Filter.matchLoop, he]

/-- C18: `Filter::Match` is true exactly when every element of the filter
matches the packet, and a filter without elements matches every packet. -/
theorem filter_match_iff_all_elements (f : Filter) (p : Packet) :
    (f.Match p = true ↔ ∀ e ∈ f.m_elements, e.Match p = true) ∧
    Filter.Match { m_elements := [] } p = true := by
  constructor
  · unfold Filter.Match
    cases hl : f.m_elements with
    | nil => simp
    | cons e rest =>
      simp only [List.isEmpty_cons, Bool.false_eq_true, if_false]
      exact Filter.matchLoop_all p (e :: rest)
  · rfl

theorem TrafficClass.matchLoop_any (p : Packet) :
    ∀ (l : List Filter),
      TrafficClass.matchLoop p l = true ↔ ∃ f ∈ l, f.Match p = true := by
  intro l
  induction l with
  | nil => simp [TrafficClass.matchLoop]
  | cons f rest ih =>
    by_cases hf : f.Match p = true
    · simp [TrafficClass.matchLoop, hf]
    · simp only [Bool.not_eq_true] at hf
      simp [TrafficClass.matchLoop, hf, ih]

/-- C19: `TrafficClass::Match` is true exactly when the class has no filters
or at least one of its filters matches the packet. -/
theorem class_match_iff_no_filter_or_some_filter (tc : TrafficClass) (p : Packet) :
    tc.Match p = true ↔ tc.m_filters = [] ∨ ∃ f ∈ tc.m_filters, f.Match p = true := by
  unfold TrafficClass.Match
  cases hl : tc.m_filters with
  | nil => simp
  | cons f rest =>
    simp only [List.isEmpty_cons, Bool.false_eq_true, if_false]
    rw [TrafficClass.matchLoop_any p (f :: rest)]
    simp

/-! ## The bounded queue of a class -/

/-- C14: for a class whose counter is its queue length and whose queue is no
longer than its capacity, `Enqueue` returns false exactly when the length
equals the capacity; a false result leaves the class as it was, and a true
result appends the packet at the tail, the length and the counter growing by
one and nothing else changing. -/
theorem enqueue_fails_iff_full (tc : TrafficClass) (pkt : Packet) (hb : tc.Bounded) :
    ((tc.Enqueue pkt).1 = false ↔ tc.m_queue.length = tc.m_maxPackets) ∧
    ((tc.Enqueue pkt).1 = false → (tc.Enqueue pkt).2 = tc) ∧
    ((tc.Enqueue pkt).1 = true →
      (tc.Enqueue pkt).2 = tc.withQueue (tc.m_queue ++ [pkt]) ∧
      (tc.Enqueue pkt).2.m_queue.length = tc.m_queue.length + 1 ∧
      (tc.Enqueue pkt).2.m_packets = tc.m_packets + 1) := by
  obtain ⟨h1, h2, h3⟩ := hb
  by_cases hlt : tc.m_packets < tc.m_maxPackets
  · have hmod : (tc.m_packets + 1) % 2 ^ 32 = tc.m_packets + 1 :=
      Nat.mod_eq_of_lt (by omega)
    have hE : tc.Enqueue pkt = (true, tc.withQueue (tc.m_queue ++ [pkt])) := by
      unfold TrafficClass.Enqueue
      rw [if_pos hlt, hmod]
      simp [TrafficClass.withQueue, h1]
    rw [hE]
    refine ⟨⟨fun h => (by cases h), fun h => (by omega)⟩, fun h => (by cases h), fun _ => ?_⟩
    refine ⟨rfl, ?_, ?_⟩
    · simp [TrafficClass.withQueue]
    · simp [TrafficClass.withQueue, h1]
  · have hE : tc.Enqueue pkt = (false, tc) := by
      unfold TrafficClass.Enqueue
      rw [if_neg hlt]
    rw [hE]
    exact ⟨⟨fun _ => (by omega), fun _ => rfl⟩, fun _ => rfl, fun h => (by cases h)⟩

/-- Witness for C14: a class of capacity 2 accepts a packet when it holds one
and rejects it when it holds two. -/
theorem enqueue_fails_iff_full_witness :
    (((smallClass [plainPacket 1 10]).Enqueue (plainPacket 2 20)).1 = true →
      ((smallClass [plainPacket 1 10]).Enqueue (plainPacket 2 20)).2 =
        (smallClass [plainPacket 1 10]).withQueue
          ((smallClass [plainPacket 1 10]).m_queue ++ [plainPacket 2 20]) ∧
      ((smallClass [plainPacket 1 10]).Enqueue (plainPacket 2 20)).2.m_queue.length =
        (smallClass [plainPacket 1 10]).m_queue.length + 1 ∧
      ((smallClass [plainPacket 1 10]).Enqueue (plainPacket 2 20)).2.m_packets =
        (smallClass [plainPacket 1 10]).m_packets + 1) ∧
    (((smallClass [plainPacket 1 10, plainPacket 2 20]).Enqueue (plainPacket 3 30)).1 = false ↔
      (smallClass [plainPacket 1 10, plainPacket 2 20]).m_queue.length =
        (smallClass [plainPacket 1 10, plainPacket 2 20]).m_maxPackets) :=
  ⟨(enqueue_fails_iff_full (smallClass [plainPacket 1 10]) (plainPacket 2 20)
      (by decide)).2.2,
    (enqueue_fails_iff_full (smallClass [plainPacket 1 10, plainPacket 2 20])
      (plainPacket 3 30) (by decide)).1⟩

/-- C17: for a class whose counter is its queue length, `Peek` returns
`nullptr` exactly when the class is empty, and otherwise the packet that the
next `Dequeue` returns; `Peek` is a read of the class, and `Dequeue` on an
empty class returns `nullptr` and leaves the class as it was. -/
theorem peek_agrees_with_dequeue (tc : TrafficClass) (hc : tc.Consistent) :
    (tc.Peek = none ↔ tc.IsEmpty = true) ∧
    (tc.IsEmpty = true ↔ tc.m_queue = []) ∧
    (∀ p, tc.Peek = some p → tc.Dequeue.1 = some p ∧ tc.m_queue.head? = some p) ∧
    (tc.IsEmpty = true → tc.Dequeue = (none, tc)) := by
  have hempty : tc.IsEmpty = true ↔ tc.m_queue = [] := by
    unfold TrafficClass.IsEmpty
    rw [beq_iff_eq, hc.1]
    exact List.length_eq_zero
  refine ⟨?_, hempty, ?_, ?_⟩
  · constructor
    · intro h
      by_contra hne
      simp only [Bool.not_eq_true] at hne
      obtain ⟨p, rest, _, hp, _⟩ := TrafficClass.consistent_nonempty tc hc hne
      rw [hp] at h
      cases h
    · intro h
      simp [TrafficClass.Peek, h]
  · intro p hp
    have hne : tc.IsEmpty = false := by
      by_contra h
      simp only [Bool.not_eq_false] at h
      simp [TrafficClass.Peek, h] at hp
    obtain ⟨q, rest, hq, hpeek, hdq⟩ := TrafficClass.consistent_nonempty tc hc hne
    rw [hpeek] at hp
    cases hp
    rw [hdq, hq]
    exact ⟨rfl, rfl⟩
  · intro h
    have := hempty.1 h
    simp [TrafficClass.Dequeue, this]

/-- Witness for C17: a class holding two packets peeks the first, which is
what `Dequeue` returns. -/
theorem peek_agrees_with_dequeue_witness :
    (smallClass [plainPacket 1 10, plainPacket 2 20]).Dequeue.1 = some (plainPacket 1 10) ∧
    (smallClass [plainPacket 1 10, plainPacket 2 20]).m_queue.head? =
      some (plainPacket 1 10) :=
  (peek_agrees_with_dequeue (smallClass [plainPacket 1 10, plainPacket 2 20])
    (by decide)).2.2.1 (plainPacket 1 10) rfl

/-! ## Enqueue through the dispatcher -/

theorem set_same {α : Type} :
    ∀ (l : List α) (i : Nat) (a : α), l[i]? = some a → l.set i a = l := by
  intro l
  induction l with
  | nil => intro i a h; simp at h
  | cons x rest ih =>
    intro i a h
    cases i with
    | zero => simp at h; subst h; rfl
    | succ n =>
      simp only [List.getElem?_cons_succ] at h
      simp [List.set, ih n a h]

theorem classifyLoop_no_match_result (packet : Packet) :
    ∀ (l : List TrafficClass) (k : Nat) (d : Int),
      (∀ c ∈ l, c.Match packet = false) →
      DiffServ.classifyLoop packet l k d = d ∨
      ∃ (i : Nat) (tc : TrafficClass), l[i]? = some tc ∧ tc.IsDefault = true ∧
        DiffServ.classifyLoop packet l k d = ((k + i : Nat) : Int) := by
  intro l
  induction l with
  | nil => intro k d _; left; rfl
  | cons c rest ih =>
    intro k d hno
    have h0 : c.Match packet = false := hno c (List.mem_cons_self _ _)
    have hno' : ∀ c' ∈ rest, c'.Match packet = false :=
      fun c' hc' => hno c' (List.mem_cons_of_mem _ hc')
    simp only [DiffServ.classifyLoop, h0, Bool.false_eq_true, if_false]
    rcases ih (k + 1) (if c.IsDefault then (k : Int) else d) hno' with h | ⟨i, tc, hi, hd, h⟩
    · by_cases hdef : c.IsDefault = true
      · right
        refine ⟨0, c, by simp, hdef, ?_⟩
        rw [h, if_pos hdef]
        simp
      · left
        rw [h, if_neg hdef]
    · right
      refine ⟨i + 1, tc, by simpa using hi, hd, ?_⟩
      rw [h]
      congr 1
      omega

theorem classifyLoop_range (packet : Packet) :
    ∀ (l : List TrafficClass) (k : Nat) (d : Int),
      DiffServ.classifyLoop packet l k d = d ∨
      ∃ (i : Nat), i < l.length ∧
        DiffServ.classifyLoop packet l k d = ((k + i : Nat) : Int) := by
  intro l
  induction l with
  | nil => intro k d; left; rfl
  | cons c rest ih =>
    intro k d
    by_cases hm : c.Match packet = true
    · right
      exact ⟨0, by simp, by simp [DiffServ.classifyLoop, hm]⟩
    · have h0 : c.Match packet = false := by simpa using hm
      simp only [DiffServ.classifyLoop, h0, Bool.false_eq_true, if_false]
      rcases ih (k + 1) (if c.IsDefault then (k : Int) else d) with h | ⟨i, hi, h⟩
      · by_cases hdef : c.IsDefault = true
        · right
          refine ⟨0, by simp, ?_⟩
          rw [h, if_pos hdef]
          simp
        · left
          rw [h, if_neg hdef]
      · right
        refine ⟨i + 1, by simpa using hi, ?_⟩
        rw [h]
        congr 1
        omega

theorem DiffServ.classify_lt_length (self : DiffServ) (packet : Packet) (idx : Nat)
    (h : self.Classify packet = (idx : Int)) : idx < self.m_queueClasses.length := by
  unfold DiffServ.Classify at h
  rcases classifyLoop_range packet self.m_queueClasses 0 (-1) with h1 | ⟨i, hi, h1⟩
  · rw [h1] at h
    omega
  · rw [h1] at h
    have : i = idx := by omega
    omega

theorem DiffServ.doEnqueue_of_classify (self : DiffServ) (packet : Packet) (idx : Nat)
    (tc : TrafficClass) (h : self.Classify packet = (idx : Int))
    (htc : self.m_queueClasses[idx]? = some tc) :
    self.DoEnqueue packet =
      ((tc.Enqueue packet).1,
        { m_queueClasses := self.m_queueClasses.set idx (tc.Enqueue packet).2 }) := by
  have hlt := DiffServ.classify_lt_length self packet idx h
  unfold DiffServ.DoEnqueue
  simp only [h, Int.toNat_ofNat, htc]
  rw [if_pos ⟨by omega, by omega⟩]

theorem DiffServ.doEnqueue_of_none (self : DiffServ) (packet : Packet)
    (h : self.Classify packet = -1) : self.DoEnqueue packet = (false, self) := by
  unfold DiffServ.DoEnqueue
  simp only [h]
  rw [if_neg (by omega)]

/-- C12: when `Classify` yields `-1` for a packet, which is what it yields
when no class matches and no class is flagged default, `Enqueue` returns
false and the dispatcher, with every queue and counter, is as before. -/
theorem enqueue_drops_unclassified (self : DiffServ) (packet : Packet) :
    (self.Classify packet = -1 → self.Enqueue packet = (false, self)) ∧
    ((∀ c ∈ self.m_queueClasses, c.Match packet = false) →
      (∀ c ∈ self.m_queueClasses, c.IsDefault = false) →
      self.Classify packet = -1 ∧ self.Enqueue packet = (false, self)) := by
  constructor
  · exact DiffServ.doEnqueue_of_none self packet
  · intro hno hnd
    have h : self.Classify packet = -1 :=
      classifyLoop_no_match_no_default packet self.m_queueClasses 0 (-1) hno hnd
    exact ⟨h, DiffServ.doEnqueue_of_none self packet h⟩

/-- Witness for C12: three classes filtered on protocols 17, 6 and 1, none of
them default, drop a packet without headers. -/
theorem enqueue_drops_unclassified_witness :
    noDefaultDispatcher.Classify (plainPacket 9 64) = -1 ∧
    noDefaultDispatcher.Enqueue (plainPacket 9 64) = (false, noDefaultDispatcher) :=
  (enqueue_drops_unclassified noDefaultDispatcher (plainPacket 9 64)).2
    (by decide) (by decide)

/-- C13: when `Classify` yields the index `idx`, `Enqueue` returns what
`Enqueue` of class `idx` returns, puts the class that call leaves at `idx`
and changes no other class; a packet that no class matches has thereby gone
to a class flagged default; and when class `idx` is at capacity the result is
false and the dispatcher is as before, whatever room other classes have. -/
theorem enqueue_delegates_to_classified_class (self : DiffServ) (packet : Packet)
    (idx : Nat) (h : self.Classify packet = (idx : Int)) :
    ∃ tc, self.m_queueClasses[idx]? = some tc ∧
      self.Enqueue packet =
        ((tc.Enqueue packet).1,
          { m_queueClasses := self.m_queueClasses.set idx (tc.Enqueue packet).2 }) ∧
      (∀ (j : Nat), j ≠ idx →
        (self.Enqueue packet).2.m_queueClasses[j]? = self.m_queueClasses[j]?) ∧
      ((∀ c ∈ self.m_queueClasses, c.Match packet = false) → tc.IsDefault = true) ∧
      (tc.m_maxPackets ≤ tc.m_packets → self.Enqueue packet = (false, self)) := by
  have hlt := DiffServ.classify_lt_length self packet idx h
  have htc : self.m_queueClasses[idx]? = some self.m_queueClasses[idx] :=
    List.getElem?_eq_getElem hlt
  have hE := DiffServ.doEnqueue_of_classify self packet idx _ h htc
  refine ⟨self.m_queueClasses[idx], htc, hE, ?_, ?_, ?_⟩
  · intro j hj
    unfold DiffServ.Enqueue
    rw [hE]
    exact List.getElem?_set_ne (Ne.symm hj)
  · intro hno
    unfold DiffServ.Classify at h
    rcases classifyLoop_no_match_result packet self.m_queueClasses 0 (-1) hno with
      h1 | ⟨i, tc, hi, hd, h1⟩
    · rw [h1] at h
      omega
    · rw [h1] at h
      have hidx : i = idx := by omega
      subst hidx
      rw [htc] at hi
      cases hi
      exact hd
  · intro hfull
    unfold DiffServ.Enqueue
    rw [hE]
    have hrej : self.m_queueClasses[idx].Enqueue packet = (false, self.m_queueClasses[idx]) := by
      unfold TrafficClass.Enqueue
      rw [if_neg (by omega)]
    rw [hrej]
    cases self
    simp only [DiffServ.mk.injEq, Prod.mk.injEq, true_and]
    exact set_same _ idx _ htc

/-- Witness for C13: a packet without headers matches none of the three
filtered classes and is classified to class 2, the default class; that class
is at its capacity of 1, so the packet is rejected although classes 0 and 1
are empty. -/
theorem enqueue_delegates_to_classified_class_witness :
    ∃ tc, (threeClassDispatcher [plainPacket 1 10]).m_queueClasses[2]? = some tc ∧
      (threeClassDispatcher [plainPacket 1 10]).Enqueue (plainPacket 9 64) =
        ((tc.Enqueue (plainPacket 9 64)).1,
          { m_queueClasses :=
              (threeClassDispatcher [plainPacket 1 10]).m_queueClasses.set 2
                (tc.Enqueue (plainPacket 9 64)).2 }) ∧
      (∀ (j : Nat), j ≠ 2 →
        ((threeClassDispatcher [plainPacket 1 10]).Enqueue
            (plainPacket 9 64)).2.m_queueClasses[j]? =
          (threeClassDispatcher [plainPacket 1 10]).m_queueClasses[j]?) ∧
      ((∀ c ∈ (threeClassDispatcher [plainPacket 1 10]).m_queueClasses,
          c.Match (plainPacket 9 64) = false) → tc.IsDefault = true) ∧
      (tc.m_maxPackets ≤ tc.m_packets →
        (threeClassDispatcher [plainPacket 1 10]).Enqueue (plainPacket 9 64) =
          (false, threeClassDispatcher [plainPacket 1 10])) :=
  enqueue_delegates_to_classified_class (threeClassDispatcher [plainPacket 1 10])
    (plainPacket 9 64) 2 (by decide)

/-! ## Sequences of calls on one class -/

theorem TrafficClass.Bounded.consistent (tc : TrafficClass) (hb : tc.Bounded) :
    tc.Consistent :=
  ⟨hb.1, by have := hb.2.1; have := hb.2.2; omega⟩

theorem TrafficClass.enqueue_cases (tc : TrafficClass) (pkt : Packet) (hb : tc.Bounded) :
    (tc.Enqueue pkt = (true, tc.withQueue (tc.m_queue ++ [pkt])) ∧
      tc.m_queue.length < tc.m_maxPackets) ∨
    tc.Enqueue pkt = (false, tc) := by
  obtain ⟨h1, h2, h3⟩ := hb
  by_cases hlt : tc.m_packets < tc.m_maxPackets
  · left
    have hmod : (tc.m_packets + 1) % 2 ^ 32 = tc.m_packets + 1 :=
      Nat.mod_eq_of_lt (by omega)
    refine ⟨?_, by omega⟩
    unfold TrafficClass.Enqueue
    rw [if_pos hlt, hmod]
    simp [TrafficClass.withQueue, h1]
  · right
    unfold TrafficClass.Enqueue
    rw [if_neg hlt]

theorem TrafficClass.dequeue_cases (tc : TrafficClass) (hb : tc.Bounded) :
    (tc.m_queue = [] ∧ tc.Dequeue = (none, tc)) ∨
    (∃ p rest, tc.m_queue = p :: rest ∧ tc.Dequeue = (some p, tc.withQueue rest)) := by
  cases hq : tc.m_queue with
  | nil => left; exact ⟨rfl, by simp [TrafficClass.Dequeue, hq]⟩
  | cons p rest =>
    right
    have hne : tc.IsEmpty = false := by
      have := hb.1
      rw [hq] at this
      simp [TrafficClass.IsEmpty, this]
    obtain ⟨p', rest', hq', _, hdq⟩ :=
      TrafficClass.consistent_nonempty tc (TrafficClass.Bounded.consistent tc hb) hne
    rw [hq] at hq'
    obtain ⟨h1, h2⟩ := List.cons.inj hq'
    subst h1; subst h2
    exact ⟨p, rest, rfl, hdq⟩

theorem TrafficClass.withQueue_bounded (tc : TrafficClass) (q : List Packet)
    (hq : q.length ≤ tc.m_maxPackets) (hcap : tc.m_maxPackets < 2 ^ 32) :
    (tc.withQueue q).Bounded :=
  ⟨rfl, hq, hcap⟩

theorem TrafficClass.enqueue_bounded (tc : TrafficClass) (pkt : Packet) (hb : tc.Bounded) :
    (tc.Enqueue pkt).2.Bounded := by
  rcases TrafficClass.enqueue_cases tc pkt hb with ⟨h, hlt⟩ | h
  · rw [h]
    exact TrafficClass.withQueue_bounded tc _ (by simp; omega) hb.2.2
  · rw [h]; exact hb

theorem TrafficClass.dequeue_bounded (tc : TrafficClass) (hb : tc.Bounded) :
    tc.Dequeue.2.Bounded := by
  rcases TrafficClass.dequeue_cases tc hb with ⟨_, h⟩ | ⟨p, rest, hq, h⟩
  · rw [h]; exact hb
  · rw [h]
    have := hb.2.1
    rw [hq] at this
    simp only [List.length_cons] at this
    exact TrafficClass.withQueue_bounded tc _ (by omega) hb.2.2

theorem TrafficClass.run_spec :
    ∀ (calls : List TrafficClass.Call) (tc : TrafficClass), tc.Bounded →
      tc.m_queue ++ (TrafficClass.run calls tc).1 =
        (TrafficClass.run calls tc).2.1 ++ (TrafficClass.run calls tc).2.2.m_queue ∧
      (TrafficClass.run calls tc).2.2.Bounded ∧
      (TrafficClass.run calls tc).2.2.settings = tc.settings := by
  intro calls
  induction calls with
  | nil => intro tc hb; exact ⟨by simp [TrafficClass.run], hb, rfl⟩
  | cons call rest ih =>
    intro tc hb
    cases call with
    | Enqueue pkt =>
      rcases TrafficClass.enqueue_cases tc pkt hb with ⟨h, hlt⟩ | h
      · obtain ⟨e1, e2, e3⟩ := ih (tc.withQueue (tc.m_queue ++ [pkt]))
          (TrafficClass.withQueue_bounded tc _ (by simp; omega) hb.2.2)
        simp only [TrafficClass.run, h, if_true]
        refine ⟨?_, e2, e3⟩
        rw [← e1]
        simp [TrafficClass.withQueue]
      · obtain ⟨e1, e2, e3⟩ := ih tc hb
        simp only [TrafficClass.run, h, Bool.false_eq_true, if_false]
        exact ⟨e1, e2, e3⟩
    | Dequeue =>
      rcases TrafficClass.dequeue_cases tc hb with ⟨_, h⟩ | ⟨p, q, hq, h⟩
      · obtain ⟨e1, e2, e3⟩ := ih tc hb
        simp only [TrafficClass.run, h]
        exact ⟨e1, e2, e3⟩
      · have hlen := hb.2.1
        rw [hq] at hlen
        simp only [List.length_cons] at hlen
        obtain ⟨e1, e2, e3⟩ := ih (tc.withQueue q)
          (TrafficClass.withQueue_bounded tc _ (by omega) hb.2.2)
        simp only [TrafficClass.run, h]
        refine ⟨?_, e2, e3⟩
        rw [hq]
        simp only [List.cons_append]
        rw [← e1]
        simp [TrafficClass.withQueue]
    | Peek =>
      simpa only [TrafficClass.run] using ih tc hb

/-- C16: on a class that starts empty, whatever the sequence of `Enqueue`,
`Dequeue` and `Peek` calls, the packets accepted by `Enqueue` are, in order,
the packets returned by `Dequeue` followed by the packets still queued; so
the k-th packet returned is the k-th packet accepted. -/
theorem class_is_fifo (tc : TrafficClass) (calls : List TrafficClass.Call)
    (hf : tc.Fresh) :
    (TrafficClass.run calls tc).1 =
      (TrafficClass.run calls tc).2.1 ++ (TrafficClass.run calls tc).2.2.m_queue ∧
    ∀ (k : Nat), k < (TrafficClass.run calls tc).2.1.length →
      (TrafficClass.run calls tc).2.1[k]? = (TrafficClass.run calls tc).1[k]? := by
  have hb : tc.Bounded := ⟨by rw [hf.2.1, hf.1]; rfl, by rw [hf.1]; simp, hf.2.2⟩
  obtain ⟨e1, _, _⟩ := TrafficClass.run_spec calls tc hb
  rw [hf.1, List.nil_append] at e1
  refine ⟨e1, ?_⟩
  intro k hk
  rw [e1, List.getElem?_append_left hk]

/-- Witness for C16: on a class of capacity 2, three `Enqueue` calls of which
the third is rejected, interleaved with `Dequeue` calls, return the accepted
packets in the order they entered. -/
theorem class_is_fifo_witness :
    (TrafficClass.run sampleCalls (smallClass [])).1 =
      (TrafficClass.run sampleCalls (smallClass [])).2.1 ++
        (TrafficClass.run sampleCalls (smallClass [])).2.2.m_queue ∧
    (TrafficClass.run sampleCalls (smallClass [])).1 =
      [plainPacket 1 10, plainPacket 2 20, plainPacket 4 40] ∧
    (TrafficClass.run sampleCalls (smallClass [])).2.1 =
      [plainPacket 1 10, plainPacket 2 20] :=
  ⟨(class_is_fifo (smallClass []) sampleCalls (by decide)).1, by decide, by decide⟩

/-! ## States reachable from an empty dispatcher -/

theorem TrafficClass.match_of_settings (a b : TrafficClass) (p : Packet)
    (h : a.settings = b.settings) : a.Match p = b.Match p ∧ a.IsDefault = b.IsDefault := by
  simp only [TrafficClass.settings, Prod.mk.injEq] at h
  obtain ⟨h1, _, _, _, h5⟩ := h
  exact ⟨by unfold TrafficClass.Match; rw [h1], h5⟩

theorem classifyLoop_config (packet : Packet) :
    ∀ (l l' : List TrafficClass) (k : Nat) (d : Int),
      DiffServ.config l = DiffServ.config l' →
      DiffServ.classifyLoop packet l k d = DiffServ.classifyLoop packet l' k d := by
  intro l
  induction l with
  | nil =>
    intro l' k d h
    cases l' with
    | nil => rfl
    | cons _ _ => simp [DiffServ.config] at h
  | cons c rest ih =>
    intro l' k d h
    cases l' with
    | nil => simp [DiffServ.config] at h
    | cons c' rest' =>
      simp only [DiffServ.config, List.map_cons, List.cons.injEq] at h
      obtain ⟨hm, hd⟩ := TrafficClass.match_of_settings c c' packet h.1
      simp only [DiffServ.classifyLoop, hm, hd]
      rw [ih rest' (k + 1) _ h.2]

theorem DiffServ.config_set (l : List TrafficClass) (i : Nat) (tc tc' : TrafficClass)
    (h : l[i]? = some tc) (hs : tc'.settings = tc.settings) :
    DiffServ.config (l.set i tc') = DiffServ.config l := by
  unfold DiffServ.config
  rw [List.map_set, hs]
  exact set_same _ i _ (by simp [h])

theorem TrafficClass.enqueue_settings (tc : TrafficClass) (pkt : Packet) :
    (tc.Enqueue pkt).2.settings = tc.settings := by
  unfold TrafficClass.Enqueue
  split <;> rfl

theorem TrafficClass.dequeue_settings (tc : TrafficClass) :
    tc.Dequeue.2.settings = tc.settings := by
  unfold TrafficClass.Dequeue
  split <;> rfl

theorem TrafficClass.enqueue_mem (tc : TrafficClass) (pkt q : Packet)
    (h : q ∈ (tc.Enqueue pkt).2.m_queue) : q ∈ tc.m_queue ∨ q = pkt := by
  unfold TrafficClass.Enqueue at h
  split at h
  · simpa using h
  · exact Or.inl h

theorem TrafficClass.dequeue_mem (tc : TrafficClass) (q : Packet)
    (h : q ∈ tc.Dequeue.2.m_queue) : q ∈ tc.m_queue := by
  unfold TrafficClass.Dequeue at h
  split at h
  · exact h
  · rename_i pkt rest hq
    rw [hq]
    exact List.mem_cons_of_mem _ h

theorem DiffServ.dequeueLoop_shape (packet : Packet) :
    ∀ (l : List TrafficClass),
      (DiffServ.dequeueLoop packet l).2 = l ∨
      ∃ (i : Nat) (tc : TrafficClass), l[i]? = some tc ∧
        (DiffServ.dequeueLoop packet l).2 = l.set i tc.Dequeue.2 := by
  intro l
  induction l with
  | nil => left; rfl
  | cons c rest ih =>
    by_cases hsel : (!c.IsEmpty && c.Peek == some packet) = true
    · right
      exact ⟨0, c, by simp, by simp [DiffServ.dequeueLoop, hsel]⟩
    · simp only [DiffServ.dequeueLoop, hsel, Bool.false_eq_true, if_false]
      rcases ih with h | ⟨i, tc, hi, h⟩
      · left; rw [h]
      · right
        exact ⟨i + 1, tc, by simpa using hi, by rw [h]; rfl⟩

theorem DiffServ.Inv.set (start s : DiffServ) (i : Nat) (tc tc' : TrafficClass)
    (hinv : DiffServ.Inv start s) (hi : s.m_queueClasses[i]? = some tc)
    (hs : tc'.settings = tc.settings) (hb : tc'.Bounded)
    (hq : ∀ q ∈ tc'.m_queue, q ∈ tc.m_queue ∨ s.Classify q = (i : Int)) :
    DiffServ.Inv start { m_queueClasses := s.m_queueClasses.set i tc' } := by
  obtain ⟨hc, hbs, hr⟩ := hinv
  have hcfg := DiffServ.config_set s.m_queueClasses i tc tc' hi hs
  have hclass : ∀ q, DiffServ.Classify { m_queueClasses := s.m_queueClasses.set i tc' } q =
      s.Classify q := by
    intro q
    unfold DiffServ.Classify
    exact classifyLoop_config q _ _ 0 (-1) hcfg
  refine ⟨by rw [hcfg, hc], ?_, ?_⟩
  · intro c hcm
    rcases List.mem_or_eq_of_mem_set hcm with h | h
    · exact hbs c h
    · rw [h]; exact hb
  · intro j c hj q hqm
    rw [hclass]
    simp only [List.getElem?_set] at hj
    by_cases hij : i = j
    · subst hij
      have hlt : i < s.m_queueClasses.length := by
        by_contra hge
        rw [List.getElem?_eq_none (by omega)] at hi
        cases hi
      rw [if_pos rfl, if_pos hlt] at hj
      cases hj
      rcases hq q hqm with h | h
      · exact hr i tc hi q h
      · exact h
    · rw [if_neg hij] at hj
      exact hr j c hj q hqm

theorem DiffServ.Inv.start (start : DiffServ) (h : EmptyDispatcher start) :
    DiffServ.Inv start start := by
  refine ⟨rfl, ?_, ?_⟩
  · intro tc htc
    obtain ⟨h1, h2, h3⟩ := h tc htc
    exact ⟨by rw [h1, h2]; rfl, by rw [h1]; simp, h3⟩
  · intro i tc hi q hq
    rw [(h tc (List.getElem?_mem hi)).1] at hq
    cases hq

theorem DiffServ.Inv.enqueue (start s : DiffServ) (p : Packet)
    (hinv : DiffServ.Inv start s) : DiffServ.Inv start (s.Enqueue p).2 := by
  unfold DiffServ.Enqueue
  rcases classifyLoop_range p s.m_queueClasses 0 (-1) with h | ⟨idx, hlt, h⟩
  · rw [DiffServ.doEnqueue_of_none s p h]
    exact hinv
  · have hcl : s.Classify p = (idx : Int) := by
      unfold DiffServ.Classify
      rw [h]
      simp
    have htc : s.m_queueClasses[idx]? = some s.m_queueClasses[idx] :=
      List.getElem?_eq_getElem hlt
    rw [DiffServ.doEnqueue_of_classify s p idx _ hcl htc]
    refine DiffServ.Inv.set start s idx _ _ hinv htc (TrafficClass.enqueue_settings _ p)
      (TrafficClass.enqueue_bounded _ p (hinv.2.1 _ (List.getElem?_mem htc))) ?_
    intro q hq
    rcases TrafficClass.enqueue_mem _ p q hq with h1 | h1
    · exact Or.inl h1
    · right; rw [h1]; exact hcl

theorem DiffServ.Inv.doDequeue (start s : DiffServ) (scheduled : Option Packet)
    (hinv : DiffServ.Inv start s) : DiffServ.Inv start (s.DoDequeue scheduled).2 := by
  cases scheduled with
  | none => exact hinv
  | some packet =>
    simp only [DiffServ.DoDequeue]
    rcases DiffServ.dequeueLoop_shape packet s.m_queueClasses with h | ⟨i, tc, hi, h⟩
    · rw [h]; exact hinv
    · rw [h]
      exact DiffServ.Inv.set start s i tc _ hinv hi (TrafficClass.dequeue_settings tc)
        (TrafficClass.dequeue_bounded tc (hinv.2.1 tc (List.getElem?_mem hi)))
        (fun q hq => Or.inl (TrafficClass.dequeue_mem tc q hq))

theorem SPQ.Reachable.spq_inv (start s : DiffServ) (h0 : EmptyDispatcher start)
    (h : SPQ.Reachable start s) : DiffServ.Inv start s := by
  induction h with
  | refl => exact DiffServ.Inv.start start h0
  | enqueue s p _ ih => exact DiffServ.Inv.enqueue start s p ih
  | dequeue s _ ih => exact DiffServ.Inv.doDequeue start s _ ih

theorem DRR.dequeue_base (fuel : Nat) (s s' : DRR) (r : Option Packet)
    (h : DRR.Dequeue fuel s = Except.ok (r, s')) :
    ∃ scheduled, s'.toDiffServ = (s.toDiffServ.DoDequeue scheduled).2 := by
  unfold DRR.Dequeue at h
  cases hs : DRR.Schedule fuel s with
  | error e => rw [hs] at h; simp at h
  | ok res =>
    obtain ⟨scheduled, s1⟩ := res
    rw [hs] at h
    simp only at h
    obtain ⟨hcl, _, _⟩ := DRR.schedule_frame fuel s s1 scheduled hs
    have hbase : s1.toDiffServ = s.toDiffServ := by
      cases hb1 : s1.toDiffServ
      cases hb2 : s.toDiffServ
      simp only [hb1, hb2] at hcl
      rw [hcl]
    refine ⟨scheduled, ?_⟩
    rw [← hbase]
    split at h
    · simp only [Except.ok.injEq, Prod.mk.injEq] at h
      rw [← h.2]
    · simp only [Except.ok.injEq, Prod.mk.injEq] at h
      rw [← h.2]

theorem DRR.peek_base (fuel addr : Nat) (s s' : DRR) (r : Option Packet)
    (h : DRR.Peek fuel s addr = Except.ok (r, s')) :
    s'.toDiffServ = s.toDiffServ := by
  unfold DRR.Peek at h
  cases hs : DRR.Schedule fuel s with
  | error e => rw [hs] at h; simp at h
  | ok res =>
    obtain ⟨scheduled, s1⟩ := res
    rw [hs] at h
    simp only [Except.ok.injEq, Prod.mk.injEq] at h
    obtain ⟨hcl, _, _⟩ := DRR.schedule_frame fuel s s1 scheduled hs
    rw [← h.2]
    cases hb1 : s1.toDiffServ
    cases hb2 : s.toDiffServ
    simp only [hb1, hb2] at hcl
    rw [hcl]

theorem DRR.Reachable.drr_inv (start s : DRR) (h0 : EmptyDispatcher start.toDiffServ)
    (h : DRR.Reachable start s) : DiffServ.Inv start.toDiffServ s.toDiffServ := by
  induction h with
  | refl => exact DiffServ.Inv.start _ h0
  | enqueue s p _ ih => exact DiffServ.Inv.enqueue _ _ p ih
  | dequeue s s' fuel r _ hd ih =>
    obtain ⟨scheduled, hb⟩ := DRR.dequeue_base fuel s s' r hd
    rw [hb]
    exact DiffServ.Inv.doDequeue _ _ scheduled ih
  | peek s s' fuel addr r _ hp ih =>
    rw [DRR.peek_base fuel addr s s' r hp]
    exact ih

theorem DiffServ.Inv.capacity (start s : DiffServ) (hinv : DiffServ.Inv start s) :
    s.m_queueClasses.map TrafficClass.m_maxPackets =
        start.m_queueClasses.map TrafficClass.m_maxPackets ∧
      ∀ tc ∈ s.m_queueClasses, tc.m_queue.length ≤ tc.m_maxPackets := by
  constructor
  · have h := congrArg (List.map (fun x => x.2.1)) hinv.1
    simpa [DiffServ.config, TrafficClass.settings, Function.comp_def] using h
  · intro tc htc
    exact (hinv.2.1 tc htc).2.1

/-- C15: a class that is empty when its capacity is in place never holds
more packets than that capacity, whatever `Enqueue`, `Dequeue` and `Peek`
calls follow, made on the class itself or on the `SPQ` or `DRR` object that
owns it; the capacity itself stays what it was. -/
theorem queue_never_exceeds_capacity :
    (∀ (tc : TrafficClass) (calls : List TrafficClass.Call), tc.Fresh →
      (TrafficClass.run calls tc).2.2.m_queue.length ≤ tc.m_maxPackets ∧
      (TrafficClass.run calls tc).2.2.m_maxPackets = tc.m_maxPackets) ∧
    (∀ (start s : DiffServ), EmptyDispatcher start → SPQ.Reachable start s →
      s.m_queueClasses.map TrafficClass.m_maxPackets =
        start.m_queueClasses.map TrafficClass.m_maxPackets ∧
      ∀ tc ∈ s.m_queueClasses, tc.m_queue.length ≤ tc.m_maxPackets) ∧
    (∀ (start s : DRR), EmptyDispatcher start.toDiffServ → DRR.Reachable start s →
      s.m_queueClasses.map TrafficClass.m_maxPackets =
        start.m_queueClasses.map TrafficClass.m_maxPackets ∧
      ∀ tc ∈ s.m_queueClasses, tc.m_queue.length ≤ tc.m_maxPackets) := by
  refine ⟨?_, ?_, ?_⟩
  · intro tc calls hf
    have hb : tc.Bounded := ⟨by rw [hf.2.1, hf.1]; rfl, by rw [hf.1]; simp, hf.2.2⟩
    obtain ⟨_, e2, e3⟩ := TrafficClass.run_spec calls tc hb
    simp only [TrafficClass.settings, Prod.mk.injEq] at e3
    have hcap : (TrafficClass.run calls tc).2.2.m_maxPackets = tc.m_maxPackets := e3.2.1
    exact ⟨by rw [← hcap]; exact e2.2.1, hcap⟩
  · intro start s h0 hr
    exact DiffServ.Inv.capacity start s (SPQ.Reachable.spq_inv start s h0 hr)
  · intro start s h0 hr
    exact DiffServ.Inv.capacity _ _ (DRR.Reachable.drr_inv start s h0 hr)

/-- Witness for C15: the class of capacity 2 after the six sample calls, and
the classes of the two loaded dispatchers. -/
theorem queue_never_exceeds_capacity_witness :
    ((TrafficClass.run sampleCalls (smallClass [])).2.2.m_queue.length ≤
        (smallClass []).m_maxPackets ∧
      (TrafficClass.run sampleCalls (smallClass [])).2.2.m_maxPackets =
        (smallClass []).m_maxPackets) ∧
    (udpTcpLoaded.m_queueClasses.map TrafficClass.m_maxPackets =
        udpTcpDispatcher.m_queueClasses.map TrafficClass.m_maxPackets ∧
      ∀ tc ∈ udpTcpLoaded.m_queueClasses, tc.m_queue.length ≤ tc.m_maxPackets) ∧
    (udpTcpLoadedDRR.m_queueClasses.map TrafficClass.m_maxPackets =
        udpTcpDRR.m_queueClasses.map TrafficClass.m_maxPackets ∧
      ∀ tc ∈ udpTcpLoadedDRR.m_queueClasses, tc.m_queue.length ≤ tc.m_maxPackets) :=
  ⟨queue_never_exceeds_capacity.1 (smallClass []) sampleCalls (by decide),
    queue_never_exceeds_capacity.2.1 udpTcpDispatcher udpTcpLoaded (by decide)
      (SPQ.Reachable.enqueue _ _ (SPQ.Reachable.enqueue _ _ SPQ.Reachable.refl)),
    queue_never_exceeds_capacity.2.2 udpTcpDRR udpTcpLoadedDRR (by decide)
      (DRR.Reachable.enqueue _ _ (DRR.Reachable.enqueue _ _ DRR.Reachable.refl))⟩

theorem Routed.unique (s : DiffServ) (hr : Routed s) (p : Packet) (i j : Nat)
    (ci cj : TrafficClass) (hi : s.m_queueClasses[i]? = some ci)
    (hj : s.m_queueClasses[j]? = some cj) (hpi : p ∈ ci.m_queue) (hpj : p ∈ cj.m_queue) :
    j = i := by
  have h1 := hr i ci hi p hpi
  have h2 := hr j cj hj p hpj
  rw [h1] at h2
  omega

theorem TrafficClass.peek_mem (tc : TrafficClass) (p : Packet) (h : tc.Peek = some p) :
    p ∈ tc.m_queue := by
  unfold TrafficClass.Peek at h
  split at h
  · cases h
  · exact List.mem_of_mem_head? h

theorem DiffServ.dequeueLoop_routed (s : DiffServ) (hr : Routed s)
    (hb : ∀ tc ∈ s.m_queueClasses, tc.Bounded) (i : Nat) (tc : TrafficClass) (p : Packet)
    (hi : s.m_queueClasses[i]? = some tc) (hne : tc.IsEmpty = false)
    (hpeek : tc.Peek = some p) :
    ∃ rest, tc.m_queue = p :: rest ∧
      DiffServ.dequeueLoop p s.m_queueClasses =
        (some p, s.m_queueClasses.set i (tc.withQueue rest)) := by
  obtain ⟨q, rest, hq, hpeek', hdq⟩ := TrafficClass.consistent_nonempty tc
    (TrafficClass.Bounded.consistent tc (hb tc (List.getElem?_mem hi))) hne
  rw [hpeek] at hpeek'
  cases hpeek'
  refine ⟨rest, hq, ?_⟩
  have hbefore : ∀ (j : Nat) (c : TrafficClass), j < i → s.m_queueClasses[j]? = some c →
      c.IsEmpty = false → c.Peek ≠ some p := by
    intro j c hj hcj _ hcp
    have := Routed.unique s hr p i j tc c hi hcj (TrafficClass.peek_mem tc p hpeek)
      (TrafficClass.peek_mem c p hcp)
    omega
  rw [DiffServ.dequeueLoop_at p s.m_queueClasses i tc hi hne hpeek hbefore, hdq]

/-- C11: in every state that `Enqueue`, `Dequeue` and `Peek` calls reach from
an empty `SPQ` or `DRR` object, when `Schedule` returns a packet, that packet
is the head of one class `i` and is queued in no other class, and `Dequeue`
returns this very packet and leaves the classes as they were except that
class `i` has lost its head; so the search loop always finds the class, and
a packet of equal content at another address is a different packet to it.
For `SPQ` the class `i` is the first of least priority value among the
classes with packets, for `DRR` it is the scheduled index. -/
theorem dequeue_pops_the_scheduled_class :
    (∀ (start s : DiffServ) (p : Packet), EmptyDispatcher start → SPQ.Reachable start s →
      SPQ.Schedule s = some p →
      ∃ (i : Nat) (tc : TrafficClass) (rest : List Packet),
        s.m_queueClasses[i]? = some tc ∧ tc.m_queue = p :: rest ∧
        (∀ (j : Nat) (c : TrafficClass), s.m_queueClasses[j]? = some c →
          c.IsEmpty = false →
          tc.GetPriority ≤ c.GetPriority ∧ (j < i → tc.GetPriority < c.GetPriority)) ∧
        (∀ (j : Nat) (c : TrafficClass), s.m_queueClasses[j]? = some c →
          p ∈ c.m_queue → j = i) ∧
        SPQ.Dequeue s =
          (some p, { m_queueClasses := s.m_queueClasses.set i (tc.withQueue rest) })) ∧
    (∀ (start s s1 : DRR) (fuel : Nat) (p : Packet), EmptyDispatcher start.toDiffServ →
      DRR.Reachable start s → DRR.Schedule fuel s = Except.ok (some p, s1) →
      ∃ (tc : TrafficClass) (rest : List Packet) (s' : DRR),
        s.m_queueClasses[s1.m_scheduledQueueIndex]? = some tc ∧ tc.m_queue = p :: rest ∧
        (∀ (j : Nat) (c : TrafficClass), s.m_queueClasses[j]? = some c →
          p ∈ c.m_queue → j = s1.m_scheduledQueueIndex) ∧
        DRR.Dequeue fuel s = Except.ok (some p, s') ∧
        s'.m_queueClasses =
          s.m_queueClasses.set s1.m_scheduledQueueIndex (tc.withQueue rest)) := by
  constructor
  · intro start s p h0 hreach hs
    obtain ⟨_, hb, hr⟩ := SPQ.Reachable.spq_inv start s h0 hreach
    have hc : AllConsistent s.m_queueClasses :=
      fun c hcm => TrafficClass.Bounded.consistent c (hb c hcm)
    rcases SPQ.schedule_cases s hc with ⟨hnone, _⟩ | ⟨i, tc, q, rest, h1, h2, h3, h4, _, h6⟩
    · rw [hnone] at hs; cases hs
    · rw [h4] at hs
      cases hs
      have hpeek : tc.Peek = some p := by simp [TrafficClass.Peek, h2, h3]
      obtain ⟨rest', hq', hloop⟩ := DiffServ.dequeueLoop_routed s hr hb i tc p h1 h2 hpeek
      rw [h3] at hq'
      obtain ⟨_, hrr⟩ := List.cons.inj hq'
      subst hrr
      refine ⟨i, tc, rest, h1, h3, h6, ?_, ?_⟩
      · intro j c hj hpc
        exact Routed.unique s hr p i j tc c h1 hj (by rw [h3]; exact List.mem_cons_self _ _) hpc
      · simp only [SPQ.Dequeue, h4, DiffServ.DoDequeue, hloop]
  · intro start s s1 fuel p h0 hreach hs
    obtain ⟨_, hb, hr⟩ := DRR.Reachable.drr_inv start s h0 hreach
    obtain ⟨hcl, _, _⟩ := DRR.schedule_frame fuel s s1 (some p) hs
    obtain ⟨tc, htc, hne, hpeek⟩ := DRR.schedule_some_head fuel s s1 p hs
    obtain ⟨rest, hq, hloop⟩ :=
      DiffServ.dequeueLoop_routed s.toDiffServ hr hb _ tc p htc hne hpeek
    refine ⟨tc, rest,
      { s1 with
        m_queueClasses := s.m_queueClasses.set s1.m_scheduledQueueIndex (tc.withQueue rest)
        m_currentQueueIndex := s1.m_scheduledQueueIndex
        m_creditBalance := s1.m_tempCreditBalance }, htc, hq, ?_, ?_, ?_⟩
    · intro j c hj hpc
      exact Routed.unique s.toDiffServ hr p _ j tc c htc hj
        (by rw [hq]; exact List.mem_cons_self _ _) hpc
    · unfold DRR.Dequeue
      simp only [hs, DiffServ.DoDequeue, hcl, hloop]
    · rfl

/-- Witness for C11: after a UDP and a TCP packet were enqueued into the
empty two-class dispatcher, `SPQ` schedules the TCP packet of class 1 and
`DRR` the UDP packet of class 0, and `Dequeue` pops exactly that class. -/
theorem dequeue_pops_the_scheduled_class_witness :
    (∃ (i : Nat) (tc : TrafficClass) (rest : List Packet),
      udpTcpLoaded.m_queueClasses[i]? = some tc ∧ tc.m_queue = tcpPacket 2 300 :: rest ∧
      (∀ (j : Nat) (c : TrafficClass), udpTcpLoaded.m_queueClasses[j]? = some c →
        c.IsEmpty = false →
        tc.GetPriority ≤ c.GetPriority ∧ (j < i → tc.GetPriority < c.GetPriority)) ∧
      (∀ (j : Nat) (c : TrafficClass), udpTcpLoaded.m_queueClasses[j]? = some c →
        tcpPacket 2 300 ∈ c.m_queue → j = i) ∧
      SPQ.Dequeue udpTcpLoaded =
        (some (tcpPacket 2 300),
          { m_queueClasses := udpTcpLoaded.m_queueClasses.set i (tc.withQueue rest) })) ∧
    (∃ (tc : TrafficClass) (rest : List Packet) (s' : DRR),
      udpTcpLoadedDRR.m_queueClasses[udpTcpScheduledDRR.m_scheduledQueueIndex]? = some tc ∧
      tc.m_queue = udpPacket 1 400 :: rest ∧
      (∀ (j : Nat) (c : TrafficClass), udpTcpLoadedDRR.m_queueClasses[j]? = some c →
        udpPacket 1 400 ∈ c.m_queue → j = udpTcpScheduledDRR.m_scheduledQueueIndex) ∧
      DRR.Dequeue 5 udpTcpLoadedDRR = Except.ok (some (udpPacket 1 400), s') ∧
      s'.m_queueClasses =
        udpTcpLoadedDRR.m_queueClasses.set udpTcpScheduledDRR.m_scheduledQueueIndex
          (tc.withQueue rest)) :=
  ⟨dequeue_pops_the_scheduled_class.1 udpTcpDispatcher udpTcpLoaded (tcpPacket 2 300)
      (by decide)
      (SPQ.Reachable.enqueue _ _ (SPQ.Reachable.enqueue _ _ SPQ.Reachable.refl)) rfl,
    dequeue_pops_the_scheduled_class.2 udpTcpDRR udpTcpLoadedDRR udpTcpScheduledDRR 5
      (udpPacket 1 400) (by decide)
      (DRR.Reachable.enqueue _ _ (DRR.Reachable.enqueue _ _ DRR.Reachable.refl)) rfl⟩

/-! ## Credit balances -/

theorem DRR.scheduleLoop_last_visit (queueList : List TrafficClass) :
    ∀ (fuel idx : Nat) (temp : List Nat) (pkt : Packet) (idx' : Nat) (temp' : List Nat),
      DRR.scheduleLoop queueList fuel idx temp = Except.ok (pkt, idx', temp') →
      ∃ (tc : TrafficClass) (credit : Nat) (before : List Nat),
        queueList[idx']? = some tc ∧ before[idx']? = some credit ∧ tc.Peek = some pkt ∧
        pkt.size ≤ (tc.GetWeight + credit) % 2 ^ 32 ∧
        temp' = before.set idx' ((tc.GetWeight + credit) % 2 ^ 32 - pkt.size) ∧
        before.length = temp.length ∧
        ∀ c ∈ before, c ∈ temp ∨ c < 2 ^ 32 := by
  intro fuel
  induction fuel with
  | zero => intro idx temp pkt idx' temp' h; simp [DRR.scheduleLoop] at h
  | succ n ih =>
    intro idx temp pkt idx' temp' h
    unfold DRR.scheduleLoop at h
    cases hq : queueList[idx]? with
    | none => rw [hq] at h; simp at h
    | some tc =>
      rw [hq] at h
      simp only at h
      by_cases hne : tc.IsEmpty = false
      · simp only [hne, Bool.not_false, if_true] at h
        cases ht : temp[idx]? with
        | none => rw [ht] at h; simp at h
        | some credit =>
          rw [ht] at h
          simp only at h
          cases hp : tc.Peek with
          | none => rw [hp] at h; simp at h
          | some head =>
            rw [hp] at h
            simp only at h
            by_cases hle : head.size ≤ (tc.GetWeight + credit) % 2 ^ 32
            · rw [if_pos hle] at h
              simp only [Except.ok.injEq, Prod.mk.injEq] at h
              obtain ⟨h1, h2, h3⟩ := h
              subst h1; subst h2
              exact ⟨tc, credit, temp, hq, ht, hp, hle, h3.symm, rfl, fun c hc => Or.inl hc⟩
            · rw [if_neg hle] at h
              obtain ⟨tc', credit', before, e1, e2, e3, e4, e5, e6, e7⟩ :=
                ih _ _ pkt idx' temp' h
              refine ⟨tc', credit', before, e1, e2, e3, e4, e5, by simpa using e6, ?_⟩
              intro c hc
              rcases e7 c hc with hm | hlt
              · rcases List.mem_or_eq_of_mem_set hm with hm' | heq
                · exact Or.inl hm'
                · right
                  rw [heq]
                  exact Nat.mod_lt _ (by norm_num)
              · exact Or.inr hlt
      · simp only [Bool.not_eq_false] at hne
        simp only [hne, Bool.not_true, Bool.false_eq_true, if_false] at h
        exact ih _ _ pkt idx' temp' h

theorem DRR.schedule_last_visit (fuel : Nat) (self s1 : DRR) (pkt : Packet)
    (h : DRR.Schedule fuel self = Except.ok (some pkt, s1)) :
    ∃ (tc : TrafficClass) (credit : Nat) (before : List Nat),
      self.m_queueClasses[s1.m_scheduledQueueIndex]? = some tc ∧
      before[s1.m_scheduledQueueIndex]? = some credit ∧ tc.Peek = some pkt ∧
      pkt.size ≤ (tc.GetWeight + credit) % 2 ^ 32 ∧
      s1.m_tempCreditBalance =
        before.set s1.m_scheduledQueueIndex ((tc.GetWeight + credit) % 2 ^ 32 - pkt.size) ∧
      before.length = self.m_creditBalance.length ∧
      ∀ c ∈ before, c ∈ self.m_creditBalance ∨ c < 2 ^ 32 := by
  unfold DRR.Schedule at h
  split at h
  · simp at h
  · simp only at h
    split at h
    · simp at h
    · split at h
      · simp at h
      · rename_i packet idx temp hloop
        simp only [Except.ok.injEq, Prod.mk.injEq, Option.some.injEq] at h
        obtain ⟨h1, h2⟩ := h
        subst h1; subst h2
        exact DRR.scheduleLoop_last_visit _ _ _ _ _ _ _ hloop

/-- C20: when `DRR::Dequeue` returns a packet, the committed balances are
the balances `before` of the winning visit with one slot replaced: the slot
of the scheduled class holds `B - size`, where `B` is that class's balance
after its weight was added and `size` the length of the scheduled packet,
and `size ≤ B`; so the `uint32_t` subtraction did not wrap, the stored value
is the exact integer difference, and balances that fit 32 bits before the
call fit 32 bits after it. -/
theorem credit_never_underflows (fuel : Nat) (self s' : DRR) (r : Packet)
    (h : DRR.Dequeue fuel self = Except.ok (some r, s')) :
    ∃ (pkt : Packet) (s1 : DRR) (tc : TrafficClass) (credit : Nat) (before : List Nat),
      DRR.Schedule fuel self = Except.ok (some pkt, s1) ∧
      s'.m_currentQueueIndex = s1.m_scheduledQueueIndex ∧
      self.m_queueClasses[s'.m_currentQueueIndex]? = some tc ∧ tc.Peek = some pkt ∧
      before[s'.m_currentQueueIndex]? = some credit ∧
      pkt.size ≤ (tc.GetWeight + credit) % 2 ^ 32 ∧
      s'.m_creditBalance =
        before.set s'.m_currentQueueIndex ((tc.GetWeight + credit) % 2 ^ 32 - pkt.size) ∧
      ((tc.GetWeight + credit) % 2 ^ 32 + 2 ^ 32 - pkt.size) % 2 ^ 32 =
        (tc.GetWeight + credit) % 2 ^ 32 - pkt.size ∧
      ((((tc.GetWeight + credit) % 2 ^ 32 - pkt.size : Nat) : Int) =
        (((tc.GetWeight + credit) % 2 ^ 32 : Nat) : Int) - (pkt.size : Int)) ∧
      ((∀ c ∈ self.m_creditBalance, c < 2 ^ 32) → ∀ c ∈ s'.m_creditBalance, c < 2 ^ 32) := by
  unfold DRR.Dequeue at h
  cases hs : DRR.Schedule fuel self with
  | error e => rw [hs] at h; simp at h
  | ok res =>
    obtain ⟨scheduled, s1⟩ := res
    rw [hs] at h
    simp only at h
    cases scheduled with
    | none => simp [DiffServ.DoDequeue] at h
    | some pkt =>
      obtain ⟨tc, credit, before, e1, e2, e3, e4, e5, _, e7⟩ :=
        DRR.schedule_last_visit fuel self s1 pkt hs
      split at h
      · simp only [Except.ok.injEq, Prod.mk.injEq] at h
        obtain ⟨_, h2⟩ := h
        subst h2
        have hB : (tc.GetWeight + credit) % 2 ^ 32 < 2 ^ 32 := Nat.mod_lt _ (by norm_num)
        refine ⟨pkt, s1, tc, credit, before, rfl, rfl, e1, e3, e2, e4, e5, ?_, ?_, ?_⟩
        · omega
        · omega
        · intro hall c hc
          simp only at hc
          rw [e5] at hc
          rcases List.mem_or_eq_of_mem_set hc with hm | heq
          · rcases e7 c hm with h1 | h1
            · exact hall c h1
            · exact h1
          · rw [heq]; omega
      · simp at h

/-- Witness for C20: the first `Dequeue` on `twoClassDRR` commits the
balances 900 and 100, the second being 600 - 500. -/
theorem credit_never_underflows_witness :
    ∃ (pkt : Packet) (s1 : DRR) (tc : TrafficClass) (credit : Nat) (before : List Nat),
      DRR.Schedule 10 twoClassDRR = Except.ok (some pkt, s1) ∧
      twoClassDRRAfterDequeue.m_currentQueueIndex = s1.m_scheduledQueueIndex ∧
      twoClassDRR.m_queueClasses[twoClassDRRAfterDequeue.m_currentQueueIndex]? = some tc ∧
      tc.Peek = some pkt ∧
      before[twoClassDRRAfterDequeue.m_currentQueueIndex]? = some credit ∧
      pkt.size ≤ (tc.GetWeight + credit) % 2 ^ 32 ∧
      twoClassDRRAfterDequeue.m_creditBalance =
        before.set twoClassDRRAfterDequeue.m_currentQueueIndex
          ((tc.GetWeight + credit) % 2 ^ 32 - pkt.size) ∧
      ((tc.GetWeight + credit) % 2 ^ 32 + 2 ^ 32 - pkt.size) % 2 ^ 32 =
        (tc.GetWeight + credit) % 2 ^ 32 - pkt.size ∧
      ((((tc.GetWeight + credit) % 2 ^ 32 - pkt.size : Nat) : Int) =
        (((tc.GetWeight + credit) % 2 ^ 32 : Nat) : Int) - (pkt.size : Int)) ∧
      ((∀ c ∈ twoClassDRR.m_creditBalance, c < 2 ^ 32) →
        ∀ c ∈ twoClassDRRAfterDequeue.m_creditBalance, c < 2 ^ 32) :=
  credit_never_underflows 10 twoClassDRR twoClassDRRAfterDequeue (plainPacket 3 500) rfl

/-! ## Filter elements -/

/-- C27: on a UDP packet and on a TCP packet whose source port is 1000 and
whose destination port is 2000, `FilterElementSrcPort::match` configured with
1000 returns false and configured with 2000 returns true: it compares the
destination port. -/
theorem src_port_element_reads_destination_port :
    (udpPacket 1 64).headers =
      [Header.ppp, Header.ipv4 { source := 1, destination := 2, protocol := 17 },
        Header.udp { sourcePort := 1000, destinationPort := 2000 }] ∧
    (FilterElement.SrcPort 1000).Match (udpPacket 1 64) = false ∧
    (FilterElement.SrcPort 2000).Match (udpPacket 1 64) = true ∧
    (FilterElement.SrcPort 1000).Match (tcpPacket 1 64) = false ∧
    (FilterElement.SrcPort 2000).Match (tcpPacket 1 64) = true := by
  refine ⟨rfl, ?_, ?_, ?_, ?_⟩ <;> decide

/-- C28: on a packet whose headers start with the link-layer header and an
IPv4 header, `FilterElementDstPort::match` is true exactly when the protocol
field is 6 and a TCP header with the configured destination port follows, or
the protocol field is 17 and a UDP header with that destination port follows;
for any other protocol number it is false. -/
theorem dst_port_element_matches_destination_port (port : Nat) (p : Packet)
    (ip : Ipv4Header) (rest : List Header)
    (hp : p.headers = Header.ppp :: Header.ipv4 ip :: rest) :
    ((FilterElement.DstPort port).Match p = true ↔
      (ip.protocol = 6 ∧ ∃ h, peekTcpHeader rest = some h ∧ h.destinationPort = port) ∨
      (ip.protocol = 17 ∧ ∃ h, peekUdpHeader rest = some h ∧ h.destinationPort = port)) ∧
    (ip.protocol ≠ 6 → ip.protocol ≠ 17 → (FilterElement.DstPort port).Match p = false) := by
  simp only [FilterElement.Match, FilterElementDstPort.Match, hp, removePppHeader,
    removeIpv4Header]
  by_cases h6 : ip.protocol = 6
  · have h17 : ip.protocol ≠ 17 := by omega
    simp only [h6, if_true]
    cases hr : peekTcpHeader rest with
    | none => simp
    | some h => simp
  · by_cases h17 : ip.protocol = 17
    · simp only [h17, if_true]
      cases hr : peekUdpHeader rest with
      | none => simp
      | some h => simp
    · simp [h6, h17]

/-- Witness for C28: a UDP packet to port 2000 matches the element for port
2000. -/
theorem dst_port_element_matches_destination_port_witness :
    (FilterElement.DstPort 2000).Match (udpPacket 1 64) = true :=
  ((dst_port_element_matches_destination_port 2000 (udpPacket 1 64)
      { source := 1, destination := 2, protocol := 17 }
      [Header.udp { sourcePort := 1000, destinationPort := 2000 }] rfl).1).2
    (Or.inr ⟨rfl, { sourcePort := 1000, destinationPort := 2000 }, rfl, rfl⟩)

theorem FilterElementDstIp.match_false_of_ppp (a : Nat) (p : Packet) (rest : List Header)
    (hp : p.headers = Header.ppp :: rest) : FilterElementDstIp.Match a p = false := by
  simp [FilterElementDstIp.Match, hp, peekPppHeader, peekIpv4Header]

/-- C29: on a packet whose IPv4 destination address is 2, behind a
link-layer header, `FilterElementDstIp::match` configured with address 2
returns false: the IPv4 header is read where the link-layer header, peeked
and not removed, still is. -/
theorem dst_ip_element_misses_destination :
    (udpPacket 1 64).headers =
      [Header.ppp, Header.ipv4 { source := 1, destination := 2, protocol := 17 },
        Header.udp { sourcePort := 1000, destinationPort := 2000 }] ∧
    (FilterElement.DstIp 2).Match (udpPacket 1 64) = false ∧
    (FilterElement.SrcIp 1).Match (udpPacket 1 64) = true := by
  refine ⟨rfl, ?_, ?_⟩ <;> decide

/-- C30: on a packet whose headers start with the link-layer header and an
IPv4 header, `FilterElementSrcMask::match` is true exactly when the source
address and the configured network address agree under the mask, and
`FilterElementDstMask::match` exactly when the destination address and the
network address do; the network address is masked in the comparison, so it
need not be masked beforehand. -/
theorem mask_elements_compare_under_mask (network mask : Nat) (p : Packet)
    (ip : Ipv4Header) (rest : List Header)
    (hp : p.headers = Header.ppp :: Header.ipv4 ip :: rest) :
    ((FilterElement.SrcMask network mask).Match p = true ↔
      ip.source &&& mask = network &&& mask) ∧
    ((FilterElement.DstMask network mask).Match p = true ↔
      ip.destination &&& mask = network &&& mask) ∧
    (FilterElement.SrcMask network mask).Match p =
      (FilterElement.SrcMask (network &&& mask) mask).Match p ∧
    (FilterElement.DstMask network mask).Match p =
      (FilterElement.DstMask (network &&& mask) mask).Match p := by
  have hmm : (network &&& mask) &&& mask = network &&& mask := by
    rw [Nat.land_assoc, Nat.and_self]
  simp [FilterElement.Match, FilterElementSrcMask.Match, FilterElementDstMask.Match, hp,
    removePppHeader, removeIpv4Header, CombineMask, hmm]

/-- Witness for C30: source 192.168.1.77 lies in 192.168.1.0/24 also when the
network address is given as 192.168.1.5. -/
theorem mask_elements_compare_under_mask_witness :
    (FilterElement.SrcMask 3232235781 4294967040).Match
      { ptr := 1, size := 64,
        headers :=
          [Header.ppp,
            Header.ipv4 { source := 3232235853, destination := 167772161, protocol := 17 }] } =
      true :=
  ((mask_elements_compare_under_mask 3232235781 4294967040
      { ptr := 1, size := 64,
        headers :=
          [Header.ppp,
            Header.ipv4 { source := 3232235853, destination := 167772161, protocol := 17 }] }
      { source := 3232235853, destination := 167772161, protocol := 17 } [] rfl).1).2
    (by decide)

/-! ## The loop of `DRR::Schedule`, step by step -/

theorem DRR.scheduleLoop_step_empty (ql : List TrafficClass) (fuel idx : Nat)
    (temp : List Nat) (tc : TrafficClass) (htc : ql[idx]? = some tc)
    (hemp : tc.IsEmpty = true) :
    DRR.scheduleLoop ql (fuel + 1) idx temp =
      DRR.scheduleLoop ql fuel ((idx + 1) % ql.length) temp := by
  rw [DRR.scheduleLoop]
  simp only [htc, hemp, Bool.not_true, Bool.false_eq_true, if_false]

theorem DRR.scheduleLoop_step_short (ql : List TrafficClass) (fuel idx : Nat)
    (temp : List Nat) (tc : TrafficClass) (credit : Nat) (head : Packet)
    (htc : ql[idx]? = some tc) (hne : tc.IsEmpty = false) (hcr : temp[idx]? = some credit)
    (hpeek : tc.Peek = some head) (hshort : ¬ head.size ≤ (tc.GetWeight + credit) % 2 ^ 32) :
    DRR.scheduleLoop ql (fuel + 1) idx temp =
      DRR.scheduleLoop ql fuel ((idx + 1) % ql.length)
        (temp.set idx ((tc.GetWeight + credit) % 2 ^ 32)) := by
  rw [DRR.scheduleLoop]
  simp only [htc, hne, Bool.not_false, if_true, hcr, hpeek, if_neg hshort]

theorem DRR.scheduleLoop_step_select (ql : List TrafficClass) (fuel idx : Nat)
    (temp : List Nat) (tc : TrafficClass) (credit : Nat) (head : Packet)
    (htc : ql[idx]? = some tc) (hne : tc.IsEmpty = false) (hcr : temp[idx]? = some credit)
    (hpeek : tc.Peek = some head) (hle : head.size ≤ (tc.GetWeight + credit) % 2 ^ 32) :
    DRR.scheduleLoop ql (fuel + 1) idx temp =
      Except.ok (head, idx, temp.set idx ((tc.GetWeight + credit) % 2 ^ 32 - head.size)) := by
  rw [DRR.scheduleLoop]
  simp only [htc, hne, Bool.not_false, if_true, hcr, hpeek, if_pos hle]

theorem DRR.scheduleLoop_in_bounds (ql : List TrafficClass) :
    ∀ (fuel idx : Nat) (temp : List Nat),
      idx < ql.length → temp.length = ql.length →
      DRR.scheduleLoop ql fuel idx temp ≠ Except.error Fault.outOfBounds ∧
      ∀ pkt idx' temp', DRR.scheduleLoop ql fuel idx temp = Except.ok (pkt, idx', temp') →
        idx' < ql.length ∧ temp'.length = ql.length := by
  intro fuel
  induction fuel with
  | zero =>
    intro idx temp _ _
    simp [DRR.scheduleLoop]
  | succ n ih =>
    intro idx temp hi hlen
    obtain ⟨tc, htc⟩ : ∃ tc, ql[idx]? = some tc := ⟨ql[idx], List.getElem?_eq_getElem hi⟩
    obtain ⟨credit, hcr⟩ : ∃ credit, temp[idx]? = some credit :=
      ⟨temp[idx], List.getElem?_eq_getElem (by omega)⟩
    have hnext : (idx + 1) % ql.length < ql.length := Nat.mod_lt _ (by omega)
    by_cases hemp : tc.IsEmpty = true
    · rw [DRR.scheduleLoop_step_empty ql n idx temp tc htc hemp]
      exact ih _ _ hnext hlen
    · have hne : tc.IsEmpty = false := by simpa using hemp
      cases hpeek : tc.Peek with
      | none =>
        rw [DRR.scheduleLoop]
        simp [htc, hne, hcr, hpeek]
      | some head =>
        by_cases hle : head.size ≤ (tc.GetWeight + credit) % 2 ^ 32
        · rw [DRR.scheduleLoop_step_select ql n idx temp tc credit head htc hne hcr hpeek hle]
          refine ⟨by simp, ?_⟩
          intro pkt idx' temp' h
          simp only [Except.ok.injEq, Prod.mk.injEq] at h
          obtain ⟨_, h2, h3⟩ := h
          subst h2; subst h3
          exact ⟨hi, by simpa using hlen⟩
        · rw [DRR.scheduleLoop_step_short ql n idx temp tc credit head htc hne hcr hpeek hle]
          exact ih _ _ hnext (by simpa using hlen)

theorem DRR.emptyQueueCount_eq_length (ql : List TrafficClass) :
    DRR.emptyQueueCount ql = ql.length ↔ ∀ c ∈ ql, c.IsEmpty = true := by
  unfold DRR.emptyQueueCount
  exact List.filter_length_eq_length

theorem DRR.schedule_of_all_empty (fuel : Nat) (self : DRR)
    (h : self.m_queueClasses = [] ∨ ∀ c ∈ self.m_queueClasses, c.IsEmpty = true) :
    ∃ s1, DRR.Schedule fuel self = Except.ok (none, s1) := by
  unfold DRR.Schedule
  by_cases hnil : self.m_queueClasses.isEmpty = true
  · exact ⟨self, by rw [if_pos hnil]⟩
  · have hall : ∀ c ∈ self.m_queueClasses, c.IsEmpty = true := by
      rcases h with h | h
      · rw [h] at hnil; simp at hnil
      · exact h
    rw [if_neg hnil]
    simp only
    rw [if_pos ((DRR.emptyQueueCount_eq_length _).2 hall)]
    exact ⟨_, rfl⟩

theorem DRR.dequeue_of_schedule_none (fuel : Nat) (self s1 : DRR)
    (h : DRR.Schedule fuel self = Except.ok (none, s1)) :
    DRR.Dequeue fuel self = Except.ok (none, s1) ∧
    ∀ addr, DRR.Peek fuel self addr = Except.ok (none, s1) := by
  constructor
  · unfold DRR.Dequeue
    simp only [h, DiffServ.DoDequeue]
  · intro addr
    unfold DRR.Peek
    simp only [h, DiffServ.DoPeek]

/-- C25: `DRR::Schedule` returns `nullptr` when there are no classes or every
class is empty, whatever the fuel; a packet it returns is the head of a class
that is not empty; and when it returns `nullptr`, `Dequeue` and `Peek` return
`nullptr` too. -/
theorem drr_schedule_null_iff_nothing_queued (self : DRR) :
    ((self.m_queueClasses = [] ∨ ∀ c ∈ self.m_queueClasses, c.IsEmpty = true) →
      ∀ (fuel addr : Nat), ∃ s1,
        DRR.Schedule fuel self = Except.ok (none, s1) ∧
        DRR.Dequeue fuel self = Except.ok (none, s1) ∧
        DRR.Peek fuel self addr = Except.ok (none, s1)) ∧
    (∀ (fuel : Nat) (pkt : Packet) (s1 : DRR),
      DRR.Schedule fuel self = Except.ok (some pkt, s1) →
      ∃ tc ∈ self.m_queueClasses, tc.IsEmpty = false ∧ tc.Peek = some pkt ∧
        tc.m_queue.head? = some pkt) ∧
    (∀ (fuel : Nat) (s1 : DRR), DRR.Schedule fuel self = Except.ok (none, s1) →
      DRR.Dequeue fuel self = Except.ok (none, s1) ∧
      ∀ addr, DRR.Peek fuel self addr = Except.ok (none, s1)) := by
  refine ⟨?_, ?_, ?_⟩
  · intro h fuel addr
    obtain ⟨s1, hs⟩ := DRR.schedule_of_all_empty fuel self h
    obtain ⟨hd, hp⟩ := DRR.dequeue_of_schedule_none fuel self s1 hs
    exact ⟨s1, hs, hd, hp addr⟩
  · intro fuel pkt s1 hs
    obtain ⟨tc, htc, hne, hpeek⟩ := DRR.schedule_some_head fuel self s1 pkt hs
    refine ⟨tc, List.getElem?_mem htc, hne, hpeek, ?_⟩
    simpa [TrafficClass.Peek, hne] using hpeek
  · intro fuel s1 hs
    exact DRR.dequeue_of_schedule_none fuel self s1 hs

/-- Witness for C25: the empty two-class object returns `nullptr` from
`Schedule`, `Dequeue` and `Peek`, and the loaded one schedules the head of a
class with packets. -/
theorem drr_schedule_null_iff_nothing_queued_witness :
    (∃ s1, DRR.Schedule 5 udpTcpDRR = Except.ok (none, s1) ∧
      DRR.Dequeue 5 udpTcpDRR = Except.ok (none, s1) ∧
      DRR.Peek 5 udpTcpDRR 77 = Except.ok (none, s1)) ∧
    (∃ tc ∈ udpTcpLoadedDRR.m_queueClasses, tc.IsEmpty = false ∧
      tc.Peek = some (udpPacket 1 400) ∧ tc.m_queue.head? = some (udpPacket 1 400)) :=
  ⟨(drr_schedule_null_iff_nothing_queued udpTcpDRR).1 (Or.inr (by decide)) 5 77,
    (drr_schedule_null_iff_nothing_queued udpTcpLoadedDRR).2.1 5 (udpPacket 1 400)
      udpTcpScheduledDRR rfl⟩

/-! ## Index alignment of a `DRR` object -/

theorem DiffServ.dequeueLoop_length (packet : Packet) (l : List TrafficClass) :
    (DiffServ.dequeueLoop packet l).2.length = l.length := by
  rcases DiffServ.dequeueLoop_shape packet l with h | ⟨i, tc, _, h⟩
  · rw [h]
  · rw [h, List.length_set]

theorem DiffServ.doDequeue_length (self : DiffServ) (scheduled : Option Packet) :
    (self.DoDequeue scheduled).2.m_queueClasses.length = self.m_queueClasses.length := by
  cases scheduled with
  | none => rfl
  | some packet => exact DiffServ.dequeueLoop_length packet _

theorem DiffServ.enqueue_length (self : DiffServ) (p : Packet) :
    (self.Enqueue p).2.m_queueClasses.length = self.m_queueClasses.length := by
  unfold DiffServ.Enqueue
  rcases classifyLoop_range p self.m_queueClasses 0 (-1) with h | ⟨idx, hlt, h⟩
  · rw [DiffServ.doEnqueue_of_none self p h]
  · have hcl : self.Classify p = (idx : Int) := by
      unfold DiffServ.Classify
      rw [h]
      simp
    rw [DiffServ.doEnqueue_of_classify self p idx _ hcl (List.getElem?_eq_getElem hlt)]
    simp

theorem DRR.drr_dequeue_cases (fuel : Nat) (s s' : DRR) (r : Option Packet)
    (h : DRR.Dequeue fuel s = Except.ok (r, s')) :
    ∃ (scheduled : Option Packet) (s1 : DRR),
      DRR.Schedule fuel s = Except.ok (scheduled, s1) ∧
      s'.m_queueClasses = (s.toDiffServ.DoDequeue scheduled).2.m_queueClasses ∧
      ((s'.m_currentQueueIndex = s.m_currentQueueIndex ∧
          s'.m_creditBalance = s.m_creditBalance) ∨
        (∃ pkt, scheduled = some pkt ∧
          s'.m_currentQueueIndex = s1.m_scheduledQueueIndex ∧
          s'.m_creditBalance = s1.m_tempCreditBalance)) := by
  unfold DRR.Dequeue at h
  cases hs : DRR.Schedule fuel s with
  | error e => rw [hs] at h; simp at h
  | ok res =>
    obtain ⟨scheduled, s1⟩ := res
    rw [hs] at h
    simp only at h
    obtain ⟨hcl, hcur, hcred⟩ := DRR.schedule_frame fuel s s1 scheduled hs
    have hbase : s1.toDiffServ = s.toDiffServ := by
      cases hb1 : s1.toDiffServ
      cases hb2 : s.toDiffServ
      simp only [hb1, hb2] at hcl
      rw [hcl]
    refine ⟨scheduled, s1, rfl, ?_, ?_⟩
    · split at h
      · simp only [Except.ok.injEq, Prod.mk.injEq] at h
        rw [← h.2, ← hbase]
      · simp only [Except.ok.injEq, Prod.mk.injEq] at h
        rw [← h.2, ← hbase]
    · split at h
      · rename_i dq hdq
        simp only [Except.ok.injEq, Prod.mk.injEq] at h
        right
        cases scheduled with
        | none => simp [DiffServ.DoDequeue] at hdq
        | some pkt => exact ⟨pkt, rfl, by rw [← h.2], by rw [← h.2]⟩
      · simp only [Except.ok.injEq, Prod.mk.injEq] at h
        left
        rw [← h.2]
        exact ⟨hcur, hcred⟩

theorem DRR.schedule_in_bounds (fuel : Nat) (s : DRR)
    (hlen : s.m_creditBalance.length = s.m_queueClasses.length)
    (hcur : s.m_currentQueueIndex = 0 ∨ s.m_currentQueueIndex < s.m_queueClasses.length) :
    DRR.Schedule fuel s ≠ Except.error Fault.outOfBounds ∧
    ∀ pkt s1, DRR.Schedule fuel s = Except.ok (some pkt, s1) →
      s1.m_scheduledQueueIndex < s.m_queueClasses.length ∧
      s1.m_tempCreditBalance.length = s.m_queueClasses.length := by
  unfold DRR.Schedule
  by_cases hnil : s.m_queueClasses.isEmpty = true
  · rw [if_pos hnil]
    simp
  · rw [if_neg hnil]
    simp only
    have hpos : 0 < s.m_queueClasses.length := by
      cases hl : s.m_queueClasses with
      | nil => rw [hl] at hnil; simp at hnil
      | cons _ _ => simp
    have hcur' : s.m_currentQueueIndex < s.m_queueClasses.length := by
      rcases hcur with h | h
      · omega
      · exact h
    by_cases hall : DRR.emptyQueueCount s.m_queueClasses = s.m_queueClasses.length
    · rw [if_pos hall]
      simp
    · rw [if_neg hall]
      obtain ⟨hnb, hok⟩ := DRR.scheduleLoop_in_bounds s.m_queueClasses fuel
        s.m_currentQueueIndex s.m_creditBalance hcur' hlen
      cases hloop : DRR.scheduleLoop s.m_queueClasses fuel s.m_currentQueueIndex
          s.m_creditBalance with
      | error e =>
        simp only
        refine ⟨?_, by simp⟩
        intro he
        simp only [Except.error.injEq] at he
        rw [he] at hloop
        exact hnb hloop
      | ok res =>
        obtain ⟨packet, idx, temp⟩ := res
        simp only
        refine ⟨by simp, ?_⟩
        intro pkt s1 h
        simp only [Except.ok.injEq, Prod.mk.injEq] at h
        rw [← h.2]
        exact hok packet idx temp hloop

theorem DRR.FromFresh.aligned (s : DRR) (h : DRR.FromFresh s) :
    s.m_creditBalance.length = s.m_queueClasses.length ∧
    (s.m_currentQueueIndex = 0 ∨ s.m_currentQueueIndex < s.m_queueClasses.length) := by
  induction h with
  | fresh scheduled => exact ⟨rfl, Or.inl rfl⟩
  | addClass s tc _ ih =>
    obtain ⟨h1, h2⟩ := ih
    refine ⟨by simp [DRR.AddClass, h1], ?_⟩
    rcases h2 with h | h
    · exact Or.inl h
    · right
      simp only [DRR.AddClass, List.length_append, List.length_singleton]
      omega
  | enqueue s p _ ih =>
    obtain ⟨h1, h2⟩ := ih
    have hl := DiffServ.enqueue_length s.toDiffServ p
    simp only [DRR.Enqueue]
    exact ⟨by rw [hl]; exact h1, by rw [hl]; exact h2⟩
  | dequeue s s' fuel r _ hd ih =>
    obtain ⟨h1, h2⟩ := ih
    obtain ⟨scheduled, s1, hs, hcl, hcase⟩ := DRR.drr_dequeue_cases fuel s s' r hd
    have hl : s'.m_queueClasses.length = s.m_queueClasses.length := by
      rw [hcl]; exact DiffServ.doDequeue_length _ _
    rcases hcase with ⟨e1, e2⟩ | ⟨pkt, hp, e1, e2⟩
    · rw [hl, e1, e2]
      exact ⟨h1, h2⟩
    · subst hp
      obtain ⟨b1, b2⟩ := (DRR.schedule_in_bounds fuel s h1 h2).2 pkt s1 hs
      rw [hl, e1, e2]
      exact ⟨b2, Or.inr b1⟩
  | peek s s' fuel addr r _ hp ih =>
    obtain ⟨h1, h2⟩ := ih
    unfold DRR.Peek at hp
    cases hs : DRR.Schedule fuel s with
    | error e => rw [hs] at hp; simp at hp
    | ok res =>
      obtain ⟨scheduled, s1⟩ := res
      rw [hs] at hp
      simp only [Except.ok.injEq, Prod.mk.injEq] at hp
      obtain ⟨hcl, hcur, hcred⟩ := DRR.schedule_frame fuel s s1 scheduled hs
      rw [← hp.2, hcl, hcur, hcred]
      exact ⟨h1, h2⟩

/-- C26: in every state that `AddClass`, `Enqueue`, `Peek` and `Dequeue`
calls reach from a freshly constructed `DRR` object, `m_creditBalance` has as
many slots as there are classes, `AddClass` appending the class and a slot of
zero, and `m_currentQueueIndex` is below the number of classes as soon as
there is a class; `Schedule` therefore never indexes a vector outside its
bounds, whatever the fuel. -/
theorem drr_indices_stay_aligned (s : DRR) (h : DRR.FromFresh s) :
    s.m_creditBalance.length = s.m_queueClasses.length ∧
    (s.m_queueClasses ≠ [] → s.m_currentQueueIndex < s.m_queueClasses.length) ∧
    (∀ tc, (s.AddClass tc).m_queueClasses = s.m_queueClasses ++ [tc] ∧
      (s.AddClass tc).m_creditBalance = s.m_creditBalance ++ [0]) ∧
    (∀ (fuel : Nat), DRR.Schedule fuel s ≠ Except.error Fault.outOfBounds) ∧
    (∀ (fuel : Nat) (pkt : Packet) (s1 : DRR),
      DRR.Schedule fuel s = Except.ok (some pkt, s1) →
      s1.m_scheduledQueueIndex < s.m_queueClasses.length ∧
      s1.m_tempCreditBalance.length = s.m_queueClasses.length) := by
  obtain ⟨h1, h2⟩ := DRR.FromFresh.aligned s h
  refine ⟨h1, ?_, fun tc => ⟨rfl, rfl⟩, ?_, ?_⟩
  · intro hne
    rcases h2 with h0 | hlt
    · rw [h0]
      exact List.length_pos.2 hne
    · exact hlt
  · intro fuel
    exact (DRR.schedule_in_bounds fuel s h1 h2).1
  · intro fuel pkt s1 hs
    exact (DRR.schedule_in_bounds fuel s h1 h2).2 pkt s1 hs

/-- Witness for C26: a fresh object whose scheduled index holds 7, after two
`AddClass` calls. -/
theorem drr_indices_stay_aligned_witness :
    ((((DRR.construct 7).AddClass (protocolQueue 17 500 1)).AddClass
        (protocolQueue 6 500 0)).m_creditBalance.length =
      (((DRR.construct 7).AddClass (protocolQueue 17 500 1)).AddClass
        (protocolQueue 6 500 0)).m_queueClasses.length) ∧
    ((((DRR.construct 7).AddClass (protocolQueue 17 500 1)).AddClass
        (protocolQueue 6 500 0)).m_queueClasses ≠ [] →
      (((DRR.construct 7).AddClass (protocolQueue 17 500 1)).AddClass
        (protocolQueue 6 500 0)).m_currentQueueIndex <
      (((DRR.construct 7).AddClass (protocolQueue 17 500 1)).AddClass
        (protocolQueue 6 500 0)).m_queueClasses.length) :=
  ⟨(drr_indices_stay_aligned _
      (DRR.FromFresh.addClass _ _ (DRR.FromFresh.addClass _ _ (DRR.FromFresh.fresh 7)))).1,
    (drr_indices_stay_aligned _
      (DRR.FromFresh.addClass _ _ (DRR.FromFresh.addClass _ _ (DRR.FromFresh.fresh 7)))).2.1⟩

/-! ## Two classes of equal weight -/

theorem TrafficClass.withQueue_cons_isEmpty (tc : TrafficClass) (a : Packet)
    (q : List Packet) : (tc.withQueue (a :: q)).IsEmpty = false := by
  simp [TrafficClass.withQueue, TrafficClass.IsEmpty]

theorem TrafficClass.withQueue_nil_isEmpty (tc : TrafficClass) :
    (tc.withQueue []).IsEmpty = true := by
  simp [TrafficClass.withQueue, TrafficClass.IsEmpty]

theorem TrafficClass.withQueue_cons_peek (tc : TrafficClass) (a : Packet)
    (q : List Packet) : (tc.withQueue (a :: q)).Peek = some a := by
  simp [TrafficClass.withQueue, TrafficClass.IsEmpty, TrafficClass.Peek]

theorem TrafficClass.withQueue_weight (tc : TrafficClass) (q : List Packet) :
    (tc.withQueue q).GetWeight = tc.m_weight := rfl

theorem TrafficClass.withQueue_cons_dequeue (tc : TrafficClass) (a : Packet)
    (q : List Packet) (hlen : (a :: q).length < 2 ^ 32) :
    (tc.withQueue (a :: q)).Dequeue = (some a, tc.withQueue q) := by
  simp only [List.length_cons] at hlen
  have hmod : (q.length + 1 + 4294967295) % 4294967296 = q.length := by omega
  simp [TrafficClass.withQueue, TrafficClass.Dequeue, hmod]

theorem DRR.twoClass_equal_credit (A B : TrafficClass) (a b : Packet)
    (qa qb : List Packet) (w len : Nat) (hwA : A.m_weight = w) (hwB : B.m_weight = w)
    (ha : a.size = len) (hb : b.size = len) (hw : 0 < w) (hovf : len + w ≤ 2 ^ 32) :
    ∀ (d c fuel : Nat), len - c ≤ d → c < len → 2 * (len - c) + 1 ≤ fuel →
      ∃ r, r < w ∧
        DRR.scheduleLoop [A.withQueue (a :: qa), B.withQueue (b :: qb)] fuel 0 [c, c] =
          Except.ok (a, 0, [r, r + len - w]) := by
  intro d
  induction d with
  | zero => intro c fuel h1 h2 _; omega
  | succ d ih =>
    intro c fuel h1 h2 h3
    obtain ⟨f, rfl⟩ : ∃ f, fuel = f + 1 := ⟨fuel - 1, by omega⟩
    have hmod : (w + c) % 2 ^ 32 = w + c := Nat.mod_eq_of_lt (by omega)
    by_cases hle : len ≤ w + c
    · refine ⟨w + c - len, by omega, ?_⟩
      rw [DRR.scheduleLoop_step_select _ f 0 [c, c] (A.withQueue (a :: qa)) c a rfl
        (TrafficClass.withQueue_cons_isEmpty A a qa) rfl
        (TrafficClass.withQueue_cons_peek A a qa)
        (by rw [TrafficClass.withQueue_weight, hwA, hmod, ha]; exact hle)]
      rw [TrafficClass.withQueue_weight, hwA, hmod, ha]
      have : w + c - len + len - w = c := by omega
      simp [this]
    · obtain ⟨f', rfl⟩ : ∃ f', f = f' + 1 := ⟨f - 1, by omega⟩
      rw [DRR.scheduleLoop_step_short _ (f' + 1) 0 [c, c] (A.withQueue (a :: qa)) c a rfl
        (TrafficClass.withQueue_cons_isEmpty A a qa) rfl
        (TrafficClass.withQueue_cons_peek A a qa)
        (by rw [TrafficClass.withQueue_weight, hwA, hmod, ha]; exact hle)]
      rw [TrafficClass.withQueue_weight, hwA, hmod]
      have hidx : (0 + 1) % [A.withQueue (a :: qa), B.withQueue (b :: qb)].length = 1 := by
        simp
      rw [hidx]
      simp only [List.set_cons_zero]
      rw [DRR.scheduleLoop_step_short _ f' 1 [w + c, c] (B.withQueue (b :: qb)) c b rfl
        (TrafficClass.withQueue_cons_isEmpty B b qb) rfl
        (TrafficClass.withQueue_cons_peek B b qb)
        (by rw [TrafficClass.withQueue_weight, hwB, hmod, hb]; exact hle)]
      rw [TrafficClass.withQueue_weight, hwB, hmod]
      have hidx' : (1 + 1) % [A.withQueue (a :: qa), B.withQueue (b :: qb)].length = 0 := by
        simp
      rw [hidx']
      simp only [List.set_cons_succ, List.set_cons_zero]
      exact ih (w + c) f' (by omega) (by omega) (by omega)

theorem DRR.twoClass_serve_first (A B : TrafficClass) (a b : Packet)
    (qa qb : List Packet) (w len : Nat) (hwA : A.m_weight = w) (hwB : B.m_weight = w)
    (ha : a.size = len) (hb : b.size = len) (hw : 0 < w) (hovf : len + w ≤ 2 ^ 32)
    (cur : Nat) (credit : List Nat) (hready : DRR.ReadyFirst w len cur credit)
    (fuel : Nat) (hfuel : 2 * len + 1 ≤ fuel) :
    ∃ r, r < w ∧
      DRR.scheduleLoop [A.withQueue (a :: qa), B.withQueue (b :: qb)] fuel cur credit =
        Except.ok (a, 0, [r, r + len - w]) := by
  rcases hready with ⟨hcur, c, hcr, hc⟩ | ⟨hcur, r, hcr, hr⟩
  · subst hcur; subst hcr
    exact DRR.twoClass_equal_credit A B a b qa qb w len hwA hwB ha hb hw hovf (len - c) c fuel
      (le_refl _) hc (by omega)
  · subst hcur; subst hcr
    obtain ⟨f, rfl⟩ : ∃ f, fuel = f + 1 := ⟨fuel - 1, by omega⟩
    have hmod : (w + r) % 2 ^ 32 = w + r := Nat.mod_eq_of_lt (by omega)
    rw [DRR.scheduleLoop_step_short _ f 1 [w + r, r] (B.withQueue (b :: qb)) r b rfl
      (TrafficClass.withQueue_cons_isEmpty B b qb) rfl
      (TrafficClass.withQueue_cons_peek B b qb)
      (by rw [TrafficClass.withQueue_weight, hwB, hmod, hb]; omega)]
    rw [TrafficClass.withQueue_weight, hwB, hmod]
    have hidx : (1 + 1) % [A.withQueue (a :: qa), B.withQueue (b :: qb)].length = 0 := by
      simp
    rw [hidx]
    simp only [List.set_cons_succ, List.set_cons_zero]
    exact DRR.twoClass_equal_credit A B a b qa qb w len hwA hwB ha hb hw hovf
      (len - (w + r)) (w + r) f (le_refl _) hr (by omega)

theorem DRR.twoClass_serve_second (A B : TrafficClass) (x b : Packet)
    (qa qb : List Packet) (w len r : Nat) (hwA : A.m_weight = w) (hwB : B.m_weight = w)
    (hx : x.size = len) (hb : b.size = len) (hr : r < w) (h2w : 2 * w ≤ len)
    (hovf : len + w ≤ 2 ^ 32) (fuel : Nat) (hfuel : 2 ≤ fuel) :
    DRR.scheduleLoop [A.withQueue (x :: qa), B.withQueue (b :: qb)] fuel 0
        [r, r + len - w] =
      Except.ok (b, 1, [w + r, r]) := by
  obtain ⟨f, rfl⟩ : ∃ f, fuel = f + 2 := ⟨fuel - 2, by omega⟩
  have hmod : (w + r) % 2 ^ 32 = w + r := Nat.mod_eq_of_lt (by omega)
  have hmod2 : (w + (r + len - w)) % 2 ^ 32 = r + len := by
    rw [Nat.mod_eq_of_lt (by omega)]
    omega
  rw [DRR.scheduleLoop_step_short _ (f + 1) 0 [r, r + len - w] (A.withQueue (x :: qa)) r x
    rfl (TrafficClass.withQueue_cons_isEmpty A x qa) rfl
    (TrafficClass.withQueue_cons_peek A x qa)
    (by rw [TrafficClass.withQueue_weight, hwA, hmod, hx]; omega)]
  rw [TrafficClass.withQueue_weight, hwA, hmod]
  have hidx : (0 + 1) % [A.withQueue (x :: qa), B.withQueue (b :: qb)].length = 1 := by
    simp
  rw [hidx]
  simp only [List.set_cons_zero]
  rw [DRR.scheduleLoop_step_select _ f 1 [w + r, r + len - w] (B.withQueue (b :: qb))
    (r + len - w) b rfl (TrafficClass.withQueue_cons_isEmpty B b qb) rfl
    (TrafficClass.withQueue_cons_peek B b qb)
    (by rw [TrafficClass.withQueue_weight, hwB, hmod2, hb]; omega)]
  rw [TrafficClass.withQueue_weight, hwB, hmod2, hb]
  simp

theorem DRR.twoClass_serve_second_alone (A B : TrafficClass) (b : Packet)
    (qb : List Packet) (w len r : Nat) (hwB : B.m_weight = w)
    (hb : b.size = len) (hr : r < w) (h2w : 2 * w ≤ len) (hovf : len + w ≤ 2 ^ 32)
    (fuel : Nat) (hfuel : 2 ≤ fuel) :
    DRR.scheduleLoop [A.withQueue [], B.withQueue (b :: qb)] fuel 0 [r, r + len - w] =
      Except.ok (b, 1, [r, r]) := by
  obtain ⟨f, rfl⟩ : ∃ f, fuel = f + 2 := ⟨fuel - 2, by omega⟩
  have hmod2 : (w + (r + len - w)) % 2 ^ 32 = r + len := by
    rw [Nat.mod_eq_of_lt (by omega)]
    omega
  rw [DRR.scheduleLoop_step_empty _ (f + 1) 0 [r, r + len - w] (A.withQueue []) rfl
    (TrafficClass.withQueue_nil_isEmpty A)]
  have hidx : (0 + 1) % [A.withQueue [], B.withQueue (b :: qb)].length = 1 := by
    simp
  rw [hidx]
  rw [DRR.scheduleLoop_step_select _ f 1 [r, r + len - w] (B.withQueue (b :: qb))
    (r + len - w) b rfl (TrafficClass.withQueue_cons_isEmpty B b qb) rfl
    (TrafficClass.withQueue_cons_peek B b qb)
    (by rw [TrafficClass.withQueue_weight, hwB, hmod2, hb]; omega)]
  rw [TrafficClass.withQueue_weight, hwB, hmod2, hb]
  simp

theorem DRR.dequeue_of_loop (fuel : Nat) (s : DRR) (pkt pkt' : Packet) (idx : Nat)
    (temp : List Nat) (cls : List TrafficClass)
    (hne : ∃ c ∈ s.m_queueClasses, c.IsEmpty = false)
    (hloop : DRR.scheduleLoop s.m_queueClasses fuel s.m_currentQueueIndex
      s.m_creditBalance = Except.ok (pkt, idx, temp))
    (hdq : DiffServ.dequeueLoop pkt s.m_queueClasses = (some pkt', cls)) :
    DRR.Dequeue fuel s =
      Except.ok (some pkt',
        { m_queueClasses := cls
          m_currentQueueIndex := idx
          m_scheduledQueueIndex := idx
          m_creditBalance := temp
          m_tempCreditBalance := temp }) := by
  obtain ⟨c, hc, hcne⟩ := hne
  have hnotnil : s.m_queueClasses.isEmpty = false := by
    cases hl : s.m_queueClasses with
    | nil => rw [hl] at hc; cases hc
    | cons _ _ => rfl
  have hcount : ¬ DRR.emptyQueueCount s.m_queueClasses = s.m_queueClasses.length := by
    intro hall
    have := (DRR.emptyQueueCount_eq_length _).1 hall c hc
    rw [hcne] at this
    cases this
  have hs : DRR.Schedule fuel s = Except.ok (some pkt,
      { s with m_scheduledQueueIndex := idx, m_tempCreditBalance := temp }) := by
    unfold DRR.Schedule
    simp only [hnotnil, Bool.false_eq_true, if_false, hcount, hloop]
  unfold DRR.Dequeue
  simp only [hs, DiffServ.DoDequeue, hdq]

theorem DiffServ.dequeueLoop_first_of_two (A B' : TrafficClass) (a : Packet)
    (qa : List Packet) (hlen : (a :: qa).length < 2 ^ 32) :
    DiffServ.dequeueLoop a [A.withQueue (a :: qa), B'] = (some a, [A.withQueue qa, B']) := by
  simp [DiffServ.dequeueLoop, TrafficClass.withQueue_cons_isEmpty,
    TrafficClass.withQueue_cons_peek, TrafficClass.withQueue_cons_dequeue A a qa hlen]

theorem DiffServ.dequeueLoop_second_of_two (A B : TrafficClass) (b : Packet)
    (qa qb : List Packet) (hlen : (b :: qb).length < 2 ^ 32) (hdiff : qa.head? ≠ some b) :
    DiffServ.dequeueLoop b [A.withQueue qa, B.withQueue (b :: qb)] =
      (some b, [A.withQueue qa, B.withQueue qb]) := by
  have hskip : (!(A.withQueue qa).IsEmpty && (A.withQueue qa).Peek == some b) = false := by
    cases qa with
    | nil => simp [TrafficClass.withQueue_nil_isEmpty]
    | cons x qa' =>
      have hxb : x ≠ b := by simpa using hdiff
      simp [TrafficClass.withQueue_cons_isEmpty, TrafficClass.withQueue_cons_peek, hxb]
  rw [DiffServ.dequeueLoop]
  simp only [hskip, Bool.false_eq_true, if_false]
  simp [DiffServ.dequeueLoop, TrafficClass.withQueue_cons_isEmpty,
    TrafficClass.withQueue_cons_peek, TrafficClass.withQueue_cons_dequeue B b qb hlen]

theorem DRR.twoClass_dequeue_first (A B : TrafficClass) (a b : Packet)
    (qa qb : List Packet) (w len : Nat) (hwA : A.m_weight = w) (hwB : B.m_weight = w)
    (ha : a.size = len) (hb : b.size = len) (hw : 0 < w) (hovf : len + w ≤ 2 ^ 32)
    (cur sched : Nat) (credit temp : List Nat) (hready : DRR.ReadyFirst w len cur credit)
    (fuel : Nat) (hfuel : 2 * len + 1 ≤ fuel) (hlen : (a :: qa).length < 2 ^ 32) :
    ∃ r, r < w ∧
      DRR.Dequeue fuel
          (DRR.ofTwo (A.withQueue (a :: qa)) (B.withQueue (b :: qb)) cur credit sched temp) =
        Except.ok (some a,
          DRR.ofTwo (A.withQueue qa) (B.withQueue (b :: qb)) 0 [r, r + len - w] 0
            [r, r + len - w]) := by
  obtain ⟨r, hr, hloop⟩ := DRR.twoClass_serve_first A B a b qa qb w len hwA hwB ha hb hw hovf
    cur credit hready fuel hfuel
  refine ⟨r, hr, ?_⟩
  exact DRR.dequeue_of_loop fuel
    (DRR.ofTwo (A.withQueue (a :: qa)) (B.withQueue (b :: qb)) cur credit sched temp)
    a a 0 [r, r + len - w] [A.withQueue qa, B.withQueue (b :: qb)]
    ⟨A.withQueue (a :: qa), by simp [DRR.ofTwo], TrafficClass.withQueue_cons_isEmpty A a qa⟩
    hloop (DiffServ.dequeueLoop_first_of_two A _ a qa hlen)

theorem DRR.twoClass_dequeue_second (A B : TrafficClass) (b : Packet)
    (qa qb : List Packet) (w len r : Nat) (hwA : A.m_weight = w) (hwB : B.m_weight = w)
    (hqa : ∀ x ∈ qa, x.size = len) (hb : b.size = len) (hr : r < w) (h2w : 2 * w ≤ len)
    (hovf : len + w ≤ 2 ^ 32) (sched : Nat) (temp : List Nat)
    (fuel : Nat) (hfuel : 2 ≤ fuel) (hlen : (b :: qb).length < 2 ^ 32)
    (hdiff : qa.head? ≠ some b) :
    ∃ credit, (qa ≠ [] → DRR.ReadyFirst w len 1 credit) ∧
      DRR.Dequeue fuel
          (DRR.ofTwo (A.withQueue qa) (B.withQueue (b :: qb)) 0 [r, r + len - w] sched temp) =
        Except.ok (some b,
          DRR.ofTwo (A.withQueue qa) (B.withQueue qb) 1 credit 1 credit) := by
  have hne : ∃ c ∈ (DRR.ofTwo (A.withQueue qa) (B.withQueue (b :: qb)) 0 [r, r + len - w]
      sched temp).m_queueClasses, c.IsEmpty = false :=
    ⟨B.withQueue (b :: qb), by simp [DRR.ofTwo], TrafficClass.withQueue_cons_isEmpty B b qb⟩
  cases qa with
  | nil =>
    refine ⟨[r, r], fun h => absurd rfl h, ?_⟩
    exact DRR.dequeue_of_loop fuel _ b b 1 [r, r] _ hne
      (DRR.twoClass_serve_second_alone A B b qb w len r hwB hb hr h2w hovf fuel hfuel)
      (DiffServ.dequeueLoop_second_of_two A B b [] qb hlen hdiff)
  | cons x qa' =>
    refine ⟨[w + r, r], fun _ => Or.inr ⟨rfl, r, rfl, by omega⟩, ?_⟩
    exact DRR.dequeue_of_loop fuel _ b b 1 [w + r, r] _ hne
      (DRR.twoClass_serve_second A B x b qa' qb w len r hwA hwB
        (hqa x (List.mem_cons_self _ _)) hb hr h2w hovf fuel hfuel)
      (DiffServ.dequeueLoop_second_of_two A B b (x :: qa') qb hlen hdiff)

theorem DRR.dequeueTimes_two (fuel n : Nat) (s s1 s2 s3 : DRR) (r1 r2 : Option Packet)
    (rs : List (Option Packet)) (h1 : DRR.Dequeue fuel s = Except.ok (r1, s1))
    (h2 : DRR.Dequeue fuel s1 = Except.ok (r2, s2))
    (h3 : DRR.dequeueTimes fuel n s2 = Except.ok (rs, s3)) :
    DRR.dequeueTimes fuel (n + 2) s = Except.ok (r1 :: r2 :: rs, s3) := by
  simp only [DRR.dequeueTimes, h1, h2, h3]

/-- Two classes of the same weight `w` whose packets all have `len` bytes,
with `2 * w ≤ len`: from a state in which class 0 is served next, `2 * n`
calls of `Dequeue` return the first `n` packets of the two classes in turn
and leave the remaining packets queued. -/
theorem DRR.twoClass_alternation (A B : TrafficClass) (w len : Nat)
    (hwA : A.m_weight = w) (hwB : B.m_weight = w) (hw : 0 < w) (h2w : 2 * w ≤ len)
    (hovf : len + w ≤ 2 ^ 32) (fuel : Nat) (hfuel : 2 * len + 1 ≤ fuel) :
    ∀ (n : Nat) (qa qb : List Packet) (cur sched : Nat) (credit temp : List Nat),
      (0 < n → DRR.ReadyFirst w len cur credit) →
      n ≤ qa.length → n ≤ qb.length →
      (∀ x ∈ qa, x.size = len) → (∀ y ∈ qb, y.size = len) →
      (∀ x ∈ qa, ∀ y ∈ qb, x ≠ y) →
      qa.length < 2 ^ 32 → qb.length < 2 ^ 32 →
      ∃ s', DRR.dequeueTimes fuel (2 * n)
            (DRR.ofTwo (A.withQueue qa) (B.withQueue qb) cur credit sched temp) =
          Except.ok (alternating (qa.take n) (qb.take n), s') ∧
        s'.m_queueClasses = [A.withQueue (qa.drop n), B.withQueue (qb.drop n)] := by
  intro n
  induction n with
  | zero =>
    intro qa qb cur sched credit temp _ _ _ _ _ _ _ _
    exact ⟨DRR.ofTwo (A.withQueue qa) (B.withQueue qb) cur credit sched temp,
      by simp [DRR.dequeueTimes, alternating], by simp [DRR.ofTwo]⟩
  | succ n ih =>
    intro qa qb cur sched credit temp hready hna hnb hsa hsb hdis hla hlb
    cases qa with
    | nil => simp at hna
    | cons a qa' =>
      cases qb with
      | nil => simp at hnb
      | cons b qb' =>
        have ha : a.size = len := hsa a (List.mem_cons_self _ _)
        have hb : b.size = len := hsb b (List.mem_cons_self _ _)
        obtain ⟨r, hr, hd1⟩ := DRR.twoClass_dequeue_first A B a b qa' qb' w len hwA hwB ha hb
          hw hovf cur sched credit temp (hready (Nat.succ_pos n)) fuel hfuel hla
        have hdiff : qa'.head? ≠ some b := by
          intro hh
          exact hdis b (List.mem_cons_of_mem _ (List.mem_of_mem_head? hh)) b
            (List.mem_cons_self _ _) rfl
        obtain ⟨credit', hready', hd2⟩ := DRR.twoClass_dequeue_second A B b qa' qb' w len r
          hwA hwB (fun x hx => hsa x (List.mem_cons_of_mem _ hx)) hb hr h2w hovf 0
          [r, r + len - w] fuel (by omega) hlb hdiff
        simp only [List.length_cons] at hna hnb hla hlb
        obtain ⟨s', hrun, hcls⟩ := ih qa' qb' 1 1 credit' credit'
          (by
            intro hn
            apply hready'
            intro hnil
            rw [hnil] at hna
            simp at hna
            omega)
          (by omega) (by omega)
          (fun x hx => hsa x (List.mem_cons_of_mem _ hx))
          (fun y hy => hsb y (List.mem_cons_of_mem _ hy))
          (fun x hx y hy => hdis x (List.mem_cons_of_mem _ hx) y (List.mem_cons_of_mem _ hy))
          (by omega) (by omega)
        refine ⟨s', ?_, by simpa using hcls⟩
        have h2 : 2 * (n + 1) = 2 * n + 2 := by omega
        rw [h2]
        simpa [alternating] using DRR.dequeueTimes_two fuel (2 * n) _ _ _ _ _ _ _ hd1 hd2 hrun

/-- C21: two classes of weight 1 with three packets of 1000 bytes each and
zero balances: six `Dequeue` calls, each given at least 2001 iterations,
return the packets of class 0 and of class 1 in turn, class 0 first, and
leave both classes empty. -/
theorem unit_weights_alternate (fuel sched : Nat) (temp : List Nat)
    (hfuel : 2001 ≤ fuel) :
    ∃ s', DRR.dequeueTimes fuel 6 (unitWeightDRR sched temp) =
        Except.ok
          ([some (plainPacket 1 1000), some (plainPacket 4 1000), some (plainPacket 2 1000),
            some (plainPacket 5 1000), some (plainPacket 3 1000), some (plainPacket 6 1000)],
            s') ∧
      s'.m_queueClasses = [plainClass [] 1 0, plainClass [] 1 0] := by
  have h := DRR.twoClass_alternation (plainClass [] 1 0) (plainClass [] 1 0) 1 1000 rfl rfl
    (by decide) (by decide) (by decide) fuel (by omega) 3
    [plainPacket 1 1000, plainPacket 2 1000, plainPacket 3 1000]
    [plainPacket 4 1000, plainPacket 5 1000, plainPacket 6 1000] 0 sched [0, 0] temp
    (fun _ => Or.inl ⟨rfl, 0, rfl, by decide⟩) (by decide) (by decide) (by decide)
    (by decide) (by decide) (by decide) (by decide)
  obtain ⟨s', h1, h2⟩ := h
  exact ⟨s', h1, h2⟩

/-- Witness for C21: with exactly 2001 iterations per call. -/
theorem unit_weights_alternate_witness :
    ∃ s', DRR.dequeueTimes 2001 6 (unitWeightDRR 0 []) =
        Except.ok
          ([some (plainPacket 1 1000), some (plainPacket 4 1000), some (plainPacket 2 1000),
            some (plainPacket 5 1000), some (plainPacket 3 1000), some (plainPacket 6 1000)],
            s') ∧
      s'.m_queueClasses = [plainClass [] 1 0, plainClass [] 1 0] :=
  unit_weights_alternate 2001 0 [] (by decide)

/-- Counterexample for C22: two classes of weight 2000 with packets of 1000
bytes and zero balances: the first two `Dequeue` calls both return packets of
class 0 while class 1 holds three packets. -/
theorem equal_weights_need_not_alternate :
    DRR.dequeueTimes 1 2 heavyWeightDRR =
      Except.ok
        ([some (plainPacket 1 1000), some (plainPacket 2 1000)],
          DRR.ofTwo (plainClass [plainPacket 3 1000] 2000 0)
            (plainClass [plainPacket 4 1000, plainPacket 5 1000, plainPacket 6 1000] 2000 0)
            0 [2000, 0] 0 [2000, 0]) := by
  rfl

/-- C22, amended: two classes of the same positive weight `w` whose packets
all have `len` bytes, with `2 * w ≤ len` and `len + w ≤ 2 ^ 32`, no packet
being queued in both classes, zero balances and the cursor at class 0: for
every `n` up to the length of the shorter queue, `2 * n` calls of `Dequeue`,
each given at least `2 * len + 1` iterations, return the first `n` packets of
class 0 and of class 1 in turn, class 0 first, and pop exactly those. -/
theorem equal_weights_alternate_when_weight_is_small (A B : TrafficClass)
    (w len fuel sched n : Nat) (temp : List Nat) (qa qb : List Packet)
    (hwA : A.m_weight = w) (hwB : B.m_weight = w) (hw : 0 < w) (h2w : 2 * w ≤ len)
    (hovf : len + w ≤ 2 ^ 32) (hfuel : 2 * len + 1 ≤ fuel)
    (hna : n ≤ qa.length) (hnb : n ≤ qb.length)
    (hsa : ∀ x ∈ qa, x.size = len) (hsb : ∀ y ∈ qb, y.size = len)
    (hdis : ∀ x ∈ qa, ∀ y ∈ qb, x ≠ y)
    (hla : qa.length < 2 ^ 32) (hlb : qb.length < 2 ^ 32) :
    ∃ s', DRR.dequeueTimes fuel (2 * n)
          (DRR.ofTwo (A.withQueue qa) (B.withQueue qb) 0 [0, 0] sched temp) =
        Except.ok (alternating (qa.take n) (qb.take n), s') ∧
      s'.m_queueClasses = [A.withQueue (qa.drop n), B.withQueue (qb.drop n)] :=
  DRR.twoClass_alternation A B w len hwA hwB hw h2w hovf fuel hfuel n qa qb 0 sched [0, 0] temp
    (fun _ => Or.inl ⟨rfl, 0, rfl, by omega⟩) hna hnb hsa hsb hdis hla hlb

/-- Witness for C22, amended: weight 3 and packets of 7 bytes, two packets in
each class. -/
theorem equal_weights_alternate_when_weight_is_small_witness :
    ∃ s', DRR.dequeueTimes 15 (2 * 2) smallWeightDRR =
        Except.ok
          (alternating ([plainPacket 1 7, plainPacket 2 7].take 2)
            ([plainPacket 4 7, plainPacket 5 7].take 2), s') ∧
      s'.m_queueClasses =
        [(plainClass [] 3 0).withQueue ([plainPacket 1 7, plainPacket 2 7].drop 2),
          (plainClass [] 3 0).withQueue ([plainPacket 4 7, plainPacket 5 7].drop 2)] :=
  equal_weights_alternate_when_weight_is_small (plainClass [] 3 0) (plainClass [] 3 0) 3 7 15
    0 2 [] [plainPacket 1 7, plainPacket 2 7] [plainPacket 4 7, plainPacket 5 7] rfl rfl
    (by decide) (by decide) (by decide) (by decide) (by decide) (by decide) (by decide)
    (by decide) (by decide) (by decide) (by decide)

/-- C23: three classes of weights 10, 20 and 30 with packets of 10 bytes and
zero balances: the first three `Dequeue` calls all return packets of class 0,
every class still holding packets afterwards; class 0 has then sent 30 of 30
bytes, which exceeds its share of 10/60 of the total by more than one packet
of 10 bytes. -/
theorem drr_share_exceeds_weight_proportion :
    ∃ rs s', DRR.dequeueTimes 1 3 weightedDRR = Except.ok (rs, s') ∧
      rs = [some (plainPacket 1 10), some (plainPacket 2 10), some (plainPacket 3 10)] ∧
      (∀ c ∈ s'.m_queueClasses, c.IsEmpty = false) ∧
      returnedBytes rs = 30 ∧
      returnedBytesOf
        [plainPacket 1 10, plainPacket 2 10, plainPacket 3 10, plainPacket 4 10] rs = 30 ∧
      returnedBytesOf
          [plainPacket 1 10, plainPacket 2 10, plainPacket 3 10, plainPacket 4 10] rs *
          (10 + 20 + 30) >
        10 * returnedBytes rs + 10 * (10 + 20 + 30) := by
  refine ⟨[some (plainPacket 1 10), some (plainPacket 2 10), some (plainPacket 3 10)],
    { m_queueClasses :=
        [plainClass [plainPacket 4 10] 10 0,
          plainClass [plainPacket 5 10, plainPacket 6 10, plainPacket 7 10, plainPacket 8 10]
            20 0,
          plainClass [plainPacket 9 10, plainPacket 10 10, plainPacket 11 10, plainPacket 12 10]
            30 0]
      m_currentQueueIndex := 0
      m_scheduledQueueIndex := 0
      m_creditBalance := [0, 0, 0]
      m_tempCreditBalance := [0, 0, 0] }, ?_, rfl, ?_, ?_, ?_, ?_⟩
  · rfl
  · decide
  · decide
  · decide
  · decide

theorem DRR.refilled_round :
    DRR.Dequeue 1 refilledDRR =
      Except.ok (some (udpPacket 1 1000),
        { refilledDRR with
          m_queueClasses :=
            [(protocolQueue 17 1000 0).withQueue [],
              (protocolQueue 6 1000 0).withQueue [tcpPacket 2 1000]] }) ∧
    (DRR.Enqueue
      { refilledDRR with
        m_queueClasses :=
          [(protocolQueue 17 1000 0).withQueue [],
            (protocolQueue 6 1000 0).withQueue [tcpPacket 2 1000]] }
      (udpPacket 1 1000)).2 = refilledDRR := by
  constructor
  · rfl
  · decide

/-- C24: two classes of weight 1000, class 0 holding a UDP packet of 1000
bytes and class 1 a TCP packet of 1000 bytes: however many times `Dequeue` is
called with the UDP packet enqueued again after each call, every call returns
the UDP packet of class 0, and the TCP packet of class 1 stays queued. -/
theorem drr_starves_the_other_class (n : Nat) :
    DRR.serveAndRefill 1 (udpPacket 1 1000) n refilledDRR =
      Except.ok (List.replicate n (some (udpPacket 1 1000)), refilledDRR) ∧
    (∃ c, refilledDRR.m_queueClasses[1]? = some c ∧ c.IsEmpty = false ∧
      0 < c.GetWeight ∧ c.m_queue = [tcpPacket 2 1000]) ∧
    (∀ c ∈ refilledDRR.m_queueClasses, 0 < c.GetWeight) := by
  refine ⟨?_, ⟨_, rfl, by decide, by decide, rfl⟩, by decide⟩
  induction n with
  | zero => rfl
  | succ n ih =>
    simp only [DRR.serveAndRefill, DRR.refilled_round.1, DRR.refilled_round.2, ih,
      List.replicate_succ]

/-! ## Default capacity of a class -/

theorem TrafficClass.enqueueAll_length :
    ∀ (pkts : List Packet) (tc : TrafficClass),
      (TrafficClass.enqueueAll pkts tc).1.length = pkts.length := by
  intro pkts
  induction pkts with
  | nil => intro tc; rfl
  | cons pkt rest ih =>
    intro tc
    simp [TrafficClass.enqueueAll, ih]

theorem TrafficClass.enqueueAll_spec :
    ∀ (pkts : List Packet) (tc : TrafficClass), tc.Bounded →
      (TrafficClass.enqueueAll pkts tc).1 =
        List.replicate (min (tc.m_maxPackets - tc.m_queue.length) pkts.length) true ++
          List.replicate (pkts.length - (tc.m_maxPackets - tc.m_queue.length)) false ∧
      (TrafficClass.enqueueAll pkts tc).2 =
        tc.withQueue (tc.m_queue ++ pkts.take (tc.m_maxPackets - tc.m_queue.length)) := by
  intro pkts
  induction pkts with
  | nil =>
    intro tc hb
    refine ⟨by simp [TrafficClass.enqueueAll], ?_⟩
    simp only [TrafficClass.enqueueAll, List.take_nil, List.append_nil]
    exact TrafficClass.consistent_eq_withQueue tc (TrafficClass.Bounded.consistent tc hb)
  | cons pkt rest ih =>
    intro tc hb
    rcases TrafficClass.enqueue_cases tc pkt hb with ⟨he, hlt⟩ | he
    · have hb2 : (tc.withQueue (tc.m_queue ++ [pkt])).Bounded := by
        have := TrafficClass.enqueue_bounded tc pkt hb
        rwa [he] at this
      obtain ⟨h1, h2⟩ := ih _ hb2
      have hq : (tc.withQueue (tc.m_queue ++ [pkt])).m_queue = tc.m_queue ++ [pkt] := rfl
      have hm : (tc.withQueue (tc.m_queue ++ [pkt])).m_maxPackets = tc.m_maxPackets := rfl
      obtain ⟨d, hd⟩ : ∃ d, tc.m_maxPackets - tc.m_queue.length = d + 1 :=
        ⟨tc.m_maxPackets - tc.m_queue.length - 1, by omega⟩
      have hd2 : tc.m_maxPackets - (tc.m_queue ++ [pkt]).length = d := by
        simp only [List.length_append, List.length_singleton]
        omega
      simp only [TrafficClass.enqueueAll, he, h1, h2, hq, hm, hd, hd2, List.length_cons,
        List.take_succ_cons]
      refine ⟨?_, ?_⟩
      · have e1 : min (d + 1) (rest.length + 1) = min d rest.length + 1 := by omega
        have e2 : rest.length + 1 - (d + 1) = rest.length - d := by omega
        rw [e1, e2, List.replicate_succ]
        rfl
      · simp [TrafficClass.withQueue]
    · have hfull : tc.m_maxPackets - tc.m_queue.length = 0 := by
        have h1 : (tc.Enqueue pkt).1 = false := by rw [he]
        have h2 : ¬ tc.m_packets < tc.m_maxPackets := by
          intro hlt
          simp [TrafficClass.Enqueue, hlt] at h1
        have := hb.1
        omega
      have hb2 : (tc.Enqueue pkt).2.Bounded := TrafficClass.enqueue_bounded tc pkt hb
      rw [he] at hb2
      obtain ⟨h1, h2⟩ := ih tc hb
      simp only [TrafficClass.enqueueAll, he, h1, h2, hfull, List.length_cons, List.take_zero,
        List.append_nil]
      simp [List.replicate_succ]

/-- C32: a freshly constructed class has capacity 100: of any run of
`Enqueue` calls on it the first 100 return true and every later one false,
so 101 calls give 100 times true and then false, and the class then holds
the first 100 packets. -/
theorem fresh_class_has_capacity_100 (pkts : List Packet) :
    TrafficClass.construct.GetMaxPackets = 100 ∧
    (TrafficClass.enqueueAll pkts TrafficClass.construct).1 =
      List.replicate (min 100 pkts.length) true ++
        List.replicate (pkts.length - 100) false ∧
    (TrafficClass.enqueueAll pkts TrafficClass.construct).2 =
      TrafficClass.construct.withQueue (pkts.take 100) ∧
    (pkts.length = 101 →
      (TrafficClass.enqueueAll pkts TrafficClass.construct).1 =
        List.replicate 100 true ++ [false]) := by
  have hb : TrafficClass.construct.Bounded := by decide
  obtain ⟨h1, h2⟩ := TrafficClass.enqueueAll_spec pkts TrafficClass.construct hb
  have hq : TrafficClass.construct.m_queue = [] := rfl
  have hm : TrafficClass.construct.m_maxPackets = 100 := rfl
  simp only [hq, hm, List.length_nil, Nat.sub_zero, List.nil_append] at h1 h2
  refine ⟨rfl, h1, h2, ?_⟩
  intro hlen
  rw [h1, hlen]
  rfl

/-- Witness for C32: 101 `Enqueue` calls with packets of 64 bytes at the
addresses 0 to 100. -/
theorem fresh_class_has_capacity_100_witness :
    (TrafficClass.enqueueAll ((List.range 101).map (fun a => plainPacket a 64))
        TrafficClass.construct).1 =
      List.replicate 100 true ++ [false] :=
  (fresh_class_has_capacity_100 ((List.range 101).map (fun a => plainPacket a 64))).2.2.2
    (by simp)

/-! ## The packet counter of a class -/

theorem TrafficClass.dequeue_none_iff (tc : TrafficClass) :
    tc.Dequeue.1 = none ↔ tc.m_queue = [] := by
  unfold TrafficClass.Dequeue
  cases tc.m_queue with
  | nil => simp
  | cons p rest => simp

/-- C39: in the state that any sequence of `Enqueue`, `Dequeue` and `Peek`
calls leaves of a class that was fresh, the counter `m_packets` equals the
length of the queue; `IsEmpty` is then true exactly when the queue is empty,
`Dequeue` returns `nullptr` exactly when `IsEmpty` is true, and `Peek` returns
`nullptr` in exactly that case too. -/
theorem counter_tracks_queue_length (tc : TrafficClass) (calls : List TrafficClass.Call)
    (hf : tc.Fresh) :
    (TrafficClass.run calls tc).2.2.m_packets =
      (TrafficClass.run calls tc).2.2.m_queue.length ∧
    ((TrafficClass.run calls tc).2.2.IsEmpty = true ↔
      (TrafficClass.run calls tc).2.2.m_queue = []) ∧
    ((TrafficClass.run calls tc).2.2.Dequeue.1 = none ↔
      (TrafficClass.run calls tc).2.2.IsEmpty = true) ∧
    ((TrafficClass.run calls tc).2.2.Peek = none ↔
      (TrafficClass.run calls tc).2.2.IsEmpty = true) := by
  have hb : tc.Bounded := by
    obtain ⟨h1, h2, h3⟩ := hf
    exact ⟨by rw [h1, h2]; rfl, by rw [h1]; simp, h3⟩
  obtain ⟨_, hbr, _⟩ := TrafficClass.run_spec calls tc hb
  generalize (TrafficClass.run calls tc).2.2 = s at hbr
  obtain ⟨h1, h2, h3⟩ := hbr
  have hemp : s.IsEmpty = true ↔ s.m_queue = [] := by
    unfold TrafficClass.IsEmpty
    rw [h1]
    simp
  refine ⟨h1, hemp, ?_, ?_⟩
  · rw [TrafficClass.dequeue_none_iff, hemp]
  · unfold TrafficClass.Peek
    by_cases he : s.IsEmpty = true
    · simp [he]
    · have hq : s.m_queue ≠ [] := fun h => he (hemp.2 h)
      cases hs : s.m_queue with
      | nil => exact absurd hs hq
      | cons p rest => simp [he]

/-- Witness for C39: six calls on a freshly constructed class. -/
theorem counter_tracks_queue_length_witness :
    (TrafficClass.run sampleCalls TrafficClass.construct).2.2.m_packets =
      (TrafficClass.run sampleCalls TrafficClass.construct).2.2.m_queue.length ∧
    (TrafficClass.run sampleCalls TrafficClass.construct).2.2.m_queue =
      [plainPacket 3 30, plainPacket 4 40] :=
  ⟨(counter_tracks_queue_length TrafficClass.construct sampleCalls (by decide)).1, by decide⟩

/-! ## The default class as a fallback -/

theorem classifyLoop_cases (packet : Packet) :
    ∀ (l : List TrafficClass) (k : Nat) (d : Int),
      (∃ (i : Nat) (c : TrafficClass), l[i]? = some c ∧ c.Match packet = true ∧
        (∀ j c', j < i → l[j]? = some c' → c'.Match packet = false) ∧
        DiffServ.classifyLoop packet l k d = ((k + i : Nat) : Int)) ∨
      ((∀ c ∈ l, c.Match packet = false) ∧
        ((DiffServ.classifyLoop packet l k d = d ∧ ∀ c ∈ l, c.IsDefault = false) ∨
          ∃ (i : Nat) (c : TrafficClass), l[i]? = some c ∧ c.IsDefault = true ∧
            (∀ j c', i < j → l[j]? = some c' → c'.IsDefault = false) ∧
            DiffServ.classifyLoop packet l k d = ((k + i : Nat) : Int))) := by
  intro l
  induction l with
  | nil =>
    intro k d
    right
    exact ⟨by simp, Or.inl ⟨rfl, by simp⟩⟩
  | cons tc rest ih =>
    intro k d
    by_cases hm : tc.Match packet = true
    · left
      refine ⟨0, tc, by simp, hm, ?_, ?_⟩
      · intro j c' hj
        omega
      · simp [DiffServ.classifyLoop, hm]
    · simp only [Bool.not_eq_true] at hm
      have hstep : DiffServ.classifyLoop packet (tc :: rest) k d =
          DiffServ.classifyLoop packet rest (k + 1)
            (if tc.IsDefault then (k : Int) else d) := by
        simp [DiffServ.classifyLoop, hm]
      rcases ih (k + 1) (if tc.IsDefault then (k : Int) else d) with
        ⟨i, c, hi, hc, hbefore, hres⟩ | ⟨hall, hcase⟩
      · left
        refine ⟨i + 1, c, by simpa using hi, hc, ?_, ?_⟩
        · intro j c' hj hj'
          cases j with
          | zero =>
            simp only [List.getElem?_cons_zero, Option.some.injEq] at hj'
            rw [← hj']
            exact hm
          | succ j =>
            exact hbefore j c' (by omega) (by simpa using hj')
        · rw [hstep, hres]
          congr 1
          omega
      · right
        refine ⟨?_, ?_⟩
        · intro c hc
          rcases List.mem_cons.1 hc with h | h
          · rw [h]; exact hm
          · exact hall c h
        · rcases hcase with ⟨hres, hnd⟩ | ⟨i, c, hi, hc, hafter, hres⟩
          · by_cases hd : tc.IsDefault = true
            · right
              refine ⟨0, tc, by simp, hd, ?_, ?_⟩
              · intro j c' hj hj'
                cases j with
                | zero => omega
                | succ j =>
                  exact hnd c' (List.getElem?_mem (by simpa using hj'))
              · rw [hstep, hres]
                simp [hd]
            · left
              simp only [Bool.not_eq_true] at hd
              refine ⟨?_, ?_⟩
              · rw [hstep, hres]
                simp [hd]
              · intro c hc
                rcases List.mem_cons.1 hc with h | h
                · rw [h]; exact hd
                · exact hnd c h
          · right
            refine ⟨i + 1, c, by simpa using hi, hc, ?_, ?_⟩
            · intro j c' hj hj'
              cases j with
              | zero => omega
              | succ j => exact hafter j c' (by omega) (by simpa using hj')
            · rw [hstep, hres]
              congr 1
              omega

theorem DiffServ.classify_fallback (self : DiffServ) (packet : Packet) (i : Nat)
    (tc : TrafficClass) (hcl : self.Classify packet = (i : Int))
    (hi : self.m_queueClasses[i]? = some tc) (hno : tc.Match packet = false) :
    (∀ c ∈ self.m_queueClasses, c.Match packet = false) ∧ tc.IsDefault = true ∧
    ∀ j c', i < j → self.m_queueClasses[j]? = some c' → c'.IsDefault = false := by
  unfold DiffServ.Classify at hcl
  rcases classifyLoop_cases packet self.m_queueClasses 0 (-1) with
    ⟨i', c, hi', hc, _, hres⟩ | ⟨hall, ⟨hres, _⟩ | ⟨i', c, hi', hc, hafter, hres⟩⟩
  · rw [hres] at hcl
    have : i' = i := by omega
    subst this
    rw [hi] at hi'
    cases hi'
    rw [hc] at hno
    cases hno
  · rw [hres] at hcl
    omega
  · rw [hres] at hcl
    have : i' = i := by omega
    subst this
    rw [hi] at hi'
    cases hi'
    exact ⟨hall, hc, hafter⟩

/-- C40: when `Classify` returns the index of a class that does not itself
match the packet, that class is flagged default, no class at all matches and
no class after it is flagged default; a default class that does not match and
stands before a matching class is not returned, the result being the first
matching class; and when no class matches, the default class after which no
other class is flagged default is returned. -/
theorem default_index_only_as_fallback (self : DiffServ) (packet : Packet) :
    (∀ (i : Nat) (tc : TrafficClass), self.Classify packet = (i : Int) →
      self.m_queueClasses[i]? = some tc → tc.Match packet = false →
      tc.IsDefault = true ∧ (∀ c ∈ self.m_queueClasses, c.Match packet = false) ∧
      ∀ j c', i < j → self.m_queueClasses[j]? = some c' → c'.IsDefault = false) ∧
    (∀ (i j : Nat) (dflt m : TrafficClass), i < j →
      self.m_queueClasses[i]? = some dflt → dflt.IsDefault = true →
      dflt.Match packet = false →
      self.m_queueClasses[j]? = some m → m.Match packet = true →
      self.Classify packet ≠ (i : Int) ∧
      ∃ (k : Nat) (c : TrafficClass), k ≤ j ∧ self.m_queueClasses[k]? = some c ∧
        c.Match packet = true ∧
        (∀ n c', n < k → self.m_queueClasses[n]? = some c' → c'.Match packet = false) ∧
        self.Classify packet = (k : Int)) ∧
    (∀ (i : Nat) (tc : TrafficClass),
      (∀ c ∈ self.m_queueClasses, c.Match packet = false) →
      self.m_queueClasses[i]? = some tc → tc.IsDefault = true →
      (∀ j c', i < j → self.m_queueClasses[j]? = some c' → c'.IsDefault = false) →
      self.Classify packet = (i : Int)) := by
  refine ⟨?_, ?_, ?_⟩
  · intro i tc hcl hi hno
    obtain ⟨h1, h2, h3⟩ := DiffServ.classify_fallback self packet i tc hcl hi hno
    exact ⟨h2, h1, h3⟩
  · intro i j dflt m hij hi hd hno hj hm
    refine ⟨?_, ?_⟩
    · intro hcl
      have h := (DiffServ.classify_fallback self packet i dflt hcl hi hno).1
      have := h m (List.getElem?_mem hj)
      rw [hm] at this
      cases this
    · rcases classifyLoop_cases packet self.m_queueClasses 0 (-1) with
        ⟨k, c, hk, hc, hbefore, hres⟩ | ⟨hall, _⟩
      · refine ⟨k, c, ?_, hk, hc, hbefore, ?_⟩
        · by_contra hlt
          have := hbefore j m (by omega) hj
          rw [hm] at this
          cases this
        · simpa [DiffServ.Classify] using hres
      · have := hall m (List.getElem?_mem hj)
        rw [hm] at this
        cases this
  · intro i tc hall hi hd hafter
    have := classifyLoop_no_match_default packet self.m_queueClasses 0 (-1) i tc hall hi hd
      hafter
    simpa [DiffServ.Classify] using this

/-- Witness for C40: a UDP packet goes to the protocol-17 class at index 1
although the default class stands at index 0, and a packet without headers
goes to index 1, the later of the two default classes. -/
theorem default_index_only_as_fallback_witness :
    (defaultFirstDispatcher.Classify (udpPacket 1 64) ≠ ((0 : Nat) : Int) ∧
      ∃ (k : Nat) (c : TrafficClass), k ≤ 1 ∧
        defaultFirstDispatcher.m_queueClasses[k]? = some c ∧
        c.Match (udpPacket 1 64) = true ∧
        (∀ n c', n < k → defaultFirstDispatcher.m_queueClasses[n]? = some c' →
          c'.Match (udpPacket 1 64) = false) ∧
        defaultFirstDispatcher.Classify (udpPacket 1 64) = (k : Int)) ∧
    twoDefaultsDispatcher.Classify (plainPacket 9 64) = ((1 : Nat) : Int) :=
  ⟨(default_index_only_as_fallback defaultFirstDispatcher (udpPacket 1 64)).2.1 0 1
      (protocolClass 1 true []) (protocolClass 17 false []) (by decide) rfl rfl (by decide)
      rfl (by decide),
    (default_index_only_as_fallback twoDefaultsDispatcher (plainPacket 9 64)).2.2 1
      (protocolClass 6 true []) (by decide) rfl rfl
      (by
        intro j c' hj h
        rcases j with _ | _ | _ | j
        · omega
        · omega
        · simp [twoDefaultsDispatcher] at h
          rw [← h]
          rfl
        · simp [twoDefaultsDispatcher] at h)⟩

/-! ## Filter elements on packets that lack a header -/

theorem FilterElement.match_false_of_no_ppp (e : FilterElement) (p : Packet)
    (h : ∀ rest, p.headers ≠ Header.ppp :: rest) : e.Match p = false := by
  have h1 : removePppHeader p.headers = none := by
    cases hh : p.headers with
    | nil => rfl
    | cons x rest =>
      cases x with
      | ppp => exact absurd hh (h rest)
      | ipv4 a => rfl
      | tcp a => rfl
      | udp a => rfl
  have h2 : peekPppHeader p.headers = false := by
    cases hh : p.headers with
    | nil => rfl
    | cons x rest =>
      cases x with
      | ppp => exact absurd hh (h rest)
      | ipv4 a => rfl
      | tcp a => rfl
      | udp a => rfl
  cases e <;>
    simp [FilterElement.Match, FilterElementSrcIp.Match, FilterElementDstIp.Match,
      FilterElementSrcMask.Match, FilterElementDstMask.Match, FilterElementSrcPort.Match,
      FilterElementDstPort.Match, FilterElementProtocol.Match, h1, h2]

theorem FilterElement.match_false_of_no_ipv4 (e : FilterElement) (p : Packet)
    (rest : List Header) (hp : p.headers = Header.ppp :: rest)
    (h : ∀ ip rest2, rest ≠ Header.ipv4 ip :: rest2) : e.Match p = false := by
  have h1 : removeIpv4Header rest = none := by
    cases hh : rest with
    | nil => rfl
    | cons x rest2 =>
      cases x with
      | ppp => rfl
      | ipv4 a => exact absurd hh (h a rest2)
      | tcp a => rfl
      | udp a => rfl
  have h2 : peekIpv4Header rest = none := by
    cases hh : rest with
    | nil => rfl
    | cons x rest2 =>
      cases x with
      | ppp => rfl
      | ipv4 a => exact absurd hh (h a rest2)
      | tcp a => rfl
      | udp a => rfl
  cases e <;>
    simp [FilterElement.Match, FilterElementSrcIp.Match, FilterElementDstIp.Match,
      FilterElementSrcMask.Match, FilterElementDstMask.Match, FilterElementSrcPort.Match,
      FilterElementDstPort.Match, FilterElementProtocol.Match, hp, removePppHeader,
      peekPppHeader, peekIpv4Header, h1, h2]

theorem peekTcpHeader_none (rest : List Header)
    (h : ∀ t rest3, rest ≠ Header.tcp t :: rest3) : peekTcpHeader rest = none := by
  cases hh : rest with
  | nil => rfl
  | cons x rest3 =>
    cases x with
    | ppp => rfl
    | ipv4 a => rfl
    | tcp a => exact absurd hh (h a rest3)
    | udp a => rfl

theorem peekUdpHeader_none (rest : List Header)
    (h : ∀ u rest3, rest ≠ Header.udp u :: rest3) : peekUdpHeader rest = none := by
  cases hh : rest with
  | nil => rfl
  | cons x rest3 =>
    cases x with
    | ppp => rfl
    | ipv4 a => rfl
    | tcp a => rfl
    | udp a => exact absurd hh (h a rest3)

theorem Filter.match_false_of_element (f : Filter) (e : FilterElement) (p : Packet)
    (he : e ∈ f.m_elements) (hm : e.Match p = false) : f.Match p = false := by
  cases hf : f.Match p with
  | false => rfl
  | true =>
    exfalso
    unfold Filter.Match at hf
    have hne : f.m_elements.isEmpty = false := by
      cases hl : f.m_elements with
      | nil => rw [hl] at he; cases he
      | cons x xs => rfl
    rw [hne] at hf
    simp only [Bool.false_eq_true, if_false] at hf
    have := (Filter.matchLoop_all p f.m_elements).1 hf e he
    rw [hm] at this
    cases this

/-- C31: every kind of filter element returns false for a packet whose
outermost header is not the link-layer header, and for a packet without an
IPv4 header behind the link-layer header; the two port elements return false
when the IPv4 protocol is 6 and no TCP header follows, and when it is 17 and
no UDP header follows; `match` is a total function, so nothing is raised; and
a filter that contains an element returning false returns false. -/
theorem element_without_header_is_false (e : FilterElement) (p : Packet) :
    ((∀ rest, p.headers ≠ Header.ppp :: rest) → e.Match p = false) ∧
    (∀ rest, p.headers = Header.ppp :: rest →
      (∀ ip rest2, rest ≠ Header.ipv4 ip :: rest2) → e.Match p = false) ∧
    (∀ (ip : Ipv4Header) (rest2 : List Header) (port : Nat),
      p.headers = Header.ppp :: Header.ipv4 ip :: rest2 →
      (ip.protocol = 6 → (∀ t rest3, rest2 ≠ Header.tcp t :: rest3) →
        (FilterElement.SrcPort port).Match p = false ∧
        (FilterElement.DstPort port).Match p = false) ∧
      (ip.protocol = 17 → (∀ u rest3, rest2 ≠ Header.udp u :: rest3) →
        (FilterElement.SrcPort port).Match p = false ∧
        (FilterElement.DstPort port).Match p = false)) ∧
    (∀ (f : Filter), e ∈ f.m_elements → e.Match p = false → f.Match p = false) := by
  refine ⟨FilterElement.match_false_of_no_ppp e p,
    fun rest hp h => FilterElement.match_false_of_no_ipv4 e p rest hp h, ?_,
    fun f he hm => Filter.match_false_of_element f e p he hm⟩
  intro ip rest2 port hp
  refine ⟨?_, ?_⟩
  · intro h6 hno
    have ht := peekTcpHeader_none rest2 hno
    simp [FilterElement.Match, FilterElementSrcPort.Match, FilterElementDstPort.Match, hp,
      removePppHeader, removeIpv4Header, h6, ht]
  · intro h17 hno
    have hu := peekUdpHeader_none rest2 hno
    simp [FilterElement.Match, FilterElementSrcPort.Match, FilterElementDstPort.Match, hp,
      removePppHeader, removeIpv4Header, h17, hu]

/-- Witness for C31: a destination-port element, and a filter made of it, on
a packet without any header, on one with the link-layer header only, and on
one whose IPv4 header announces UDP without a UDP header behind it. -/
theorem element_without_header_is_false_witness :
    (FilterElement.DstPort 2000).Match (plainPacket 1 64) = false ∧
    (FilterElement.DstPort 2000).Match { ptr := 1, size := 64, headers := [Header.ppp] } =
      false ∧
    ((FilterElement.SrcPort 2000).Match
        { ptr := 1, size := 64,
          headers :=
            [Header.ppp, Header.ipv4 { source := 1, destination := 2, protocol := 17 }] } =
        false ∧
      (FilterElement.DstPort 2000).Match
        { ptr := 1, size := 64,
          headers :=
            [Header.ppp, Header.ipv4 { source := 1, destination := 2, protocol := 17 }] } =
        false) ∧
    Filter.Match { m_elements := [FilterElement.Protocol 17, FilterElement.DstPort 2000] }
      (plainPacket 1 64) = false :=
  ⟨(element_without_header_is_false (FilterElement.DstPort 2000) (plainPacket 1 64)).1
      (by simp [plainPacket]),
    (element_without_header_is_false (FilterElement.DstPort 2000)
      { ptr := 1, size := 64, headers := [Header.ppp] }).2.1 [] rfl (by simp),
    ((element_without_header_is_false (FilterElement.DstPort 2000)
      { ptr := 1, size := 64,
        headers :=
          [Header.ppp, Header.ipv4 { source := 1, destination := 2, protocol := 17 }] }).2.2.1
      { source := 1, destination := 2, protocol := 17 } [] 2000 rfl).2 rfl (by simp),
    (element_without_header_is_false (FilterElement.DstPort 2000) (plainPacket 1 64)).2.2.2
      { m_elements := [FilterElement.Protocol 17, FilterElement.DstPort 2000] } (by simp)
      (by decide)⟩

/-! ## `DRR::Schedule` reads the committed state only -/

/-- C37: two `DRR` objects with the same classes, the same
`m_currentQueueIndex` and the same `m_creditBalance`, whatever values
`m_scheduledQueueIndex` and `m_tempCreditBalance` hold in each: `Schedule`
returns the same packet (or runs out of the same fuel) on both, and when the
class list is not empty it leaves the same object, with the same
`m_scheduledQueueIndex` and `m_tempCreditBalance`; with an empty class list
it returns `nullptr` and writes nothing. -/
theorem schedule_ignores_previous_tentative_state (fuel : Nat) (a b : DRR)
    (hcl : a.m_queueClasses = b.m_queueClasses)
    (hcur : a.m_currentQueueIndex = b.m_currentQueueIndex)
    (hcr : a.m_creditBalance = b.m_creditBalance) :
    (DRR.Schedule fuel a).map Prod.fst = (DRR.Schedule fuel b).map Prod.fst ∧
    (a.m_queueClasses ≠ [] → DRR.Schedule fuel a = DRR.Schedule fuel b) ∧
    (a.m_queueClasses = [] →
      DRR.Schedule fuel a = Except.ok (none, a) ∧
      DRR.Schedule fuel b = Except.ok (none, b)) := by
  obtain ⟨⟨acl⟩, acur, asched, acr, atemp⟩ := a
  obtain ⟨⟨bcl⟩, bcur, bsched, bcr, btemp⟩ := b
  simp only at hcl hcur hcr
  subst hcl; subst hcur; subst hcr
  cases acl with
  | nil =>
    refine ⟨rfl, fun h => absurd rfl h, fun _ => ⟨rfl, rfl⟩⟩
  | cons tc rest =>
    have heq : DRR.Schedule fuel
          { m_queueClasses := tc :: rest, m_currentQueueIndex := acur,
            m_scheduledQueueIndex := asched, m_creditBalance := acr,
            m_tempCreditBalance := atemp } =
        DRR.Schedule fuel
          { m_queueClasses := tc :: rest, m_currentQueueIndex := acur,
            m_scheduledQueueIndex := bsched, m_creditBalance := acr,
            m_tempCreditBalance := btemp } := by
      unfold DRR.Schedule
      simp only [List.isEmpty_cons, Bool.false_eq_true, if_false]
    refine ⟨by rw [heq], fun _ => heq, fun h => by cases h⟩

/-- Witness for C37: the object `twoClassDRR` and the same object after a
`Peek ()`, whose tentative members hold 1 and the balances 900 and 100. -/
theorem schedule_ignores_previous_tentative_state_witness :
    (DRR.Schedule 10 twoClassDRRAfterPeek).map Prod.fst =
        (DRR.Schedule 10 twoClassDRR).map Prod.fst ∧
    (twoClassDRRAfterPeek.m_queueClasses ≠ [] →
      DRR.Schedule 10 twoClassDRRAfterPeek = DRR.Schedule 10 twoClassDRR) ∧
    DRR.Schedule 10 twoClassDRR = Except.ok (some (plainPacket 3 500), twoClassDRRAfterPeek) :=
  ⟨(schedule_ignores_previous_tentative_state 10 twoClassDRRAfterPeek twoClassDRR rfl rfl
      rfl).1,
    (schedule_ignores_previous_tentative_state 10 twoClassDRRAfterPeek twoClassDRR rfl rfl
      rfl).2.1, rfl⟩

/-! ## `Peek` followed by `Dequeue` -/

theorem SPQ.dequeue_of_schedule (self : DiffServ) (hc : AllConsistent self.m_queueClasses) :
    (SPQ.Dequeue self).1 = SPQ.Schedule self := by
  rcases SPQ.schedule_cases self hc with ⟨hnone, _⟩ | ⟨i, tc, p, rest, hi, hne, hq, hs, _⟩
  · simp [SPQ.Dequeue, hnone, DiffServ.DoDequeue]
  · have hpeek : tc.Peek = some p := by simp [TrafficClass.Peek, hne, hq]
    have := DiffServ.dequeueLoop_found p self.m_queueClasses hc i tc hi hne hpeek
    simp [SPQ.Dequeue, hs, DiffServ.DoDequeue, this]

theorem DRR.dequeue_after_schedule (fuel : Nat) (self s1 : DRR) (scheduled : Option Packet)
    (hc : AllConsistent self.m_queueClasses)
    (hs : DRR.Schedule fuel self = Except.ok (scheduled, s1)) :
    ∃ s2, DRR.Dequeue fuel s1 = Except.ok (scheduled, s2) := by
  have hidem := DRR.schedule_idem fuel self s1 scheduled hs
  obtain ⟨hcl, _, _⟩ := DRR.schedule_frame fuel self s1 scheduled hs
  cases scheduled with
  | none =>
    exact ⟨s1, (DRR.dequeue_of_schedule_none fuel s1 s1 hidem).1⟩
  | some pkt =>
    obtain ⟨tc, htc, hne, hpeek⟩ := DRR.schedule_some_head fuel self s1 pkt hs
    have hfound := DiffServ.dequeueLoop_found pkt self.m_queueClasses hc
      s1.m_scheduledQueueIndex tc htc hne hpeek
    have hd : (s1.toDiffServ.DoDequeue (some pkt)).1 = some pkt := by
      simp only [DiffServ.DoDequeue]
      rw [hcl]
      exact hfound
    unfold DRR.Dequeue
    simp only [hidem, hd]
    exact ⟨_, rfl⟩

/-- C36: with every class counter equal to its queue length, a `Peek ()`
that returns a copy `p` is followed by a `Dequeue ()` that returns a packet
whose copy at the same address is `p`, so with the same size and headers, and
a `Peek ()` that returns `nullptr` is followed by a `Dequeue ()` that returns
`nullptr`; on a `DRR` object the `Dequeue ()` is made on the object as the
`Peek ()` left it and returns within the same number of iterations. -/
theorem dequeue_returns_what_peek_showed :
    (∀ (self : DiffServ) (addr : Nat), AllConsistent self.m_queueClasses →
      SPQ.Peek self addr = (SPQ.Dequeue self).1.map (fun d => d.Copy addr) ∧
      (∀ p, SPQ.Peek self addr = some p →
        ∃ d, (SPQ.Dequeue self).1 = some d ∧ d.size = p.size ∧ d.headers = p.headers) ∧
      (SPQ.Peek self addr = none → (SPQ.Dequeue self).1 = none)) ∧
    (∀ (fuel : Nat) (self s1 : DRR) (addr : Nat) (r : Option Packet),
      AllConsistent self.m_queueClasses →
      DRR.Peek fuel self addr = Except.ok (r, s1) →
      ∃ (d : Option Packet) (s2 : DRR), DRR.Dequeue fuel s1 = Except.ok (d, s2) ∧
        r = d.map (fun q => q.Copy addr) ∧
        (∀ p, r = some p → ∃ q, d = some q ∧ q.size = p.size ∧ q.headers = p.headers) ∧
        (r = none → d = none)) := by
  refine ⟨?_, ?_⟩
  · intro self addr hc
    have hd := SPQ.dequeue_of_schedule self hc
    have hpeek : SPQ.Peek self addr = (SPQ.Dequeue self).1.map (fun d => d.Copy addr) := by
      rw [hd]
      unfold SPQ.Peek DiffServ.DoPeek
      cases SPQ.Schedule self <;> rfl
    refine ⟨hpeek, ?_, ?_⟩
    · intro p hp
      rw [hpeek] at hp
      cases hdq : (SPQ.Dequeue self).1 with
      | none => rw [hdq] at hp; cases hp
      | some d =>
        rw [hdq] at hp
        simp only [Option.map_some', Option.some.injEq] at hp
        refine ⟨d, rfl, ?_, ?_⟩ <;> rw [← hp] <;> rfl
    · intro hp
      rw [hpeek] at hp
      cases hdq : (SPQ.Dequeue self).1 with
      | none => rfl
      | some d => rw [hdq] at hp; cases hp
  · intro fuel self s1 addr r hc hp
    unfold DRR.Peek at hp
    cases hs : DRR.Schedule fuel self with
    | error e => rw [hs] at hp; simp at hp
    | ok res =>
      obtain ⟨scheduled, s1'⟩ := res
      rw [hs] at hp
      simp only [Except.ok.injEq, Prod.mk.injEq] at hp
      obtain ⟨hr, hs1⟩ := hp
      subst hs1
      obtain ⟨s2, hdq⟩ := DRR.dequeue_after_schedule fuel self s1' scheduled hc hs
      refine ⟨scheduled, s2, hdq, ?_, ?_, ?_⟩
      · rw [← hr]
        unfold DiffServ.DoPeek
        cases scheduled <;> rfl
      · intro p hrp
        rw [← hr] at hrp
        cases scheduled with
        | none => simp [DiffServ.DoPeek] at hrp
        | some q =>
          simp only [DiffServ.DoPeek, Option.some.injEq] at hrp
          refine ⟨q, rfl, ?_, ?_⟩ <;> rw [← hrp] <;> rfl
      · intro hrn
        rw [← hr] at hrn
        cases scheduled with
        | none => rfl
        | some q => simp [DiffServ.DoPeek] at hrn

/-- Witness for C36: the loaded two-class dispatcher as an `SPQ` object, and
the same classes as a `DRR` object, whose `Peek ()` shows the UDP packet. -/
theorem dequeue_returns_what_peek_showed_witness :
    SPQ.Peek udpTcpLoaded 77 = (SPQ.Dequeue udpTcpLoaded).1.map (fun d => d.Copy 77) ∧
    (∃ (d : Option Packet) (s2 : DRR),
      DRR.Dequeue 5 udpTcpScheduledDRR = Except.ok (d, s2) ∧
      some ((udpPacket 1 400).Copy 77) = d.map (fun q => q.Copy 77) ∧
      (∀ p, some ((udpPacket 1 400).Copy 77) = some p →
        ∃ q, d = some q ∧ q.size = p.size ∧ q.headers = p.headers) ∧
      (some ((udpPacket 1 400).Copy 77) = none → d = none)) :=
  ⟨(dequeue_returns_what_peek_showed.1 udpTcpLoaded 77 (by decide)).1,
    dequeue_returns_what_peek_showed.2 5 udpTcpLoadedDRR udpTcpScheduledDRR 77
      (some ((udpPacket 1 400).Copy 77)) (by decide) rfl⟩

/-! ## Initialisation from the parsed configuration -/

theorem Validation.initializeSPQLoop_classes :
    ∀ (queues : List QueueConfig) (spq : DiffServ),
      (Validation.initializeSPQLoop queues spq).m_queueClasses =
        spq.m_queueClasses ++ queues.map QueueConfig.spqClass := by
  intro queues
  induction queues with
  | nil => intro spq; simp [Validation.initializeSPQLoop]
  | cons q rest ih =>
    intro spq
    simp only [Validation.initializeSPQLoop, ih, List.map_cons]
    simp [DiffServ.AddClass, QueueConfig.spqClass, TrafficClass.AddFilter,
      TrafficClass.SetIsDefault, TrafficClass.SetPriority, TrafficClass.SetMaxPackets,
      TrafficClass.construct, Filter.AddFilterElement, Filter.construct]

theorem Validation.initializeDRRLoop_classes :
    ∀ (queues : List QueueConfig) (drr : DRR),
      (Validation.initializeDRRLoop queues drr).m_queueClasses =
        drr.m_queueClasses ++ queues.map QueueConfig.drrClass ∧
      (Validation.initializeDRRLoop queues drr).m_creditBalance =
        drr.m_creditBalance ++ List.replicate queues.length 0 ∧
      (Validation.initializeDRRLoop queues drr).m_currentQueueIndex =
        drr.m_currentQueueIndex := by
  intro queues
  induction queues with
  | nil => intro drr; simp [Validation.initializeDRRLoop]
  | cons q rest ih =>
    intro drr
    simp only [Validation.initializeDRRLoop, ih, List.map_cons, List.length_cons]
    simp [DRR.AddClass, QueueConfig.drrClass, TrafficClass.AddFilter,
      TrafficClass.SetWeight, TrafficClass.SetMaxPackets,
      TrafficClass.construct, Filter.AddFilterElement, Filter.construct, List.replicate_succ]

/-- C34: on a new object `InitializeSPQ` adds one class per configured queue,
in order, with the configured capacity, priority and default flag and one
filter with one destination-port element, and `InitializeDRR` adds one class
per queue with the configured capacity and weight, the same filter and a zero
balance, but with the default flag false whatever the configuration says:
for a queue configured as default, capacity 50, port 9000 and weight 300 the
class of the `DRR` object is not a default class, while the class of the
`SPQ` object made from the same queue is. -/
theorem drr_initialisation_drops_default_flag :
    (∀ (queues : List QueueConfig),
      (Validation.InitializeSPQ none queues).m_queueClasses =
        queues.map QueueConfig.spqClass) ∧
    (∀ (queues : List QueueConfig) (scheduled : Nat),
      (Validation.InitializeDRR none scheduled queues).m_queueClasses =
        queues.map QueueConfig.drrClass ∧
      (Validation.InitializeDRR none scheduled queues).m_creditBalance =
        List.replicate queues.length 0 ∧
      ∀ tc ∈ (Validation.InitializeDRR none scheduled queues).m_queueClasses,
        tc.IsDefault = false) ∧
    (sampleQueue true 50 9000 0 300).isDefault = true ∧
    (Validation.InitializeDRR none 0 [sampleQueue true 50 9000 0 300]).m_queueClasses =
      [{ m_queue := [], m_filters := [{ m_elements := [FilterElement.DstPort 9000] }],
         m_packets := 0, m_maxPackets := 50, m_weight := 300, m_priority := 0,
         m_isDefault := false }] ∧
    (Validation.InitializeSPQ none [sampleQueue true 50 9000 0 300]).m_queueClasses =
      [{ m_queue := [], m_filters := [{ m_elements := [FilterElement.DstPort 9000] }],
         m_packets := 0, m_maxPackets := 50, m_weight := 0, m_priority := 0,
         m_isDefault := true }] ∧
    (Validation.InitializeDRR none 0 [sampleQueue true 50 9000 0 300]).Classify
      (plainPacket 1 64) = -1 ∧
    (Validation.InitializeSPQ none [sampleQueue true 50 9000 0 300]).Classify
      (plainPacket 1 64) = 0 := by
  refine ⟨?_, ?_, rfl, rfl, rfl, by decide, by decide⟩
  · intro queues
    simp [Validation.InitializeSPQ, Validation.initializeSPQLoop_classes, DiffServ.construct]
  · intro queues scheduled
    obtain ⟨h1, h2, _⟩ := Validation.initializeDRRLoop_classes queues (DRR.construct scheduled)
    have hc : (Validation.InitializeDRR none scheduled queues).m_queueClasses =
        queues.map QueueConfig.drrClass := by
      unfold Validation.InitializeDRR
      rw [h1]
      simp [DRR.construct]
    refine ⟨hc, ?_, ?_⟩
    · unfold Validation.InitializeDRR
      rw [h2]
      simp [DRR.construct]
    · intro tc htc
      rw [hc] at htc
      obtain ⟨q, _, hq⟩ := List.mem_map.1 htc
      rw [← hq]
      rfl

/-! ## Draining an `SPQ` object -/

theorem queuedPackets_cons (c : TrafficClass) (rest : List TrafficClass) :
    queuedPackets (c :: rest) = c.m_queue ++ queuedPackets rest := by
  simp [queuedPackets]

theorem queuedPackets_mem (l : List TrafficClass) (c : TrafficClass) (p : Packet)
    (hc : c ∈ l) (hp : p ∈ c.m_queue) : p ∈ queuedPackets l := by
  simp only [queuedPackets, List.mem_flatten, List.mem_map]
  exact ⟨c.m_queue, ⟨c, hc, rfl⟩, hp⟩

theorem DiffServ.dequeueLoop_pop (packet : Packet) :
    ∀ (l : List TrafficClass), AllConsistent l →
      ∀ (i : Nat) (tc : TrafficClass), l[i]? = some tc → tc.IsEmpty = false →
        tc.Peek = some packet →
        (DiffServ.dequeueLoop packet l).1 = some packet ∧
        AllConsistent (DiffServ.dequeueLoop packet l).2 ∧
        (∀ c ∈ (DiffServ.dequeueLoop packet l).2, ∃ c' ∈ l, c.GetPriority = c'.GetPriority) ∧
        (queuedPackets l).Perm (packet :: queuedPackets (DiffServ.dequeueLoop packet l).2) := by
  intro l
  induction l with
  | nil => intro _ i tc h; simp at h
  | cons c rest ih =>
    intro hc i tc h hne hpeek
    have hrest : AllConsistent rest := fun c' hc' => hc c' (List.mem_cons_of_mem _ hc')
    by_cases hsel : (!c.IsEmpty && c.Peek == some packet) = true
    · simp only [DiffServ.dequeueLoop, hsel, if_true]
      simp only [Bool.and_eq_true, Bool.not_eq_true', beq_iff_eq] at hsel
      have hcc := hc c (List.mem_cons_self _ _)
      obtain ⟨q, rest', hq, hpeek', hdeq⟩ := TrafficClass.consistent_nonempty c hcc hsel.1
      rw [hsel.2] at hpeek'
      simp only [Option.some.injEq] at hpeek'
      subst hpeek'
      rw [hdeq]
      refine ⟨rfl, ?_, ?_, ?_⟩
      · intro c' hc'
        rcases List.mem_cons.1 hc' with h1 | h1
        · rw [h1]
          refine TrafficClass.withQueue_consistent c rest' ?_
          have := hcc.2
          rw [hq] at this
          simp only [List.length_cons] at this
          omega
        · exact hrest c' h1
      · intro c' hc'
        rcases List.mem_cons.1 hc' with h1 | h1
        · exact ⟨c, List.mem_cons_self _ _, by rw [h1]; rfl⟩
        · exact ⟨c', List.mem_cons_of_mem _ h1, rfl⟩
      · rw [queuedPackets_cons, queuedPackets_cons, hq]
        exact List.Perm.refl _
    · simp only [DiffServ.dequeueLoop, hsel, Bool.false_eq_true, if_false]
      cases i with
      | zero =>
        simp at h; subst h
        simp [hne, hpeek] at hsel
      | succ n =>
        simp only [List.getElem?_cons_succ] at h
        obtain ⟨h1, h2, h3, h4⟩ := ih hrest n tc h hne hpeek
        refine ⟨h1, ?_, ?_, ?_⟩
        · intro c' hc'
          rcases List.mem_cons.1 hc' with h5 | h5
          · rw [h5]; exact hc c (List.mem_cons_self _ _)
          · exact h2 c' h5
        · intro c' hc'
          rcases List.mem_cons.1 hc' with h5 | h5
          · exact ⟨c, List.mem_cons_self _ _, by rw [h5]⟩
          · obtain ⟨c'', hc'', he⟩ := h3 c' h5
            exact ⟨c'', List.mem_cons_of_mem _ hc'', he⟩
        · rw [queuedPackets_cons, queuedPackets_cons]
          exact (List.Perm.append_left c.m_queue h4).trans List.perm_middle

theorem SPQ.dequeue_pop (self : DiffServ) (hc : AllConsistent self.m_queueClasses)
    (hprio : ∀ c ∈ self.m_queueClasses, c.GetPriority < UINT32_MAX)
    (hne : queuedPackets self.m_queueClasses ≠ []) :
    ∃ p, (SPQ.Dequeue self).1 = some p ∧
      AllConsistent (SPQ.Dequeue self).2.m_queueClasses ∧
      (∀ c ∈ (SPQ.Dequeue self).2.m_queueClasses, c.GetPriority < UINT32_MAX) ∧
      (queuedPackets self.m_queueClasses).Perm
        (p :: queuedPackets (SPQ.Dequeue self).2.m_queueClasses) := by
  have hex : ∃ c ∈ self.m_queueClasses, c.IsEmpty = false := by
    by_contra hno
    apply hne
    simp only [not_exists, not_and, Bool.not_eq_false] at hno
    have hall : ∀ c ∈ self.m_queueClasses, c.m_queue = [] := by
      intro c hcm
      have h1 := hno c hcm
      have h2 := (hc c hcm).1
      simp only [TrafficClass.IsEmpty, beq_iff_eq] at h1
      rw [h1] at h2
      exact List.length_eq_zero.1 h2.symm
    simp only [queuedPackets, List.flatten_eq_nil_iff, List.mem_map]
    rintro q ⟨c, hcm, rfl⟩
    exact hall c hcm
  obtain ⟨i, tc, p, rest, hi, hnon, hq, hs, _⟩ := SPQ.schedule_selects_min self hc hprio hex
  have hpeek : tc.Peek = some p := by simp [TrafficClass.Peek, hnon, hq]
  obtain ⟨h1, h2, h3, h4⟩ := DiffServ.dequeueLoop_pop p self.m_queueClasses hc i tc hi hnon hpeek
  refine ⟨p, ?_, ?_, ?_, ?_⟩
  · simp [SPQ.Dequeue, hs, DiffServ.DoDequeue, h1]
  · simpa [SPQ.Dequeue, hs, DiffServ.DoDequeue] using h2
  · intro c hcm
    have hcm' : c ∈ (DiffServ.dequeueLoop p self.m_queueClasses).2 := by
      simpa [SPQ.Dequeue, hs, DiffServ.DoDequeue] using hcm
    obtain ⟨c', hc', he⟩ := h3 c hcm'
    rw [he]
    exact hprio c' hc'
  · simpa [SPQ.Dequeue, hs, DiffServ.DoDequeue] using h4

theorem SPQ.dequeue_of_nothing_queued (self : DiffServ)
    (hc : AllConsistent self.m_queueClasses)
    (hq : queuedPackets self.m_queueClasses = []) : (SPQ.Dequeue self).1 = none := by
  rw [SPQ.dequeue_of_schedule self hc]
  rcases SPQ.schedule_cases self hc with ⟨hnone, _⟩ | ⟨i, tc, p, rest, hi, _, hqq, _, _⟩
  · exact hnone
  · have hmem : p ∈ queuedPackets self.m_queueClasses :=
      queuedPackets_mem self.m_queueClasses tc p (List.getElem?_mem hi) (by rw [hqq]; simp)
    rw [hq] at hmem
    cases hmem

theorem SPQ.dequeueTimes_drains :
    ∀ (n : Nat) (self : DiffServ), AllConsistent self.m_queueClasses →
      (∀ c ∈ self.m_queueClasses, c.GetPriority < UINT32_MAX) →
      (queuedPackets self.m_queueClasses).length = n →
      ∃ ps : List Packet, (SPQ.dequeueTimes n self).1 = ps.map some ∧
        ps.Perm (queuedPackets self.m_queueClasses) ∧
        queuedPackets (SPQ.dequeueTimes n self).2.m_queueClasses = [] ∧
        (SPQ.Dequeue (SPQ.dequeueTimes n self).2).1 = none := by
  intro n
  induction n with
  | zero =>
    intro self hc _ hlen
    have hq : queuedPackets self.m_queueClasses = [] := List.length_eq_zero.1 hlen
    refine ⟨[], rfl, ?_, hq, SPQ.dequeue_of_nothing_queued self hc hq⟩
    rw [hq]
  | succ n ih =>
    intro self hc hprio hlen
    have hne : queuedPackets self.m_queueClasses ≠ [] := by
      intro h
      rw [h] at hlen
      cases hlen
    obtain ⟨p, h1, h2, h3, h4⟩ := SPQ.dequeue_pop self hc hprio hne
    have hlen' : (queuedPackets (SPQ.Dequeue self).2.m_queueClasses).length = n := by
      have := h4.length_eq
      simp only [List.length_cons] at this
      omega
    obtain ⟨ps, g1, g2, g3, g4⟩ := ih (SPQ.Dequeue self).2 h2 h3 hlen'
    refine ⟨p :: ps, ?_, ?_, ?_, ?_⟩
    · simp only [SPQ.dequeueTimes, h1, g1, List.map_cons]
    · exact (List.Perm.cons p g2).trans h4.symm
    · simpa only [SPQ.dequeueTimes] using g3
    · simpa only [SPQ.dequeueTimes] using g4

/-- C38: an `SPQ` object whose class counters equal the queue lengths, whose
priorities are all below `2 ^ 32 - 1` and which holds `n` packets in all: `n`
successive `Dequeue ()` calls all return a packet, the packets returned are
the queued packets, each as often as it was queued, no class holds a packet
afterwards, and the next `Dequeue ()` returns `nullptr`. -/
theorem spq_drains_every_packet_once (self : DiffServ) (n : Nat)
    (hc : AllConsistent self.m_queueClasses)
    (hprio : ∀ c ∈ self.m_queueClasses, c.GetPriority < 2 ^ 32 - 1)
    (hn : (queuedPackets self.m_queueClasses).length = n) :
    ∃ ps : List Packet, (SPQ.dequeueTimes n self).1 = ps.map some ∧
      ps.length = n ∧
      ps.Perm (queuedPackets self.m_queueClasses) ∧
      queuedPackets (SPQ.dequeueTimes n self).2.m_queueClasses = [] ∧
      (SPQ.Dequeue (SPQ.dequeueTimes n self).2).1 = none := by
  obtain ⟨ps, h1, h2, h3, h4⟩ := SPQ.dequeueTimes_drains n self hc
    (fun c hcm => by have := hprio c hcm; simpa [UINT32_MAX] using this) hn
  exact ⟨ps, h1, by rw [h2.length_eq, hn], h2, h3, h4⟩

/-- Witness for C38: the dispatcher that holds a UDP packet in the class of
priority 1 and a TCP packet in the class of priority 0. -/
theorem spq_drains_every_packet_once_witness :
    ∃ ps : List Packet, (SPQ.dequeueTimes 2 udpTcpLoaded).1 = ps.map some ∧
      ps.length = 2 ∧
      ps.Perm (queuedPackets udpTcpLoaded.m_queueClasses) ∧
      queuedPackets (SPQ.dequeueTimes 2 udpTcpLoaded).2.m_queueClasses = [] ∧
      (SPQ.Dequeue (SPQ.dequeueTimes 2 udpTcpLoaded).2).1 = none :=
  spq_drains_every_packet_once udpTcpLoaded 2 (by decide) (by decide) (by decide)

/-! ## The class at the cursor -/

theorem DRR.schedule_at_cursor (fuel : Nat) (self : DRR) (tc : TrafficClass) (head : Packet)
    (c : Nat) (htc : self.m_queueClasses[self.m_currentQueueIndex]? = some tc)
    (hne : tc.IsEmpty = false) (hpeek : tc.Peek = some head)
    (hcr : self.m_creditBalance[self.m_currentQueueIndex]? = some c)
    (hle : head.size ≤ c + tc.GetWeight) (hnw : c + tc.GetWeight < 2 ^ 32) :
    DRR.Schedule (fuel + 1) self =
      Except.ok (some head,
        { self with
          m_scheduledQueueIndex := self.m_currentQueueIndex
          m_tempCreditBalance :=
            self.m_creditBalance.set self.m_currentQueueIndex
              (c + tc.GetWeight - head.size) }) := by
  have hmem : tc ∈ self.m_queueClasses := List.getElem?_mem htc
  have hnotnil : self.m_queueClasses.isEmpty = false := by
    cases hl : self.m_queueClasses with
    | nil => rw [hl] at hmem; cases hmem
    | cons _ _ => rfl
  have hcount : ¬ DRR.emptyQueueCount self.m_queueClasses = self.m_queueClasses.length := by
    intro hall
    have := (DRR.emptyQueueCount_eq_length _).1 hall tc hmem
    rw [hne] at this
    cases this
  have hmod : (tc.GetWeight + c) % 2 ^ 32 = c + tc.GetWeight := by
    rw [Nat.add_comm, Nat.mod_eq_of_lt hnw]
  have hloop := DRR.scheduleLoop_step_select self.m_queueClasses fuel
    self.m_currentQueueIndex self.m_creditBalance tc c head htc hne hcr hpeek
    (by rw [hmod]; exact hle)
  rw [hmod] at hloop
  unfold DRR.Schedule
  simp only [hnotnil, Bool.false_eq_true, if_false, hcount, hloop]

theorem DRR.dequeue_at_cursor (fuel : Nat) (s : DRR) (tc : TrafficClass) (head : Packet)
    (q : List Packet) (c : Nat)
    (htc : s.m_queueClasses[s.m_currentQueueIndex]? = some (tc.withQueue (head :: q)))
    (hlen : (head :: q).length < 2 ^ 32)
    (hcr : s.m_creditBalance[s.m_currentQueueIndex]? = some c)
    (hle : head.size ≤ c + tc.m_weight) (hnw : c + tc.m_weight < 2 ^ 32)
    (hfirst : ∀ (j : Nat) (cj : TrafficClass), j < s.m_currentQueueIndex →
      s.m_queueClasses[j]? = some cj → cj.IsEmpty = false → cj.Peek ≠ some head) :
    DRR.Dequeue (fuel + 1) s =
      Except.ok (some head,
        { m_queueClasses := s.m_queueClasses.set s.m_currentQueueIndex (tc.withQueue q)
          m_currentQueueIndex := s.m_currentQueueIndex
          m_scheduledQueueIndex := s.m_currentQueueIndex
          m_creditBalance :=
            s.m_creditBalance.set s.m_currentQueueIndex (c + tc.m_weight - head.size)
          m_tempCreditBalance :=
            s.m_creditBalance.set s.m_currentQueueIndex (c + tc.m_weight - head.size) }) := by
  have hne := TrafficClass.withQueue_cons_isEmpty tc head q
  have hpeek := TrafficClass.withQueue_cons_peek tc head q
  have hmod : ((tc.withQueue (head :: q)).GetWeight + c) % 2 ^ 32 = c + tc.m_weight := by
    rw [TrafficClass.withQueue_weight, Nat.add_comm, Nat.mod_eq_of_lt hnw]
  have hloop := DRR.scheduleLoop_step_select s.m_queueClasses fuel
    s.m_currentQueueIndex s.m_creditBalance (tc.withQueue (head :: q)) c head htc hne hcr hpeek
    (by rw [hmod]; exact hle)
  rw [hmod] at hloop
  have hdq := DiffServ.dequeueLoop_at head s.m_queueClasses s.m_currentQueueIndex
    (tc.withQueue (head :: q)) htc hne hpeek hfirst
  rw [TrafficClass.withQueue_cons_dequeue tc head q hlen] at hdq
  exact DRR.dequeue_of_loop (fuel + 1) s head head s.m_currentQueueIndex _ _
    ⟨_, List.getElem?_mem htc, hne⟩ hloop hdq

theorem DRR.dequeueTimes_at_cursor (fuel : Nat) (tc : TrafficClass) :
    ∀ (q : List Packet) (s : DRR) (c : Nat),
      s.m_queueClasses[s.m_currentQueueIndex]? = some (tc.withQueue q) →
      q.length < 2 ^ 32 →
      s.m_creditBalance[s.m_currentQueueIndex]? = some c →
      (∀ x ∈ q, x.size ≤ tc.m_weight) → c + q.length * tc.m_weight < 2 ^ 32 →
      (∀ x ∈ q, ∀ (j : Nat) (cj : TrafficClass), j < s.m_currentQueueIndex →
        s.m_queueClasses[j]? = some cj → cj.IsEmpty = false → cj.Peek ≠ some x) →
      ∃ s', DRR.dequeueTimes (fuel + 1) q.length s = Except.ok (q.map some, s') ∧
        s'.m_queueClasses = s.m_queueClasses.set s.m_currentQueueIndex (tc.withQueue []) ∧
        s'.m_currentQueueIndex = s.m_currentQueueIndex := by
  intro q
  induction q with
  | nil =>
    intro s c htc _ _ _ _ _
    exact ⟨s, rfl, (set_same _ _ _ htc).symm, rfl⟩
  | cons head rest ih =>
    intro s c htc hlen hcr hsize hnw hfirst
    have hmul : (rest.length + 1) * tc.m_weight = rest.length * tc.m_weight + tc.m_weight := by
      ring
    simp only [List.length_cons] at hnw
    rw [hmul] at hnw
    have hhead : head.size ≤ tc.m_weight := hsize head (List.mem_cons_self _ _)
    have hd := DRR.dequeue_at_cursor fuel s tc head rest c htc hlen hcr (by omega) (by omega)
      (hfirst head (List.mem_cons_self _ _))
    have hcurlt : s.m_currentQueueIndex < s.m_queueClasses.length := by
      by_contra hge
      rw [List.getElem?_eq_none (by omega)] at htc
      cases htc
    have hcrlt : s.m_currentQueueIndex < s.m_creditBalance.length := by
      by_contra hge
      rw [List.getElem?_eq_none (by omega)] at hcr
      cases hcr
    obtain ⟨s', h1, h2, h3⟩ := ih
      { m_queueClasses := s.m_queueClasses.set s.m_currentQueueIndex (tc.withQueue rest)
        m_currentQueueIndex := s.m_currentQueueIndex
        m_scheduledQueueIndex := s.m_currentQueueIndex
        m_creditBalance :=
          s.m_creditBalance.set s.m_currentQueueIndex (c + tc.m_weight - head.size)
        m_tempCreditBalance :=
          s.m_creditBalance.set s.m_currentQueueIndex (c + tc.m_weight - head.size) }
      (c + tc.m_weight - head.size)
      (by simp [hcurlt])
      (by simp only [List.length_cons] at hlen; omega)
      (by simp [hcrlt])
      (fun x hx => hsize x (List.mem_cons_of_mem _ hx))
      (by omega)
      (by
        intro x hx j cj hj hcj
        have hcj' : s.m_queueClasses[j]? = some cj := by
          simp only at hj hcj
          rw [List.getElem?_set_ne (by omega)] at hcj
          exact hcj
        exact hfirst x (List.mem_cons_of_mem _ hx) j cj hj hcj')
    refine ⟨s', ?_, ?_, ?_⟩
    · simp only [List.length_cons, DRR.dequeueTimes, hd, h1, List.map_cons]
    · rw [h2]
      simp [List.set_set]
    · rw [h3]

/-- C35, amended: when the class at `m_currentQueueIndex` is not empty and
its balance plus its weight is below `2 ^ 32` and at least the size of its
head packet, `Schedule` returns that head packet in its first iteration with
`m_scheduledQueueIndex = m_currentQueueIndex`, only the balance of that class
being changed; and when the weight is at least the size of every packet
queued in that class (the balance plus one weight per packet staying within
`uint32_t`, and no packet of the class being at the head of an earlier
class), as many `Dequeue ()` calls as the class holds packets return exactly
its packets, in order, and leave the cursor where it was, whatever the other
classes hold and weigh. -/
theorem cursor_class_is_served_first (fuel : Nat) (self : DRR) (tc : TrafficClass) (c : Nat)
    (htc : self.m_queueClasses[self.m_currentQueueIndex]? = some tc)
    (hcr : self.m_creditBalance[self.m_currentQueueIndex]? = some c) :
    (∀ head, tc.IsEmpty = false → tc.Peek = some head →
      head.size ≤ c + tc.GetWeight → c + tc.GetWeight < 2 ^ 32 →
      DRR.Schedule (fuel + 1) self =
        Except.ok (some head,
          { self with
            m_scheduledQueueIndex := self.m_currentQueueIndex
            m_tempCreditBalance :=
              self.m_creditBalance.set self.m_currentQueueIndex
                (c + tc.GetWeight - head.size) })) ∧
    (tc.Consistent → (∀ x ∈ tc.m_queue, x.size ≤ tc.GetWeight) →
      c + tc.m_queue.length * tc.GetWeight < 2 ^ 32 →
      (∀ x ∈ tc.m_queue, ∀ (j : Nat) (cj : TrafficClass), j < self.m_currentQueueIndex →
        self.m_queueClasses[j]? = some cj → cj.IsEmpty = false → cj.Peek ≠ some x) →
      ∃ s', DRR.dequeueTimes (fuel + 1) tc.m_queue.length self =
          Except.ok (tc.m_queue.map some, s') ∧
        s'.m_queueClasses =
          self.m_queueClasses.set self.m_currentQueueIndex (tc.withQueue []) ∧
        s'.m_currentQueueIndex = self.m_currentQueueIndex) := by
  refine ⟨?_, ?_⟩
  · intro head hne hpeek hle hnw
    exact DRR.schedule_at_cursor fuel self tc head c htc hne hpeek hcr hle hnw
  · intro hcons hsize hnw hfirst
    have heq := TrafficClass.consistent_eq_withQueue tc hcons
    rw [heq] at htc
    exact DRR.dequeueTimes_at_cursor fuel tc tc.m_queue self c htc hcons.2 hcr hsize hnw hfirst

/-- Witness for C35, amended: two classes of weight 2000 with three packets of 1000
bytes each: three `Dequeue ()` calls return the three packets of class 0
while class 1 keeps its three packets. -/
theorem cursor_class_is_served_first_witness :
    ∃ s', DRR.dequeueTimes (0 + 1)
          (plainClass [plainPacket 1 1000, plainPacket 2 1000, plainPacket 3 1000]
            2000 0).m_queue.length heavyWeightDRR =
        Except.ok
          ((plainClass [plainPacket 1 1000, plainPacket 2 1000, plainPacket 3 1000]
            2000 0).m_queue.map some, s') ∧
      s'.m_queueClasses =
        heavyWeightDRR.m_queueClasses.set heavyWeightDRR.m_currentQueueIndex
          ((plainClass [plainPacket 1 1000, plainPacket 2 1000, plainPacket 3 1000]
            2000 0).withQueue []) ∧
      s'.m_currentQueueIndex = heavyWeightDRR.m_currentQueueIndex :=
  (cursor_class_is_served_first 0 heavyWeightDRR
    (plainClass [plainPacket 1 1000, plainPacket 2 1000, plainPacket 3 1000] 2000 0) 0
    rfl rfl).2 (by decide) (by decide) (by decide)
    (fun _ _ j _ hj => absurd hj (Nat.not_lt_zero j))

/-! ## The round-robin walk of `DRR::Schedule` -/

theorem DRR.walk_succ (n idx t : Nat) :
    DRR.walk n idx (t + 1) = idx :: DRR.walk n ((idx + 1) % n) t := rfl

theorem DRR.walk_getLast (n idx t : Nat) :
    (DRR.walk n idx (t + 2)).getLast? = (DRR.walk n ((idx + 1) % n) (t + 1)).getLast? := by
  rw [DRR.walk_succ n idx (t + 1), DRR.walk_succ n ((idx + 1) % n) t, List.getLast?_cons_cons]

theorem DRR.walk_count (n idx t i : Nat) :
    (DRR.walk n idx (t + 1)).count i =
      (if idx = i then 1 else 0) + (DRR.walk n ((idx + 1) % n) t).count i := by
  rw [DRR.walk_succ, List.count_cons, Nat.add_comm]
  simp

theorem DRR.walk_length (n : Nat) : ∀ (t idx : Nat), (DRR.walk n idx t).length = t := by
  intro t
  induction t with
  | zero => intro idx; rfl
  | succ t ih => intro idx; rw [DRR.walk_succ, List.length_cons, ih]

theorem DRR.walk_getElem (n : Nat) :
    ∀ (t idx j : Nat), idx < n → j < t →
      (DRR.walk n idx t)[j]? = some ((idx + j) % n) := by
  intro t
  induction t with
  | zero => intro idx j _ hj; omega
  | succ t ih =>
    intro idx j hidx hj
    rw [DRR.walk_succ]
    cases j with
    | zero =>
      simp [Nat.mod_eq_of_lt hidx]
    | succ j =>
      rw [List.getElem?_cons_succ, ih ((idx + 1) % n) j (Nat.mod_lt _ (by omega)) (by omega),
        Nat.mod_add_mod]
      congr 2
      omega

theorem DRR.noWrap_set (ql : List TrafficClass) (temp : List Nat) (idx : Nat)
    (tc : TrafficClass) (head : Packet) (credit : Nat) (hnw : DRR.NoWrap ql temp)
    (hq : ql[idx]? = some tc) (hp : tc.Peek = some head) (ht : temp[idx]? = some credit)
    (hshort : credit + tc.GetWeight < head.size) :
    DRR.NoWrap ql (temp.set idx (credit + tc.GetWeight)) := by
  intro i tci h c hi hpk hc
  by_cases hidx : i = idx
  · subst hidx
    rw [hq] at hi
    cases hi
    rw [hp] at hpk
    cases hpk
    have hlt : i < temp.length := by
      by_contra hge
      rw [List.getElem?_eq_none (by omega)] at ht
      cases ht
    have hc' : c = credit + tc.GetWeight := by
      simp [hlt] at hc
      exact hc.symm
    have := hnw i tc head credit hq hp ht
    omega
  · have hc' : temp[i]? = some c := by
      rw [List.getElem?_set_ne (fun h => hidx h.symm)] at hc
      exact hc
    exact hnw i tci h c hi hpk hc'

theorem DRR.scheduleLoop_walk (ql : List TrafficClass) :
    ∀ (fuel idx : Nat) (temp : List Nat) (pkt : Packet) (idx' : Nat) (temp' : List Nat),
      DRR.NoWrap ql temp →
      DRR.scheduleLoop ql fuel idx temp = Except.ok (pkt, idx', temp') →
      ∃ t, t < fuel ∧ (DRR.walk ql.length idx (t + 1)).getLast? = some idx' ∧
        temp'.length = temp.length ∧
        ∀ (i : Nat) (tci : TrafficClass) (c : Nat), ql[i]? = some tci → temp[i]? = some c →
          (tci.IsEmpty = true → temp'[i]? = some c) ∧
          (tci.IsEmpty = false → i ≠ idx' →
            temp'[i]? =
              some (c + (DRR.walk ql.length idx (t + 1)).count i * tci.GetWeight) ∧
            (0 < (DRR.walk ql.length idx (t + 1)).count i → ∀ h, tci.Peek = some h →
              c + (DRR.walk ql.length idx (t + 1)).count i * tci.GetWeight < h.size)) ∧
          (i = idx' →
            1 ≤ (DRR.walk ql.length idx (t + 1)).count i ∧
            pkt.size ≤ c + (DRR.walk ql.length idx (t + 1)).count i * tci.GetWeight ∧
            temp'[i]? =
              some (c + (DRR.walk ql.length idx (t + 1)).count i * tci.GetWeight - pkt.size) ∧
            ((2 ≤ (DRR.walk ql.length idx (t + 1)).count i ∨
                (tci.GetWeight ≤ c ∧ c < pkt.size)) →
              c + (DRR.walk ql.length idx (t + 1)).count i * tci.GetWeight - pkt.size <
                pkt.size)) := by
  intro fuel
  induction fuel with
  | zero => intro idx temp pkt idx' temp' _ h; simp [DRR.scheduleLoop] at h
  | succ n ih =>
    intro idx temp pkt idx' temp' hnw h
    obtain ⟨tcw, hw1, hw2, hw3⟩ := DRR.scheduleLoop_ok_head ql (n + 1) idx temp pkt idx' temp' h
    cases hq : ql[idx]? with
    | none => unfold DRR.scheduleLoop at h; rw [hq] at h; simp at h
    | some tc =>
      by_cases hne : tc.IsEmpty = false
      · cases ht : temp[idx]? with
        | none =>
          unfold DRR.scheduleLoop at h
          rw [hq] at h
          simp only [hne, Bool.not_false, if_true, ht] at h
          cases h
        | some credit =>
          cases hp : tc.Peek with
          | none =>
            unfold DRR.scheduleLoop at h
            rw [hq] at h
            simp only [hne, Bool.not_false, if_true, ht, hp] at h
            cases h
          | some head =>
            obtain ⟨hnw1, hnw2⟩ := hnw idx tc head credit hq hp ht
            have hmod : (tc.GetWeight + credit) % 2 ^ 32 = credit + tc.GetWeight := by
              rw [Nat.add_comm, Nat.mod_eq_of_lt hnw1]
            have hidxlt : idx < temp.length := by
              by_contra hge
              rw [List.getElem?_eq_none (by omega)] at ht
              cases ht
            by_cases hle : head.size ≤ credit + tc.GetWeight
            · rw [DRR.scheduleLoop_step_select ql n idx temp tc credit head hq hne ht hp
                (by rw [hmod]; exact hle), hmod] at h
              simp only [Except.ok.injEq, Prod.mk.injEq] at h
              obtain ⟨h1, h2, h3⟩ := h
              subst h1; subst h2; subst h3
              refine ⟨0, (by omega), (by simp [DRR.walk]), (by simp), ?_⟩
              intro i tci c hi hc
              have hcount : (DRR.walk ql.length idx (0 + 1)).count i =
                  if idx = i then 1 else 0 := by
                rw [DRR.walk_count]
                simp [DRR.walk]
              rw [hcount]
              by_cases hii : idx = i
              · subst hii
                rw [hq] at hi
                cases hi
                rw [ht] at hc
                cases hc
                simp only [if_true, Nat.one_mul]
                refine ⟨?_, ?_, ?_⟩
                · intro he
                  rw [hne] at he
                  cases he
                · intro _ hx
                  exact absurd rfl hx
                · intro _
                  refine ⟨le_refl _, hle, ?_, ?_⟩
                  · simp [hidxlt]
                  · intro hcase
                    omega
              · have hget : (temp.set idx (credit + tc.GetWeight - head.size))[i]? =
                    some c := by
                  rw [List.getElem?_set_ne hii]
                  exact hc
                simp only [if_neg hii, Nat.zero_mul, Nat.add_zero]
                refine ⟨?_, ?_, ?_⟩
                · intro _
                  exact hget
                · intro _ _
                  refine ⟨hget, ?_⟩
                  intro hx
                  omega
                · intro hx
                  exact absurd hx.symm hii
            · have hshort : credit + tc.GetWeight < head.size := by omega
              rw [DRR.scheduleLoop_step_short ql n idx temp tc credit head hq hne ht hp
                (by rw [hmod]; exact hle), hmod] at h
              have hnw' := DRR.noWrap_set ql temp idx tc head credit hnw hq hp ht hshort
              obtain ⟨t, htn, hlast, hlen, hall⟩ := ih _ _ pkt idx' temp' hnw' h
              refine ⟨t + 1, (by omega), (by rw [DRR.walk_getLast]; exact hlast),
                (by simpa using hlen), ?_⟩
              intro i tci c hi hc
              rw [DRR.walk_count ql.length idx (t + 1) i]
              by_cases hii : idx = i
              · subst hii
                rw [hq] at hi
                cases hi
                rw [ht] at hc
                cases hc
                obtain ⟨_, a2, a3⟩ := hall idx tc (credit + tc.GetWeight) hq
                  (by simp [hidxlt])
                generalize (DRR.walk ql.length ((idx + 1) % ql.length) (t + 1)).count idx = k
                  at a2 a3
                have hmul : (1 + k) * tc.GetWeight = tc.GetWeight + k * tc.GetWeight := by
                  ring
                simp only [if_true, hmul]
                refine ⟨?_, ?_, ?_⟩
                · intro he
                  rw [hne] at he
                  cases he
                · intro _ hx
                  obtain ⟨b1, b2⟩ := a2 hne hx
                  refine ⟨?_, ?_⟩
                  · rw [b1]
                    congr 1
                    omega
                  intro _ hd hhd
                  rw [hp] at hhd
                  cases hhd
                  by_cases hk : 0 < k
                  · have := b2 hk head hp
                    omega
                  · have hk0 : k = 0 := by omega
                    subst hk0
                    omega
                · intro hx
                  obtain ⟨c1, c2, c3, c4⟩ := a3 hx
                  have hpkt : pkt = head := by
                    rw [← hx, hq] at hw1
                    cases hw1
                    rw [hp] at hw3
                    cases hw3
                    rfl
                  subst hpkt
                  have c5 := c4 (Or.inr ⟨by omega, hshort⟩)
                  refine ⟨?_, ?_, ?_, ?_⟩
                  · omega
                  · omega
                  · rw [c3]
                    congr 1
                    omega
                  · intro _
                    omega
              · have hget : (temp.set idx (credit + tc.GetWeight))[i]? = temp[i]? :=
                  List.getElem?_set_ne hii
                have := hall i tci c hi (by rw [hget]; exact hc)
                simpa only [if_neg hii, Nat.zero_add] using this
      · simp only [Bool.not_eq_false] at hne
        rw [DRR.scheduleLoop_step_empty ql n idx temp tc hq hne] at h
        obtain ⟨t, htn, hlast, hlen, hall⟩ := ih _ _ pkt idx' temp' hnw h
        refine ⟨t + 1, (by omega), (by rw [DRR.walk_getLast]; exact hlast), hlen, ?_⟩
        intro i tci c hi hc
        obtain ⟨a1, a2, a3⟩ := hall i tci c hi hc
        rw [DRR.walk_count ql.length idx (t + 1) i]
        by_cases hii : idx = i
        · subst hii
          rw [hq] at hi
          cases hi
          refine ⟨a1, ?_, ?_⟩
          · intro he
            rw [hne] at he
            cases he
          · intro hx
            exfalso
            rw [← hx, hq] at hw1
            cases hw1
            rw [hne] at hw2
            cases hw2
        · simpa only [if_neg hii, Nat.zero_add] using ⟨a1, a2, a3⟩

theorem DRR.walk_eq_map (n t idx : Nat) (hidx : idx < n) :
    DRR.walk n idx t = (List.range t).map (fun j => (idx + j) % n) := by
  apply List.ext_getElem?
  intro j
  by_cases hj : j < t
  · rw [DRR.walk_getElem n t idx j hidx hj]
    simp [List.getElem?_range hj]
  · rw [List.getElem?_eq_none (by rw [DRR.walk_length]; omega),
      List.getElem?_eq_none (by simp; omega)]

theorem DRR.walk_last (n t idx : Nat) (hidx : idx < n) :
    (DRR.walk n idx (t + 1)).getLast? = some ((idx + t) % n) := by
  rw [List.getLast?_eq_getElem?, DRR.walk_length]
  exact DRR.walk_getElem n (t + 1) idx t hidx (by omega)

theorem DRR.scheduleLoop_ok_idx_lt (ql : List TrafficClass) (fuel idx : Nat) (temp : List Nat)
    (res : Packet × Nat × List Nat)
    (h : DRR.scheduleLoop ql fuel idx temp = Except.ok res) : idx < ql.length := by
  cases fuel with
  | zero => simp [DRR.scheduleLoop] at h
  | succ n =>
    by_contra hge
    unfold DRR.scheduleLoop at h
    rw [List.getElem?_eq_none (by omega)] at h
    cases h

theorem DRR.schedule_some_loop (fuel : Nat) (self s1 : DRR) (pkt : Packet)
    (h : DRR.Schedule fuel self = Except.ok (some pkt, s1)) :
    ∃ (idx : Nat) (temp : List Nat),
      DRR.scheduleLoop self.m_queueClasses fuel self.m_currentQueueIndex
        self.m_creditBalance = Except.ok (pkt, idx, temp) ∧
      s1.m_scheduledQueueIndex = idx ∧ s1.m_tempCreditBalance = temp := by
  unfold DRR.Schedule at h
  split at h
  · simp at h
  · simp only at h
    split at h
    · simp at h
    · split at h
      · simp at h
      · rename_i packet idx temp hloop
        simp only [Except.ok.injEq, Prod.mk.injEq, Option.some.injEq] at h
        obtain ⟨h1, h2⟩ := h
        subst h1; subst h2
        exact ⟨idx, temp, hloop, rfl, rfl⟩

/-- C33, amended: when `Schedule` returns a packet from a committed state in
which every class with a head packet has its balance plus its weight below
`2 ^ 32` and the size of its head plus its weight at most `2 ^ 32`, so that
no addition leaves the range of `uint32_t`, the loop made `t + 1` visits,
at the indices `(m_currentQueueIndex + j) % size` for `j ≤ t`, the last one
at the resulting `m_scheduledQueueIndex`; the packet is the head of that
class; with `k` the number of those visits that fell on a class, the
tentative balance of the scheduled class is its committed balance plus `k`
weights minus the packet size, `k ≥ 1`, and below the packet size when the
class was visited before the winning visit; every other class that is not
empty holds its committed balance plus `k` weights, which is below the size
of its head packet when it was visited; and every empty class and every
class never visited keeps its committed balance. -/
theorem schedule_result_follows_the_walk (fuel : Nat) (self s1 : DRR) (pkt : Packet)
    (hnw : DRR.NoWrap self.m_queueClasses self.m_creditBalance)
    (h : DRR.Schedule fuel self = Except.ok (some pkt, s1)) :
    ∃ t, t < fuel ∧
      DRR.walk self.m_queueClasses.length self.m_currentQueueIndex (t + 1) =
        (List.range (t + 1)).map
          (fun j => (self.m_currentQueueIndex + j) % self.m_queueClasses.length) ∧
      s1.m_scheduledQueueIndex =
        (self.m_currentQueueIndex + t) % self.m_queueClasses.length ∧
      (∃ tc, self.m_queueClasses[s1.m_scheduledQueueIndex]? = some tc ∧
        tc.IsEmpty = false ∧ tc.Peek = some pkt ∧ tc.m_queue.head? = some pkt) ∧
      s1.m_tempCreditBalance.length = self.m_creditBalance.length ∧
      ∀ (i : Nat) (tci : TrafficClass) (c : Nat),
        self.m_queueClasses[i]? = some tci → self.m_creditBalance[i]? = some c →
        (tci.IsEmpty = true → s1.m_tempCreditBalance[i]? = some c) ∧
        ((DRR.walk self.m_queueClasses.length self.m_currentQueueIndex (t + 1)).count i = 0 →
          s1.m_tempCreditBalance[i]? = some c) ∧
        (tci.IsEmpty = false → i ≠ s1.m_scheduledQueueIndex →
          s1.m_tempCreditBalance[i]? =
            some (c +
              (DRR.walk self.m_queueClasses.length self.m_currentQueueIndex (t + 1)).count i *
                tci.GetWeight) ∧
          (0 < (DRR.walk self.m_queueClasses.length self.m_currentQueueIndex (t + 1)).count i →
            ∀ hd, tci.Peek = some hd →
              c +
                (DRR.walk self.m_queueClasses.length self.m_currentQueueIndex
                  (t + 1)).count i * tci.GetWeight < hd.size)) ∧
        (i = s1.m_scheduledQueueIndex →
          1 ≤ (DRR.walk self.m_queueClasses.length self.m_currentQueueIndex (t + 1)).count i ∧
          pkt.size ≤ c +
            (DRR.walk self.m_queueClasses.length self.m_currentQueueIndex (t + 1)).count i *
              tci.GetWeight ∧
          s1.m_tempCreditBalance[i]? =
            some (c +
              (DRR.walk self.m_queueClasses.length self.m_currentQueueIndex (t + 1)).count i *
                tci.GetWeight - pkt.size) ∧
          (2 ≤ (DRR.walk self.m_queueClasses.length self.m_currentQueueIndex (t + 1)).count i →
            c +
              (DRR.walk self.m_queueClasses.length self.m_currentQueueIndex (t + 1)).count i *
                tci.GetWeight - pkt.size < pkt.size)) := by
  obtain ⟨idx, temp, hloop, hidx, htemp⟩ := DRR.schedule_some_loop fuel self s1 pkt h
  have hcur := DRR.scheduleLoop_ok_idx_lt _ _ _ _ _ hloop
  obtain ⟨tc, htc, hne, hpeek⟩ := DRR.scheduleLoop_ok_head _ _ _ _ _ _ _ hloop
  obtain ⟨t, ht, hlast, hlen, hall⟩ :=
    DRR.scheduleLoop_walk self.m_queueClasses fuel self.m_currentQueueIndex
      self.m_creditBalance pkt idx temp hnw hloop
  rw [DRR.walk_last _ t _ hcur] at hlast
  simp only [Option.some.injEq] at hlast
  rw [hidx, htemp]
  refine ⟨t, ht, DRR.walk_eq_map _ _ _ hcur, hlast.symm, ⟨tc, htc, hne, hpeek, ?_⟩, hlen, ?_⟩
  · simpa [TrafficClass.Peek, hne] using hpeek
  · intro i tci c hi hc
    obtain ⟨a1, a2, a3⟩ := hall i tci c hi hc
    refine ⟨a1, ?_, a2, ?_⟩
    · intro hk
      by_cases hemp : tci.IsEmpty = true
      · exact a1 hemp
      · simp only [Bool.not_eq_true] at hemp
        by_cases hii : i = idx
        · have := (a3 hii).1
          omega
        · have := (a2 hemp hii).1
          rw [hk] at this
          simpa using this
    · intro hii
      obtain ⟨b1, b2, b3, b4⟩ := a3 hii
      exact ⟨b1, b2, b3, fun hk => b4 (Or.inl hk)⟩

theorem DRR.noWrap_of_forall (ql : List TrafficClass) (temp : List Nat)
    (hsize : ∀ tc ∈ ql, ∀ head ∈ tc.m_queue, head.size + tc.GetWeight ≤ 2 ^ 32)
    (hbal : ∀ c ∈ temp, ∀ tc ∈ ql, c + tc.GetWeight < 2 ^ 32) : DRR.NoWrap ql temp := by
  intro i tc head c hi hp hc
  exact ⟨hbal c (List.getElem?_mem hc) tc (List.getElem?_mem hi),
    hsize tc (List.getElem?_mem hi) head (TrafficClass.peek_mem tc head hp)⟩

/-- Witness for C33, amended: classes of weights 300 and 200 with heads of 1000 and
500 bytes and zero balances: `Schedule` returns the head of class 1 with the
tentative balances 900 and 100, the walk having visited each class `k` times
with `500 ≤ k * 200`. -/
theorem schedule_result_follows_the_walk_witness :
    ∃ t, t < 10 ∧
      twoClassDRRAfterPeek.m_scheduledQueueIndex =
        (twoClassDRR.m_currentQueueIndex + t) % twoClassDRR.m_queueClasses.length ∧
      1 ≤ (DRR.walk twoClassDRR.m_queueClasses.length twoClassDRR.m_currentQueueIndex
        (t + 1)).count 1 ∧
      twoClassDRRAfterPeek.m_tempCreditBalance[1]? =
        some (0 +
          (DRR.walk twoClassDRR.m_queueClasses.length twoClassDRR.m_currentQueueIndex
            (t + 1)).count 1 * (plainClass [plainPacket 3 500] 200 0).GetWeight -
          (plainPacket 3 500).size) ∧
      twoClassDRRAfterPeek.m_tempCreditBalance = [900, 100] := by
  obtain ⟨t, h1, _, h3, _, _, h6⟩ :=
    schedule_result_follows_the_walk 10 twoClassDRR twoClassDRRAfterPeek (plainPacket 3 500)
      (DRR.noWrap_of_forall _ _ (by decide) (by decide)) rfl
  obtain ⟨b1, _, b3, _⟩ := (h6 1 (plainClass [plainPacket 3 500] 200 0) 0 rfl rfl).2.2.2 rfl
  exact ⟨t, h1, h3, b1, b3, rfl⟩

/-! ## Balances that leave the range of `uint32_t` -/

/-- Counterexample for C33: a new object with one class of weight 3000000000
and two packets of 1000 bytes reaches, by its first `Dequeue ()`, the balance
2999999000; the next `Schedule` returns the second packet from class 0 after
a single visit and leaves the tentative balance 1705030704, while the
committed balance plus one weight minus the packet size is 5999998000. -/
theorem schedule_balance_wraps :
    DRR.FromFresh heavyCreditDRR ∧
    DRR.Dequeue 1 heavyLoadedDRR = Except.ok (some (udpPacket 1 1000), heavyCreditDRR) ∧
    heavyCreditDRR.m_creditBalance = [2999999000] ∧
    DRR.Schedule 1 heavyCreditDRR =
      Except.ok (some (udpPacket 2 1000),
        { heavyCreditDRR with
          m_scheduledQueueIndex := 0
          m_tempCreditBalance := [1705030704] }) ∧
    (DRR.walk heavyCreditDRR.m_queueClasses.length heavyCreditDRR.m_currentQueueIndex
      1).count 0 = 1 ∧
    2999999000 + 1 * 3000000000 - (udpPacket 2 1000).size = 5999998000 ∧
    1705030704 ≠ 2999999000 + 1 * 3000000000 - (udpPacket 2 1000).size := by
  have hd : DRR.Dequeue 1 heavyLoadedDRR =
      Except.ok (some (udpPacket 1 1000), heavyCreditDRR) := by rfl
  refine ⟨?_, hd, rfl, ?_, ?_, ?_, ?_⟩
  · exact DRR.FromFresh.dequeue heavyLoadedDRR heavyCreditDRR 1 (some (udpPacket 1 1000))
      (DRR.FromFresh.enqueue _ (udpPacket 2 1000)
        (DRR.FromFresh.enqueue _ (udpPacket 1 1000)
          (DRR.FromFresh.addClass _ _ (DRR.FromFresh.fresh 0)))) hd
  · rfl
  · decide
  · decide
  · decide

/-- Counterexample for C35: a new object with a UDP class of weight
2147484248 and a TCP class of weight 1000, three packets of 1000 bytes in
each, the cursor at class 0: three `Dequeue ()` calls return the first UDP
packet and then two TCP packets although class 0 still holds two packets of
1000 bytes; after the first call the balance of class 0 is 2147483248, which
plus its weight is 4294967496, at least 1000, and `Schedule` selects class 1,
leaving class 0 the balance 200. -/
theorem cursor_class_loses_turn_on_wrap :
    DRR.FromFresh wrappingDRR ∧
    wrappingDRR.m_queueClasses =
      [(protocolQueue 17 2147484248 0).withQueue
          [udpPacket 1 1000, udpPacket 2 1000, udpPacket 3 1000],
        (protocolQueue 6 1000 0).withQueue
          [tcpPacket 4 1000, tcpPacket 5 1000, tcpPacket 6 1000]] ∧
    wrappingDRR.m_currentQueueIndex = 0 ∧
    wrappingDRR.m_creditBalance = [0, 0] ∧
    (DRR.dequeueTimes 2 3 wrappingDRR).map Prod.fst =
      Except.ok [some (udpPacket 1 1000), some (tcpPacket 4 1000), some (tcpPacket 5 1000)] ∧
    DRR.Dequeue 2 wrappingDRR =
      Except.ok (some (udpPacket 1 1000), wrappingDRRAfterDequeue) ∧
    1000 ≤ 2147483248 + 2147484248 ∧
    DRR.Schedule 2 wrappingDRRAfterDequeue =
      Except.ok (some (tcpPacket 4 1000),
        { wrappingDRRAfterDequeue with
          m_scheduledQueueIndex := 1
          m_tempCreditBalance := [200, 0] }) := by
  refine ⟨?_, ?_, rfl, rfl, ?_, ?_, ?_, ?_⟩
  · exact DRR.FromFresh.enqueue _ (tcpPacket 6 1000)
      (DRR.FromFresh.enqueue _ (tcpPacket 5 1000)
        (DRR.FromFresh.enqueue _ (tcpPacket 4 1000)
          (DRR.FromFresh.enqueue _ (udpPacket 3 1000)
            (DRR.FromFresh.enqueue _ (udpPacket 2 1000)
              (DRR.FromFresh.enqueue _ (udpPacket 1 1000)
                (DRR.FromFresh.addClass _ _
                  (DRR.FromFresh.addClass _ _ (DRR.FromFresh.fresh 0))))))))
  · decide
  · rfl
  · rfl
  · decide
  · rfl

end QoS
